import Mathlib

/-!
# AES-128 encryption (`AES.cpp`): shallow embedding and verified properties

Bytes (`uint8_t`, `BYTE`, `char`) are natural numbers below 256.  C arrays are
lists; an array passed by pointer and written in place is threaded through the
function as an explicit value (`List.set`), and a pointer offset `a + k` used
as an argument is the suffix `a.drop k`.  Array reads are `List.getD _ _ 0`.
Every result below is stated for arrays of the sizes the program allocates,
where each read is in bounds.  Integer promotion is followed: a shift is
computed in `int` and reduced `% 256` where the source stores it in, or casts
it to, a byte.  An exclusive-or of two bytes is already a byte and carries no
reduction.  Loops whose trip count is not a literal constant take a fuel
argument and return `none` when it runs out.
-/

namespace AES

/-! ## Constants -/

def keySize : Nat := 16
def blockSize : Nat := 16
def rounds : Nat := 10
def rowSize : Nat := blockSize / 4
def rcon : List Nat := [0x01, 0x02, 0x04, 0x08, 0x10, 0x20, 0x40, 0x80, 0x1B, 0x36]

/-- The macro `ROTL8(x,shift)`: `((uint8_t) ((x) << (shift)) | ((x) >> (8 - (shift))))`. -/
def ROTL8 (x shift : Nat) : Nat := ((x <<< shift) % 256) ||| (x >>> (8 - shift))

/-- A list is an array of `n` bytes. -/
def IsBytes (n : Nat) (l : List Nat) : Prop := l.length = n ∧ ∀ x ∈ l, x < 256

instance (n : Nat) (l : List Nat) : Decidable (IsBytes n l) := by
  unfold IsBytes; infer_instance

/-! ## InitializeSbox -/

/-- The new value of `p` in one pass of the loop of `InitializeSbox`
(`p = p ^ (p << 1) ^ (p & 0x80 ? 0x1B : 0)`, stored in a `uint8_t`). -/
def sboxNextP (p : Nat) : Nat :=
  (p ^^^ (p <<< 1) ^^^ (if p &&& 0x80 ≠ 0 then 0x1B else 0)) % 256

/-- The new value of `q` in one pass of the loop of `InitializeSbox`: the four
compound assignments to the `uint8_t` variable `q`, in order. -/
def sboxNextQ (q : Nat) : Nat :=
  let q := (q ^^^ (q <<< 1)) % 256
  let q := (q ^^^ (q <<< 2)) % 256
  let q := (q ^^^ (q <<< 4)) % 256
  let q := (q ^^^ (if q &&& 0x80 ≠ 0 then 0x09 else 0)) % 256
  q

/-- The variable `xformed` computed from `q`, stored in a `uint8_t`. -/
def sboxXformed (q : Nat) : Nat :=
  (q ^^^ ROTL8 q 1 ^^^ ROTL8 q 2 ^^^ ROTL8 q 3 ^^^ ROTL8 q 4) % 256

/-- The `do { ... } while (p != 1)` loop of `InitializeSbox`, started with the
given `p`, `q` and array.  The body runs before the test; `none` when the fuel
is used up before the test fails. -/
def InitializeSboxLoop : Nat → Nat → Nat → List Nat → Option (List Nat)
  | 0, _, _, _ => none
  | fuel + 1, p, q, s_box =>
    let p := sboxNextP p
    let q := sboxNextQ q
    let xformed := sboxXformed q
    let s_box := s_box.set p (xformed ^^^ 0x63)
    if p ≠ 1 then InitializeSboxLoop fuel p q s_box else some s_box

/-- The function `InitializeSbox`.  The argument is the content of the array
before the call; the result is its content after it.  The loop variable `p` is
a byte, so 256 passes are allowed for. -/
def InitializeSbox (s_box : List Nat) : Option (List Nat) :=
  match InitializeSboxLoop 256 1 1 s_box with
  | none => none
  | some s_box => some (s_box.set 0 0x63)

/-! ## MultiplyColumn and MixColumns -/

/-- The conversion `(signed char) b` of a byte (two's complement). -/
def toSignedChar (b : Nat) : Int := if b % 256 < 128 then (b % 256 : Nat) else ((b % 256 : Nat) : Int) - 256

/-- The conversion `(BYTE) v` of an `int`. -/
def toByte (v : Int) : Nat := (v % 256).toNat

/-- The value `twos[i]` computed in `MultiplyColumn` from the byte `col[i]`:
the arithmetic right shift of the signed byte gives the mask `high_bit`. -/
def twosOf (c : Nat) : Nat :=
  let high_bit := toByte (toSignedChar c >>> 7)
  let t := (c <<< 1) % 256
  t ^^^ (0x1B &&& high_bit)

/-- The function `MultiplyColumn`.  The argument is the array seen through the
pointer `col`; its first four cells are overwritten. -/
def MultiplyColumn (col : List Nat) : List Nat :=
  let ones := (List.range rowSize).map fun i => col.getD i 0
  let twos := (List.range rowSize).map fun i => twosOf (col.getD i 0)
  let col := col.set 0 (twos.getD 0 0 ^^^ ones.getD 3 0 ^^^ ones.getD 2 0 ^^^ twos.getD 1 0 ^^^ ones.getD 1 0)
  let col := col.set 1 (twos.getD 1 0 ^^^ ones.getD 0 0 ^^^ ones.getD 3 0 ^^^ twos.getD 2 0 ^^^ ones.getD 2 0)
  let col := col.set 2 (twos.getD 2 0 ^^^ ones.getD 1 0 ^^^ ones.getD 0 0 ^^^ twos.getD 3 0 ^^^ ones.getD 3 0)
  let col := col.set 3 (twos.getD 3 0 ^^^ ones.getD 2 0 ^^^ ones.getD 1 0 ^^^ twos.getD 0 0 ^^^ ones.getD 0 0)
  col

/-- The function `MixColumns`: `i` runs over `0, rowSize, 2*rowSize, ...` below
`blockSize`, and `MultiplyColumn` is applied to `state + i`. -/
def MixColumns (state : List Nat) : List Nat :=
  ((List.range blockSize).filter fun i => i % rowSize = 0).foldl
    (fun state i => state.take i ++ MultiplyColumn (state.drop i)) state

/-! ## ExpandKey -/

/-- One pass of the `while` loop of `ExpandKey`, on the variables
`(total_bytes, rcon_index, expanded_keys)`. -/
def ExpandKeyStep (s_box : List Nat) (st : Nat × Nat × List Nat) : Nat × Nat × List Nat :=
  let total_bytes := st.1
  let rcon_index := st.2.1
  let expanded_keys := st.2.2
  let temp := (List.range rowSize).map fun i => expanded_keys.getD (total_bytes - rowSize + i) 0
  let tr : List Nat × Nat :=
    if total_bytes % blockSize = 0 then
      let first := temp.getD 0 0
      let temp := (List.range (rowSize - 1)).foldl (fun temp i => temp.set i (temp.getD (i + 1) 0)) temp
      let temp := temp.set (rowSize - 1) first
      let temp := (List.range rowSize).foldl (fun temp i => temp.set i (s_box.getD (temp.getD i 0) 0)) temp
      let temp := temp.set 0 (temp.getD 0 0 ^^^ rcon.getD (rcon_index - 1) 0)
      (temp, rcon_index + 1)
    else (temp, rcon_index)
  let temp := tr.1
  let rcon_index := tr.2
  let et : List Nat × Nat := (List.range rowSize).foldl
    (fun et i => (et.1.set et.2 (et.1.getD (et.2 - 16) 0 ^^^ temp.getD i 0), et.2 + 1))
    (expanded_keys, total_bytes)
  (et.2, rcon_index, et.1)

/-- The loop `while (total_bytes < (keySize * (rounds + 1)))` of `ExpandKey`. -/
def ExpandKeyLoop (s_box : List Nat) : Nat → Nat × Nat × List Nat → Option (List Nat)
  | 0, st => if st.1 < keySize * (rounds + 1) then none else some st.2.2
  | fuel + 1, st =>
    if st.1 < keySize * (rounds + 1) then ExpandKeyLoop s_box fuel (ExpandKeyStep s_box st)
    else some st.2.2

/-- The function `ExpandKey`.  The argument `expanded_keys` is the content of
the output array before the call, the result its content after it.  The loop
adds to `total_bytes` in every pass, so `keySize * (rounds + 1)` passes are
allowed for. -/
def ExpandKey (key expanded_keys s_box : List Nat) : Option (List Nat) :=
  let expanded_keys := (List.range keySize).foldl
    (fun expanded_keys i => expanded_keys.set i (key.getD i 0)) expanded_keys
  ExpandKeyLoop s_box (keySize * (rounds + 1)) (16, 1, expanded_keys)

/-! ## The round functions -/

/-- The function `SubBytes`. -/
def SubBytes (state s_box : List Nat) : List Nat :=
  (List.range blockSize).foldl (fun state i => state.set i (s_box.getD (state.getD i 0) 0)) state

/-- The function `ShiftRows`: the local array `temp` is filled cell by cell
and copied back. -/
def ShiftRows (state : List Nat) : List Nat :=
  let temp : List Nat :=
    [state.getD 0 0, state.getD 5 0, state.getD 10 0, state.getD 15 0,
     state.getD 4 0, state.getD 9 0, state.getD 14 0, state.getD 3 0,
     state.getD 8 0, state.getD 13 0, state.getD 2 0, state.getD 7 0,
     state.getD 12 0, state.getD 1 0, state.getD 6 0, state.getD 11 0]
  (List.range blockSize).foldl (fun state i => state.set i (temp.getD i 0)) state

/-- The function `AddRoundKey`. -/
def AddRoundKey (state round_key : List Nat) : List Nat :=
  (List.range blockSize).foldl
    (fun state i => state.set i (state.getD i 0 ^^^ round_key.getD i 0)) state

/-! ## Encrypt -/

/-- The body of the loop of the nine main rounds of `Encrypt`, on the
variables `(state, key_index)`. -/
def EncryptRound (expanded_keys s_box : List Nat) (sk : List Nat × Nat) : List Nat × Nat :=
  let state := SubBytes sk.1 s_box
  let state := ShiftRows state
  let state := MixColumns state
  let state := AddRoundKey state (expanded_keys.drop sk.2)
  (state, sk.2 + keySize)

/-- The function `Encrypt`.  The result is the pair of the arrays `block` and
`cipher_text` after the call; the source has no assignment to a cell of
`block`, so the first component is the argument. -/
def Encrypt (block cipher_text expanded_keys s_box : List Nat) : List Nat × List Nat :=
  let state := (List.range blockSize).map fun i => block.getD i 0
  let state := AddRoundKey state expanded_keys
  let key_index := keySize
  let sk := (List.range (rounds - 1)).foldl
    (fun sk _ => EncryptRound expanded_keys s_box sk) (state, key_index)
  let state := sk.1
  let key_index := sk.2
  let state := SubBytes state s_box
  let state := ShiftRows state
  let state := AddRoundKey state (expanded_keys.drop key_index)
  (block, (List.range blockSize).foldl
    (fun cipher_text i => cipher_text.set i (state.getD i 0)) cipher_text)

/-! ## main

Standard input is the list of bytes not yet read, standard output the list of
bytes written so far.  A `char` and the `BYTE` it is converted to or from are
the same number below 256.  The local arrays and the `temp` of the key loop
are not initialised by the source; `junk` stands for their content. -/

/-- The call `std::cin.get(temp)`: with input left, the next byte is consumed
and stored in `temp` and the call succeeds; at end of input `temp` keeps its
value and the call fails.  The result is `(success, temp, input left)`. -/
def cinGet (stdin : List Nat) (temp : Nat) : Bool × Nat × List Nat :=
  match stdin with
  | [] => (false, temp, [])
  | c :: rest => (true, c, rest)

/-- The key loop of `main`, on `(key, stdin)`; `temp` is declared in the body. -/
def readKey (junk : Nat) (stdin : List Nat) : List Nat × List Nat :=
  (List.range keySize).foldl
    (fun ks i =>
      let g := cinGet ks.2 junk
      (ks.1.set i g.2.1, g.2.2))
    (List.replicate keySize junk, stdin)

/-- The loop `for (int i = 1; i < blockSize; i++)` of `main` that reads the rest
of a block, on `(block, temp, stdin)`. -/
def readBlock (block : List Nat) (temp : Nat) (stdin : List Nat) : List Nat × Nat × List Nat :=
  (List.range' 1 (blockSize - 1)).foldl
    (fun bts i =>
      let g := cinGet bts.2.2 bts.2.1
      (bts.1.set i g.2.1, g.2.1, g.2.2))
    (block, temp, stdin)

/-- The loop `while (std::cin.get(temp))` of `main`, on `(temp, stdin, stdout)`. -/
def mainLoop (junk : Nat) (expanded_keys s_box : List Nat) :
    Nat → Nat × List Nat × List Nat → Option (List Nat)
  | 0, _ => none
  | fuel + 1, st =>
    let g := cinGet st.2.1 st.1
    if g.1 then
      let block := (List.replicate blockSize junk).set 0 g.2.1
      let bts := readBlock block g.2.1 g.2.2
      let cipher_text :=
        (Encrypt bts.1 (List.replicate blockSize junk) expanded_keys s_box).2
      let stdout := (List.range blockSize).foldl
        (fun out i => out ++ [cipher_text.getD i 0]) st.2.2
      mainLoop junk expanded_keys s_box fuel (bts.2.1, bts.2.2, stdout)
    else some st.2.2

/-- The function `main`: the result is what was written to standard output.
Every pass of the block loop consumes input, so one pass more than the number
of bytes left is allowed for. -/
def main (junk : Nat) (stdin : List Nat) : Option (List Nat) :=
  match InitializeSbox (List.replicate 256 junk) with
  | none => none
  | some s_box =>
    let ks := readKey junk stdin
    match ExpandKey ks.1 (List.replicate ((rounds + 1) * keySize) junk) s_box with
    | none => none
    | some expanded_keys =>
      mainLoop junk expanded_keys s_box (ks.2.length + 1) (junk, ks.2, [])

/-! ## Specification-side and auxiliary definitions -/

/-- The published forward S-box of FIPS-197 (Figure 7), row by row. -/
def sboxTable : List Nat :=
  [0x63, 0x7c, 0x77, 0x7b, 0xf2, 0x6b, 0x6f, 0xc5, 0x30, 0x01, 0x67, 0x2b, 0xfe, 0xd7, 0xab, 0x76,
   0xca, 0x82, 0xc9, 0x7d, 0xfa, 0x59, 0x47, 0xf0, 0xad, 0xd4, 0xa2, 0xaf, 0x9c, 0xa4, 0x72, 0xc0,
   0xb7, 0xfd, 0x93, 0x26, 0x36, 0x3f, 0xf7, 0xcc, 0x34, 0xa5, 0xe5, 0xf1, 0x71, 0xd8, 0x31, 0x15,
   0x04, 0xc7, 0x23, 0xc3, 0x18, 0x96, 0x05, 0x9a, 0x07, 0x12, 0x80, 0xe2, 0xeb, 0x27, 0xb2, 0x75,
   0x09, 0x83, 0x2c, 0x1a, 0x1b, 0x6e, 0x5a, 0xa0, 0x52, 0x3b, 0xd6, 0xb3, 0x29, 0xe3, 0x2f, 0x84,
   0x53, 0xd1, 0x00, 0xed, 0x20, 0xfc, 0xb1, 0x5b, 0x6a, 0xcb, 0xbe, 0x39, 0x4a, 0x4c, 0x58, 0xcf,
   0xd0, 0xef, 0xaa, 0xfb, 0x43, 0x4d, 0x33, 0x85, 0x45, 0xf9, 0x02, 0x7f, 0x50, 0x3c, 0x9f, 0xa8,
   0x51, 0xa3, 0x40, 0x8f, 0x92, 0x9d, 0x38, 0xf5, 0xbc, 0xb6, 0xda, 0x21, 0x10, 0xff, 0xf3, 0xd2,
   0xcd, 0x0c, 0x13, 0xec, 0x5f, 0x97, 0x44, 0x17, 0xc4, 0xa7, 0x7e, 0x3d, 0x64, 0x5d, 0x19, 0x73,
   0x60, 0x81, 0x4f, 0xdc, 0x22, 0x2a, 0x90, 0x88, 0x46, 0xee, 0xb8, 0x14, 0xde, 0x5e, 0x0b, 0xdb,
   0xe0, 0x32, 0x3a, 0x0a, 0x49, 0x06, 0x24, 0x5c, 0xc2, 0xd3, 0xac, 0x62, 0x91, 0x95, 0xe4, 0x79,
   0xe7, 0xc8, 0x37, 0x6d, 0x8d, 0xd5, 0x4e, 0xa9, 0x6c, 0x56, 0xf4, 0xea, 0x65, 0x7a, 0xae, 0x08,
   0xba, 0x78, 0x25, 0x2e, 0x1c, 0xa6, 0xb4, 0xc6, 0xe8, 0xdd, 0x74, 0x1f, 0x4b, 0xbd, 0x8b, 0x8a,
   0x70, 0x3e, 0xb5, 0x66, 0x48, 0x03, 0xf6, 0x0e, 0x61, 0x35, 0x57, 0xb9, 0x86, 0xc1, 0x1d, 0x9e,
   0xe1, 0xf8, 0x98, 0x11, 0x69, 0xd9, 0x8e, 0x94, 0x9b, 0x1e, 0x87, 0xe9, 0xce, 0x55, 0x28, 0xdf,
   0x8c, 0xa1, 0x89, 0x0d, 0xbf, 0xe6, 0x42, 0x68, 0x41, 0x99, 0x2d, 0x0f, 0xb0, 0x54, 0xbb, 0x16]

/-- A sequence of array writes `(index, value)` applied in order. -/
def applyWrites (ws : List (Nat × Nat)) (s : List Nat) : List Nat :=
  ws.foldl (fun s w => s.set w.1 w.2) s

/-- The value of the last write to index `i` in a sequence of writes. -/
def lastWrite (i : Nat) : List (Nat × Nat) → Option Nat
  | [] => none
  | w :: ws =>
    match lastWrite i ws with
    | some v => some v
    | none => if w.1 = i then some w.2 else none

/-- The writes `s_box[p] = ...` made by the loop of `InitializeSbox`, in order;
the same recursion as `InitializeSboxLoop` without the array. -/
def sboxTrace : Nat → Nat → Nat → Option (List (Nat × Nat))
  | 0, _, _ => none
  | fuel + 1, p, q =>
    let p := sboxNextP p
    let q := sboxNextQ q
    let w := (p, sboxXformed q ^^^ 0x63)
    if p ≠ 1 then (sboxTrace fuel p q).map (fun ws => w :: ws) else some [w]

/-- All writes of `InitializeSbox`: those of the loop, then `s_box[0] = 0x63`. -/
def sboxWrites : List (Nat × Nat) := (sboxTrace 256 1 1).getD [] ++ [(0, 0x63)]

/-- Doubling in GF(2^8) as the specification words it: shift left by one bit
and, if the high bit was set, exclusive-or with `0x1B`. -/
def times2 (b : Nat) : Nat := ((b <<< 1) % 256) ^^^ (if b ≥ 0x80 then 0x1B else 0)

/-- Tripling in GF(2^8) as the specification words it. -/
def times3 (b : Nat) : Nat := times2 b ^^^ b

/-- The AES-128 key-schedule recurrence at byte index `i` of a schedule `e`
with table `s`, as the specification states it: with `j = i mod 4` and
`w = i - j`, a word that does not start a round key is the exclusive-or of
the words 16 and 4 bytes earlier; a word that does is the word 16 bytes earlier
combined with the previous word rotated by one byte, substituted, and with the
round constant added to its first byte. -/
def KeyRecurrence (s e : List Nat) (i : Nat) : Prop :=
  (¬ (i - i % 4) % 16 = 0 → e.getD i 0 = e.getD (i - 16) 0 ^^^ e.getD (i - 4) 0) ∧
  ((i - i % 4) % 16 = 0 →
    e.getD i 0 = e.getD (i - 16) 0 ^^^ s.getD (e.getD (i - i % 4 - 4 + (i % 4 + 1) % 4) 0) 0 ^^^
      (if i % 4 = 0 then rcon.getD ((i - i % 4) / 16 - 1) 0 else 0))

/-- The state of the loop of `ExpandKey` is consistent: `total_bytes` is a
multiple of 4 between 16 and 176, `rcon_index` counts the round keys begun,
the first 16 bytes are the key and the recurrence holds below `total_bytes`. -/
def ExpandKeyInv (key s : List Nat) (st : Nat × Nat × List Nat) : Prop :=
  st.2.2.length = 176 ∧ st.1 % 4 = 0 ∧ 16 ≤ st.1 ∧ st.1 ≤ 176 ∧ st.2.1 = (st.1 + 15) / 16 ∧
  (∀ i, i < 16 → st.2.2.getD i 0 = key.getD i 0) ∧
  ∀ i, 16 ≤ i → i < st.1 → KeyRecurrence s st.2.2 i

/-- The FIPS-197 Appendix B/C.1 key `000102030405060708090a0b0c0d0e0f`. -/
def fipsKey : List Nat :=
  [0x00, 0x01, 0x02, 0x03, 0x04, 0x05, 0x06, 0x07, 0x08, 0x09, 0x0a, 0x0b, 0x0c, 0x0d, 0x0e, 0x0f]

/-- The FIPS-197 Appendix C.1 plaintext `00112233445566778899aabbccddeeff`. -/
def fipsBlock : List Nat :=
  [0x00, 0x11, 0x22, 0x33, 0x44, 0x55, 0x66, 0x77, 0x88, 0x99, 0xaa, 0xbb, 0xcc, 0xdd, 0xee, 0xff]

/-- The FIPS-197 Appendix C.1 ciphertext `69c4e0d86a7b0430d8cdb78070b4c55a`. -/
def fipsCipher : List Nat :=
  [0x69, 0xc4, 0xe0, 0xd8, 0x6a, 0x7b, 0x04, 0x30, 0xd8, 0xcd, 0xb7, 0x80, 0x70, 0xb4, 0xc5, 0x5a]

/-- Round key `i` of a schedule, as the specification states it: the bytes
`[16i, 16i+16)`. -/
def roundKey (e : List Nat) (i : Nat) : List Nat := (e.drop (16 * i)).take 16

/-- The encryption of one block as the specification states it: `AddRoundKey`
with round key 0; for round 1 to 9 `SubBytes`, `ShiftRows`, `MixColumns`,
`AddRoundKey` with round key `round`; then `SubBytes`, `ShiftRows` and
`AddRoundKey` with round key 10. -/
def EncryptSpec (b e s : List Nat) : List Nat :=
  let state := AddRoundKey b (roundKey e 0)
  let state := [1, 2, 3, 4, 5, 6, 7, 8, 9].foldl
    (fun state round =>
      AddRoundKey (MixColumns (ShiftRows (SubBytes state s))) (roundKey e round)) state
  AddRoundKey (ShiftRows (SubBytes state s)) (roundKey e 10)

/-- The schedule of the key `fipsKey`: the round keys `k_sch` of FIPS-197
Appendix C.1, one round key per row. -/
def fipsSchedule : List Nat :=
  [0x00, 0x01, 0x02, 0x03, 0x04, 0x05, 0x06, 0x07, 0x08, 0x09, 0x0a, 0x0b, 0x0c, 0x0d, 0x0e, 0x0f,
   0xd6, 0xaa, 0x74, 0xfd, 0xd2, 0xaf, 0x72, 0xfa, 0xda, 0xa6, 0x78, 0xf1, 0xd6, 0xab, 0x76, 0xfe,
   0xb6, 0x92, 0xcf, 0x0b, 0x64, 0x3d, 0xbd, 0xf1, 0xbe, 0x9b, 0xc5, 0x00, 0x68, 0x30, 0xb3, 0xfe,
   0xb6, 0xff, 0x74, 0x4e, 0xd2, 0xc2, 0xc9, 0xbf, 0x6c, 0x59, 0x0c, 0xbf, 0x04, 0x69, 0xbf, 0x41,
   0x47, 0xf7, 0xf7, 0xbc, 0x95, 0x35, 0x3e, 0x03, 0xf9, 0x6c, 0x32, 0xbc, 0xfd, 0x05, 0x8d, 0xfd,
   0x3c, 0xaa, 0xa3, 0xe8, 0xa9, 0x9f, 0x9d, 0xeb, 0x50, 0xf3, 0xaf, 0x57, 0xad, 0xf6, 0x22, 0xaa,
   0x5e, 0x39, 0x0f, 0x7d, 0xf7, 0xa6, 0x92, 0x96, 0xa7, 0x55, 0x3d, 0xc1, 0x0a, 0xa3, 0x1f, 0x6b,
   0x14, 0xf9, 0x70, 0x1a, 0xe3, 0x5f, 0xe2, 0x8c, 0x44, 0x0a, 0xdf, 0x4d, 0x4e, 0xa9, 0xc0, 0x26,
   0x47, 0x43, 0x87, 0x35, 0xa4, 0x1c, 0x65, 0xb9, 0xe0, 0x16, 0xba, 0xf4, 0xae, 0xbf, 0x7a, 0xd2,
   0x54, 0x99, 0x32, 0xd1, 0xf0, 0x85, 0x57, 0x68, 0x10, 0x93, 0xed, 0x9c, 0xbe, 0x2c, 0x97, 0x4e,
   0x13, 0x11, 0x1d, 0x7f, 0xe3, 0x94, 0x4a, 0x17, 0xf3, 0x07, 0xa7, 0x8b, 0x4d, 0x2b, 0x30, 0xc5]

/-- Block `i` of a byte list: the bytes `[16i, 16i+16)`. -/
def blockAt (l : List Nat) (i : Nat) : List Nat := (l.drop (16 * i)).take 16

/-- The concatenation of the encryptions of the first `n` 16-byte blocks. -/
def encryptBlocks (e s : List Nat) : Nat → List Nat → List Nat
  | 0, _ => []
  | n + 1, p => EncryptSpec (p.take 16) e s ++ encryptBlocks e s n (p.drop 16)

/-- The AES-128 reference ciphertext `66e94bd4ef8a2c3b884cfa59ca342b2e` of the
all-zero block under the all-zero key. -/
def zeroCipher : List Nat :=
  [0x66, 0xe9, 0x4b, 0xd4, 0xef, 0x8a, 0x2c, 0x3b, 0x88, 0x4c, 0xfa, 0x59, 0xca, 0x34, 0x2b, 0x2e]

/-- The schedule of the all-zero key, one round key per row. -/
def zeroSchedule : List Nat :=
  [0x00, 0x00, 0x00, 0x00, 0x00, 0x00, 0x00, 0x00, 0x00, 0x00, 0x00, 0x00, 0x00, 0x00, 0x00, 0x00,
   0x62, 0x63, 0x63, 0x63, 0x62, 0x63, 0x63, 0x63, 0x62, 0x63, 0x63, 0x63, 0x62, 0x63, 0x63, 0x63,
   0x9b, 0x98, 0x98, 0xc9, 0xf9, 0xfb, 0xfb, 0xaa, 0x9b, 0x98, 0x98, 0xc9, 0xf9, 0xfb, 0xfb, 0xaa,
   0x90, 0x97, 0x34, 0x50, 0x69, 0x6c, 0xcf, 0xfa, 0xf2, 0xf4, 0x57, 0x33, 0x0b, 0x0f, 0xac, 0x99,
   0xee, 0x06, 0xda, 0x7b, 0x87, 0x6a, 0x15, 0x81, 0x75, 0x9e, 0x42, 0xb2, 0x7e, 0x91, 0xee, 0x2b,
   0x7f, 0x2e, 0x2b, 0x88, 0xf8, 0x44, 0x3e, 0x09, 0x8d, 0xda, 0x7c, 0xbb, 0xf3, 0x4b, 0x92, 0x90,
   0xec, 0x61, 0x4b, 0x85, 0x14, 0x25, 0x75, 0x8c, 0x99, 0xff, 0x09, 0x37, 0x6a, 0xb4, 0x9b, 0xa7,
   0x21, 0x75, 0x17, 0x87, 0x35, 0x50, 0x62, 0x0b, 0xac, 0xaf, 0x6b, 0x3c, 0xc6, 0x1b, 0xf0, 0x9b,
   0x0e, 0xf9, 0x03, 0x33, 0x3b, 0xa9, 0x61, 0x38, 0x97, 0x06, 0x0a, 0x04, 0x51, 0x1d, 0xfa, 0x9f,
   0xb1, 0xd4, 0xd8, 0xe2, 0x8a, 0x7d, 0xb9, 0xda, 0x1d, 0x7b, 0xb3, 0xde, 0x4c, 0x66, 0x49, 0x41,
   0xb4, 0xef, 0x5b, 0xcb, 0x3e, 0x92, 0xe2, 0x11, 0x23, 0xe9, 0x51, 0xcf, 0x6f, 0x8f, 0x18, 0x8e]

/-- The block that `main` builds from a trailing partial block `R`: the bytes
of `R` followed by copies of its last byte up to 16 bytes. -/
def padBlock (R : List Nat) : List Nat := R ++ List.replicate (16 - R.length) (R.getLastD 0)

/-- Carry-less product of a number with a byte: the product of the two
polynomials over GF(2) whose coefficients are the bits.  Bit `i` of `b`
contributes `a * x^i`. -/
def clmul (a b : Nat) : Nat :=
  (b % 2) * a ^^^ (b / 2 % 2) * (2 * a) ^^^ (b / 4 % 2) * (4 * a) ^^^ (b / 8 % 2) * (8 * a) ^^^
    (b / 16 % 2) * (16 * a) ^^^ (b / 32 % 2) * (32 * a) ^^^ (b / 64 % 2) * (64 * a) ^^^
    (b / 128 % 2) * (128 * a)

/-- Cancelling the term of degree `i` of a polynomial `v`, if it is present,
with the multiple `x^(i-8) * (x^8+x^4+x^3+x+1)` of the field polynomial `0x11B`;
`d` is `2^i` and `c` is `0x11B * 2^(i-8)`. -/
def cancelTerm (d c v : Nat) : Nat := v ^^^ (v / d % 2) * c

/-- Reduction of a polynomial of degree below 15 modulo `x^8+x^4+x^3+x+1`
(`0x11B`): the terms of degree 14 down to 8 are cancelled in turn. -/
def reduce11B (v : Nat) : Nat :=
  cancelTerm (2 ^ 8) 0x11B (cancelTerm (2 ^ 9) (0x11B * 2) (cancelTerm (2 ^ 10) (0x11B * 4)
    (cancelTerm (2 ^ 11) (0x11B * 8) (cancelTerm (2 ^ 12) (0x11B * 16)
      (cancelTerm (2 ^ 13) (0x11B * 32) (cancelTerm (2 ^ 14) (0x11B * 64) v))))))

/-- Multiplication in GF(2^8) as the specification states it: the carry-less
product reduced modulo `0x11B`. -/
def gfMul (a b : Nat) : Nat := reduce11B (clmul a b)

/-- The function `cancelTerm` written with the primitive operations on `Nat`,
for evaluation. -/
def cancelTermK (d c v : Nat) : Nat := Nat.xor v (Nat.mul (Nat.mod (Nat.div v d) 2) c)

/-- The function `gfMul` written with the primitive operations on `Nat` and
with the constants worked out, for evaluation. -/
def gfMulK (a b : Nat) : Nat :=
  cancelTermK 256 0x11B (cancelTermK 512 0x236 (cancelTermK 1024 0x46C (cancelTermK 2048 0x8D8
    (cancelTermK 4096 0x11B0 (cancelTermK 8192 0x2360 (cancelTermK 16384 0x46C0
      (Nat.xor (Nat.xor (Nat.xor (Nat.xor (Nat.xor (Nat.xor (Nat.xor
        (Nat.mul (Nat.mod b 2) a)
        (Nat.mul (Nat.mod (Nat.div b 2) 2) (Nat.mul 2 a)))
        (Nat.mul (Nat.mod (Nat.div b 4) 2) (Nat.mul 4 a)))
        (Nat.mul (Nat.mod (Nat.div b 8) 2) (Nat.mul 8 a)))
        (Nat.mul (Nat.mod (Nat.div b 16) 2) (Nat.mul 16 a)))
        (Nat.mul (Nat.mod (Nat.div b 32) 2) (Nat.mul 32 a)))
        (Nat.mul (Nat.mod (Nat.div b 64) 2) (Nat.mul 64 a)))
        (Nat.mul (Nat.mod (Nat.div b 128) 2) (Nat.mul 128 a)))))))))

/-- Rotation of a byte to the left by `k` bits. -/
def rotl8 (q k : Nat) : Nat := ((q <<< k) ||| (q >>> (8 - k))) % 256

/-- The affine transform `A(q)` of the specification, without its constant. -/
def affineA (q : Nat) : Nat := q ^^^ rotl8 q 1 ^^^ rotl8 q 2 ^^^ rotl8 q 3 ^^^ rotl8 q 4

/-- The loop of `InitializeSbox` with a record of the values of `(p, q)` at
each write `s_box[p] = ...`, one entry per pass, in order.  The recursion is
that of `InitializeSboxLoop`; the result is the array and the record. -/
def InitializeSboxLoopT : Nat → Nat → Nat → List Nat → Option (List Nat × List (Nat × Nat))
  | 0, _, _, _ => none
  | fuel + 1, p, q, s_box =>
    let p := sboxNextP p
    let q := sboxNextQ q
    let xformed := sboxXformed q
    let s_box := s_box.set p (xformed ^^^ 0x63)
    if p ≠ 1 then (InitializeSboxLoopT fuel p q s_box).map (fun r => (r.1, (p, q) :: r.2))
    else some (s_box, [(p, q)])

/-- The values of `(p, q)` at the writes of the loop of `InitializeSbox`: the
recursion of `InitializeSboxLoopT` without the array. -/
def sboxStates : Nat → Nat → Nat → Option (List (Nat × Nat))
  | 0, _, _ => none
  | fuel + 1, p, q =>
    let p := sboxNextP p
    let q := sboxNextQ q
    if p ≠ 1 then (sboxStates fuel p q).map (fun st => (p, q) :: st) else some [(p, q)]

/-- The values of `(p, q)` at the writes of `InitializeSbox`. -/
def sboxRun : List (Nat × Nat) := (sboxStates 255 1 1).getD []

/-- An access to one of the arrays of `ExpandKey`: a read of `key[i]`, a write
of `expanded_keys[i]`, a read of `expanded_keys[i]`, a read of `s_box[i]` or a
read of `rcon[i]`. -/
inductive Access where
  | readKey (i : Nat)
  | writeExp (i : Nat)
  | readExp (i : Nat)
  | readSbox (i : Nat)
  | readRcon (i : Nat)
  deriving DecidableEq

/-- One pass of the `while` loop of `ExpandKey` with the record of its array
accesses in program order: `ExpandKeyStep` with every loop carrying the record
along. -/
def ExpandKeyStepT (s_box : List Nat) (st : Nat × Nat × List Nat) :
    (Nat × Nat × List Nat) × List Access :=
  let total_bytes := st.1
  let rcon_index := st.2.1
  let expanded_keys := st.2.2
  let temp := (List.range rowSize).map fun i => expanded_keys.getD (total_bytes - rowSize + i) 0
  let acc := (List.range rowSize).map fun i => Access.readExp (total_bytes - rowSize + i)
  let tr : List Nat × Nat × List Access :=
    if total_bytes % blockSize = 0 then
      let first := temp.getD 0 0
      let temp := (List.range (rowSize - 1)).foldl (fun temp i => temp.set i (temp.getD (i + 1) 0)) temp
      let temp := temp.set (rowSize - 1) first
      let ta : List Nat × List Access := (List.range rowSize).foldl
        (fun ta i => (ta.1.set i (s_box.getD (ta.1.getD i 0) 0),
          ta.2 ++ [Access.readSbox (ta.1.getD i 0)])) (temp, acc)
      let temp := ta.1.set 0 (ta.1.getD 0 0 ^^^ rcon.getD (rcon_index - 1) 0)
      (temp, rcon_index + 1, ta.2 ++ [Access.readRcon (rcon_index - 1)])
    else (temp, rcon_index, acc)
  let temp := tr.1
  let rcon_index := tr.2.1
  let eta : List Nat × Nat × List Access := (List.range rowSize).foldl
    (fun eta i => (eta.1.set eta.2.1 (eta.1.getD (eta.2.1 - 16) 0 ^^^ temp.getD i 0), eta.2.1 + 1,
      eta.2.2 ++ [Access.readExp (eta.2.1 - 16), Access.writeExp eta.2.1]))
    (expanded_keys, total_bytes, tr.2.2)
  ((eta.2.1, rcon_index, eta.1), eta.2.2)

/-- The `while` loop of `ExpandKey` with the record of its array accesses:
`ExpandKeyLoop` with the record `acc` of the accesses made so far. -/
def ExpandKeyLoopT (s_box : List Nat) :
    Nat → Nat × Nat × List Nat → List Access → Option (List Nat × List Access)
  | 0, st, acc => if st.1 < keySize * (rounds + 1) then none else some (st.2.2, acc)
  | fuel + 1, st, acc =>
    if st.1 < keySize * (rounds + 1) then
      ExpandKeyLoopT s_box fuel (ExpandKeyStepT s_box st).1 (acc ++ (ExpandKeyStepT s_box st).2)
    else some (st.2.2, acc)

/-- The function `ExpandKey` with the record of its array accesses in program
order; the result is the schedule and the record. -/
def ExpandKeyT (key expanded_keys s_box : List Nat) : Option (List Nat × List Access) :=
  let ea : List Nat × List Access := (List.range keySize).foldl
    (fun ea i => (ea.1.set i (key.getD i 0), ea.2 ++ [Access.readKey i, Access.writeExp i]))
    (expanded_keys, [])
  ExpandKeyLoopT s_box (keySize * (rounds + 1)) (16, 1, ea.1) ea.2

/-- The accesses other than reads of `s_box`. -/
def Access.isCtl : Access → Bool
  | Access.readSbox _ => false
  | _ => true

/-- The index of a write of `expanded_keys`. -/
def Access.writeIdx : Access → Option Nat
  | Access.writeExp i => some i
  | _ => none

/-- The index of a read of `rcon`. -/
def Access.rconIdx : Access → Option Nat
  | Access.readRcon i => some i
  | _ => none

/-- Every write of `expanded_keys` in the record goes to the next index, `n`
being the number of writes so far, and every read of `expanded_keys` is at an
index below `n`, which is at most 176. -/
def readsBelow (n : Nat) : List Access → Bool
  | [] => true
  | Access.writeExp i :: l => Nat.beq i n && readsBelow (n + 1) l
  | Access.readExp i :: l => (Nat.ble (i + 1) n && Nat.ble n 176) && readsBelow n l
  | _ :: l => readsBelow n l

/-- The accesses of one pass of the loop of `ExpandKey` other than reads of
`s_box`, as a function of `total_bytes` and `rcon_index` alone. -/
def stepCtl (t r : Nat) : List Access :=
  [Access.readExp (t - 4), Access.readExp (t - 4 + 1), Access.readExp (t - 4 + 2),
    Access.readExp (t - 4 + 3)] ++
  (if t % 16 = 0 then [Access.readRcon (r - 1)] else []) ++
  [Access.readExp (t - 16), Access.writeExp t, Access.readExp (t + 1 - 16),
    Access.writeExp (t + 1), Access.readExp (t + 1 + 1 - 16), Access.writeExp (t + 1 + 1),
    Access.readExp (t + 1 + 1 + 1 - 16), Access.writeExp (t + 1 + 1 + 1)]

/-- The accesses of the copy of the key at the start of `ExpandKey`. -/
def keyCtl : List Access :=
  (List.range keySize).foldl (fun acc i => acc ++ [Access.readKey i, Access.writeExp i]) []

/-- The accesses of the loop of `ExpandKey` other than reads of `s_box`: the
recursion of `ExpandKeyLoopT` on `total_bytes` and `rcon_index` alone. -/
def ctlLoop : Nat → Nat → Nat → Option (List Access)
  | 0, t, _ => if t < keySize * (rounds + 1) then none else some []
  | fuel + 1, t, r =>
    if t < keySize * (rounds + 1) then
      (ctlLoop fuel (t + 4) (if t % 16 = 0 then r + 1 else r)).map (fun l => stepCtl t r ++ l)
    else some []

/-- The accesses of `ExpandKey` other than reads of `s_box`, which do not depend
on the data. -/
def ctlRun : List Access := keyCtl ++ (ctlLoop (keySize * (rounds + 1)) 16 1).getD []

/-- What `MultiplyColumn` puts in the four cells of a column. -/
def mixCol : Nat × Nat × Nat × Nat → Nat × Nat × Nat × Nat
  | (x0, x1, x2, x3) =>
    (twosOf x0 ^^^ x3 ^^^ x2 ^^^ twosOf x1 ^^^ x1,
     twosOf x1 ^^^ x0 ^^^ x3 ^^^ twosOf x2 ^^^ x2,
     twosOf x2 ^^^ x1 ^^^ x0 ^^^ twosOf x3 ^^^ x3,
     twosOf x3 ^^^ x2 ^^^ x1 ^^^ twosOf x0 ^^^ x0)

/-- Cell-wise exclusive-or of two columns. -/
def xor4 : Nat × Nat × Nat × Nat → Nat × Nat × Nat × Nat → Nat × Nat × Nat × Nat
  | (a0, a1, a2, a3), (b0, b1, b2, b3) => (a0 ^^^ b0, a1 ^^^ b1, a2 ^^^ b2, a3 ^^^ b3)

/-- A column of four bytes. -/
def Byte4 (c : Nat × Nat × Nat × Nat) : Prop :=
  c.1 < 256 ∧ c.2.1 < 256 ∧ c.2.2.1 < 256 ∧ c.2.2.2 < 256

/-- The four cells of a column as a list. -/
def colList : Nat × Nat × Nat × Nat → List Nat
  | (a, b, c, d) => [a, b, c, d]

/-- Four applications of `mixCol`. -/
def mixCol4 (c : Nat × Nat × Nat × Nat) : Nat × Nat × Nat × Nat :=
  mixCol (mixCol (mixCol (mixCol c)))

/-- A map of lists is a permutation of the 16-byte blocks: it maps blocks to
blocks, is injective on them and reaches every block. -/
def BlockPerm (f : List Nat → List Nat) : Prop :=
  (∀ b, IsBytes 16 b → IsBytes 16 (f b)) ∧
  (∀ a b, IsBytes 16 a → IsBytes 16 b → f a = f b → a = b) ∧
  (∀ c, IsBytes 16 c → ∃ b, IsBytes 16 b ∧ f b = c)

/-- A list of bytes as one number: the entries are its digits in base 256,
the first entry the lowest. -/
def pack : List Nat → Nat
  | [] => 0
  | x :: l => x + 256 * pack l

/-- Digit `i` in base 256 of a number. -/
def look (P i : Nat) : Nat := Nat.mod (Nat.div P (Nat.pow 256 i)) 256

/-- The positions in a record of `(p, q)` values as one number: digit `p` in
base 256 is `k + 1` for the entry at position `k` (counted from `k0`). -/
def packLog : List (Nat × Nat) → Nat → Nat
  | [], _ => 0
  | pq :: l, k => (k + 1) * 256 ^ pq.1 + packLog l (k + 1)

/-- Every entry of the record, at position `k`, has digit `k + 1` at its `p`
in the number `L`. -/
def checkLog (L : Nat) : List (Nat × Nat) → Nat → Bool
  | [], _ => true
  | pq :: l, k => Nat.beq (look L pq.1) (k + 1) && checkLog L l (k + 1)

/-- The recurrence `KeyRecurrence` at byte index `i`, evaluated on the table and
the schedule held as numbers in base 256. -/
def recCheck (S E i : Nat) : Bool :=
  if (i - i % 4) % 16 = 0 then
    Nat.beq (look E i)
      (Nat.xor (Nat.xor (look E (i - 16)) (look S (look E (i - i % 4 - 4 + (i % 4 + 1) % 4))))
        (if i % 4 = 0 then rcon.getD ((i - i % 4) / 16 - 1) 0 else 0))
  else Nat.beq (look E i) (Nat.xor (look E (i - 16)) (look E (i - 4)))

/-- The published inverse S-box of FIPS-197 (Figure 14), row by row. -/
def sboxInverse : List Nat :=
  [0x52, 0x09, 0x6a, 0xd5, 0x30, 0x36, 0xa5, 0x38, 0xbf, 0x40, 0xa3, 0x9e, 0x81, 0xf3, 0xd7, 0xfb,
   0x7c, 0xe3, 0x39, 0x82, 0x9b, 0x2f, 0xff, 0x87, 0x34, 0x8e, 0x43, 0x44, 0xc4, 0xde, 0xe9, 0xcb,
   0x54, 0x7b, 0x94, 0x32, 0xa6, 0xc2, 0x23, 0x3d, 0xee, 0x4c, 0x95, 0x0b, 0x42, 0xfa, 0xc3, 0x4e,
   0x08, 0x2e, 0xa1, 0x66, 0x28, 0xd9, 0x24, 0xb2, 0x76, 0x5b, 0xa2, 0x49, 0x6d, 0x8b, 0xd1, 0x25,
   0x72, 0xf8, 0xf6, 0x64, 0x86, 0x68, 0x98, 0x16, 0xd4, 0xa4, 0x5c, 0xcc, 0x5d, 0x65, 0xb6, 0x92,
   0x6c, 0x70, 0x48, 0x50, 0xfd, 0xed, 0xb9, 0xda, 0x5e, 0x15, 0x46, 0x57, 0xa7, 0x8d, 0x9d, 0x84,
   0x90, 0xd8, 0xab, 0x00, 0x8c, 0xbc, 0xd3, 0x0a, 0xf7, 0xe4, 0x58, 0x05, 0xb8, 0xb3, 0x45, 0x06,
   0xd0, 0x2c, 0x1e, 0x8f, 0xca, 0x3f, 0x0f, 0x02, 0xc1, 0xaf, 0xbd, 0x03, 0x01, 0x13, 0x8a, 0x6b,
   0x3a, 0x91, 0x11, 0x41, 0x4f, 0x67, 0xdc, 0xea, 0x97, 0xf2, 0xcf, 0xce, 0xf0, 0xb4, 0xe6, 0x73,
   0x96, 0xac, 0x74, 0x22, 0xe7, 0xad, 0x35, 0x85, 0xe2, 0xf9, 0x37, 0xe8, 0x1c, 0x75, 0xdf, 0x6e,
   0x47, 0xf1, 0x1a, 0x71, 0x1d, 0x29, 0xc5, 0x89, 0x6f, 0xb7, 0x62, 0x0e, 0xaa, 0x18, 0xbe, 0x1b,
   0xfc, 0x56, 0x3e, 0x4b, 0xc6, 0xd2, 0x79, 0x20, 0x9a, 0xdb, 0xc0, 0xfe, 0x78, 0xcd, 0x5a, 0xf4,
   0x1f, 0xdd, 0xa8, 0x33, 0x88, 0x07, 0xc7, 0x31, 0xb1, 0x12, 0x10, 0x59, 0x27, 0x80, 0xec, 0x5f,
   0x60, 0x51, 0x7f, 0xa9, 0x19, 0xb5, 0x4a, 0x0d, 0x2d, 0xe5, 0x7a, 0x9f, 0x93, 0xc9, 0x9c, 0xef,
   0xa0, 0xe0, 0x3b, 0x4d, 0xae, 0x2a, 0xf5, 0xb0, 0xc8, 0xeb, 0xbb, 0x3c, 0x83, 0x53, 0x99, 0x61,
   0x17, 0x2b, 0x04, 0x7e, 0xba, 0x77, 0xd6, 0x26, 0xe1, 0x69, 0x14, 0x63, 0x55, 0x21, 0x0c, 0x7d]

/-- The index at which a value occurs in the published S-box, read from the
inverse S-box. -/
def sboxIndex (v : Nat) : Nat := sboxInverse.getD v 0

/-- The multiplicative inverses in GF(2^8) modulo `0x11B`, entry `x` for the
byte `x`, with 0 at 0. -/
def gfInverse : List Nat :=
  [0x00, 0x01, 0x8d, 0xf6, 0xcb, 0x52, 0x7b, 0xd1, 0xe8, 0x4f, 0x29, 0xc0, 0xb0, 0xe1, 0xe5, 0xc7,
   0x74, 0xb4, 0xaa, 0x4b, 0x99, 0x2b, 0x60, 0x5f, 0x58, 0x3f, 0xfd, 0xcc, 0xff, 0x40, 0xee, 0xb2,
   0x3a, 0x6e, 0x5a, 0xf1, 0x55, 0x4d, 0xa8, 0xc9, 0xc1, 0x0a, 0x98, 0x15, 0x30, 0x44, 0xa2, 0xc2,
   0x2c, 0x45, 0x92, 0x6c, 0xf3, 0x39, 0x66, 0x42, 0xf2, 0x35, 0x20, 0x6f, 0x77, 0xbb, 0x59, 0x19,
   0x1d, 0xfe, 0x37, 0x67, 0x2d, 0x31, 0xf5, 0x69, 0xa7, 0x64, 0xab, 0x13, 0x54, 0x25, 0xe9, 0x09,
   0xed, 0x5c, 0x05, 0xca, 0x4c, 0x24, 0x87, 0xbf, 0x18, 0x3e, 0x22, 0xf0, 0x51, 0xec, 0x61, 0x17,
   0x16, 0x5e, 0xaf, 0xd3, 0x49, 0xa6, 0x36, 0x43, 0xf4, 0x47, 0x91, 0xdf, 0x33, 0x93, 0x21, 0x3b,
   0x79, 0xb7, 0x97, 0x85, 0x10, 0xb5, 0xba, 0x3c, 0xb6, 0x70, 0xd0, 0x06, 0xa1, 0xfa, 0x81, 0x82,
   0x83, 0x7e, 0x7f, 0x80, 0x96, 0x73, 0xbe, 0x56, 0x9b, 0x9e, 0x95, 0xd9, 0xf7, 0x02, 0xb9, 0xa4,
   0xde, 0x6a, 0x32, 0x6d, 0xd8, 0x8a, 0x84, 0x72, 0x2a, 0x14, 0x9f, 0x88, 0xf9, 0xdc, 0x89, 0x9a,
   0xfb, 0x7c, 0x2e, 0xc3, 0x8f, 0xb8, 0x65, 0x48, 0x26, 0xc8, 0x12, 0x4a, 0xce, 0xe7, 0xd2, 0x62,
   0x0c, 0xe0, 0x1f, 0xef, 0x11, 0x75, 0x78, 0x71, 0xa5, 0x8e, 0x76, 0x3d, 0xbd, 0xbc, 0x86, 0x57,
   0x0b, 0x28, 0x2f, 0xa3, 0xda, 0xd4, 0xe4, 0x0f, 0xa9, 0x27, 0x53, 0x04, 0x1b, 0xfc, 0xac, 0xe6,
   0x7a, 0x07, 0xae, 0x63, 0xc5, 0xdb, 0xe2, 0xea, 0x94, 0x8b, 0xc4, 0xd5, 0x9d, 0xf8, 0x90, 0x6b,
   0xb1, 0x0d, 0xd6, 0xeb, 0xc6, 0x0e, 0xcf, 0xad, 0x08, 0x4e, 0xd7, 0xe3, 0x5d, 0x50, 0x1e, 0xb3,
   0x5b, 0x23, 0x38, 0x34, 0x68, 0x46, 0x03, 0x8c, 0xdd, 0x9c, 0x7d, 0xa0, 0xcd, 0x1a, 0x41, 0x1c]

/-- The facts checked on a byte `x` and its entry `q` in a table of inverses
`INV` (a number in base 256), against the S-box `S` (a number in base 256):
`x * q = 1`, multiplying by `x` and then by `q` returns each of the bytes
`1, 2, 4, ..., 128`, and the S-box entry of `x` is `affineA q ^^^ 0x63`. -/
def inverseCheck (INV S x : Nat) : Bool :=
  Nat.beq x 0 ||
  (Nat.beq (gfMulK x (look INV x)) 1 &&
   Nat.beq (gfMulK (look INV x) (gfMulK x 1)) 1 &&
   Nat.beq (gfMulK (look INV x) (gfMulK x 2)) 2 &&
   Nat.beq (gfMulK (look INV x) (gfMulK x 4)) 4 &&
   Nat.beq (gfMulK (look INV x) (gfMulK x 8)) 8 &&
   Nat.beq (gfMulK (look INV x) (gfMulK x 16)) 16 &&
   Nat.beq (gfMulK (look INV x) (gfMulK x 32)) 32 &&
   Nat.beq (gfMulK (look INV x) (gfMulK x 64)) 64 &&
   Nat.beq (gfMulK (look INV x) (gfMulK x 128)) 128 &&
   Nat.beq (look S x) (affineA (look INV x) ^^^ 0x63))

/-! ## Theorems -/

theorem applyWrites_length (ws : List (Nat × Nat)) (s : List Nat) :
    (applyWrites ws s).length = s.length := by
  induction ws generalizing s with
  | nil => rfl
  | cons w ws ih =>
    show (applyWrites ws (s.set w.1 w.2)).length = s.length
    rw [ih, List.length_set]

theorem getD_set_eq (s : List Nat) (j i v : Nat) :
    (s.set j v).getD i 0 = if j = i ∧ i < s.length then v else s.getD i 0 := by
  simp only [List.getD_eq_getElem?_getD, List.getElem?_set]
  by_cases h : j = i
  · subst h
    by_cases h2 : j < s.length
    · simp [h2]
    · simp [h2, List.getElem?_eq_none (not_lt.mp h2)]
  · simp [h]

theorem applyWrites_getD (ws : List (Nat × Nat)) (s : List Nat) (i : Nat) :
    (applyWrites ws s).getD i 0 =
      match lastWrite i ws with
      | some v => if i < s.length then v else 0
      | none => s.getD i 0 := by
  induction ws generalizing s with
  | nil => rfl
  | cons w ws ih =>
    show (applyWrites ws (s.set w.1 w.2)).getD i 0 = _
    rw [ih]
    simp only [lastWrite]
    cases h : lastWrite i ws with
    | some v => simp [List.length_set]
    | none =>
      simp only [getD_set_eq]
      by_cases h1 : w.1 = i
      · by_cases h2 : i < s.length
        · simp [h1, h2]
        · simp [h1, h2, List.getD_eq_getElem?_getD, List.getElem?_eq_none (not_lt.mp h2)]
      · simp [h1]

theorem ext_getD (l₁ l₂ : List Nat) (hl : l₁.length = l₂.length)
    (h : ∀ i, i < l₁.length → l₁.getD i 0 = l₂.getD i 0) : l₁ = l₂ := by
  apply List.ext_getElem hl
  intro i h1 h2
  have := h i h1
  simpa [List.getD_eq_getElem?_getD, List.getElem?_eq_getElem h1, List.getElem?_eq_getElem h2] using this

theorem InitializeSboxLoop_eq_trace (fuel p q : Nat) (s : List Nat) :
    InitializeSboxLoop fuel p q s = (sboxTrace fuel p q).map (fun ws => applyWrites ws s) := by
  induction fuel generalizing p q s with
  | zero => rfl
  | succ n ih =>
    simp only [InitializeSboxLoop, sboxTrace]
    split
    · rw [ih]; simp [Option.map_map, Function.comp_def, applyWrites]
    · simp [applyWrites]

theorem sboxTable_length : sboxTable.length = 256 := by decide!

theorem sboxTable_isBytes : IsBytes 256 sboxTable := by decide!

theorem getD_lt_of_bytes (l : List Nat) (h : ∀ x ∈ l, x < 256) (i : Nat) : l.getD i 0 < 256 := by
  rw [List.getD_eq_getElem?_getD]
  cases hi : l[i]? with
  | none => simp
  | some v =>
    have := List.getElem?_mem hi
    simpa using h v this

theorem look_pack (l : List Nat) (h : ∀ x ∈ l, x < 256) (i : Nat) :
    look (pack l) i = l.getD i 0 := by
  induction l generalizing i with
  | nil =>
    show (0 / 256 ^ i) % 256 = 0
    simp
  | cons x l ih =>
    have hx : x < 256 := h x (List.mem_cons_self _ _)
    have hl : ∀ y ∈ l, y < 256 := fun y hy => h y (List.mem_cons_of_mem _ hy)
    cases i with
    | zero =>
      show ((x + 256 * pack l) / 256 ^ 0) % 256 = x
      rw [pow_zero, Nat.div_one, Nat.add_mul_mod_self_left, Nat.mod_eq_of_lt hx]
    | succ i =>
      have ih' := ih hl i
      show ((x + 256 * pack l) / 256 ^ (i + 1)) % 256 = l.getD i 0
      rw [← ih']
      show _ = (pack l / 256 ^ i) % 256
      rw [pow_succ, Nat.mul_comm (256 ^ i) 256, ← Nat.div_div_eq_div_mul,
        Nat.add_mul_div_left _ _ (by decide : 0 < 256), Nat.div_eq_of_lt hx, Nat.zero_add]

theorem all_of_chunks (P : Nat → Bool) (c n : Nat) (hc : 0 < c)
    (h : ∀ k, k < n → (List.range' (c * k) c).all P = true) (x : Nat) (hx : x < c * n) :
    P x = true := by
  have hk : x / c < n := Nat.div_lt_of_lt_mul hx
  have h1 := Nat.div_add_mod x c
  have h2 := Nat.mod_lt x hc
  exact List.all_eq_true.mp (h (x / c) hk) x (by rw [List.mem_range'_1]; omega)

theorem sboxStates_255 : sboxStates 255 1 1 = some sboxRun := by decide!

theorem sboxStates_254 : sboxStates 254 1 1 = none := by decide!

theorem sboxStates_mono (fuel p q : Nat) (st : List (Nat × Nat))
    (h : sboxStates fuel p q = some st) (k : Nat) : sboxStates (fuel + k) p q = some st := by
  induction fuel generalizing p q st with
  | zero => simp [sboxStates] at h
  | succ n ih =>
    rw [Nat.add_right_comm]
    simp only [sboxStates] at h ⊢
    split
    · rename_i hp
      rw [if_pos hp] at h
      cases h' : sboxStates n (sboxNextP p) (sboxNextQ q) with
      | none => simp [h'] at h
      | some st' =>
        rw [ih _ _ _ h']
        rw [h'] at h
        exact h
    · rename_i hp
      rw [if_neg hp] at h
      exact h

theorem sboxTrace_eq_states (fuel p q : Nat) :
    sboxTrace fuel p q = (sboxStates fuel p q).map
      (fun st => st.map (fun pq => (pq.1, sboxXformed pq.2 ^^^ 0x63))) := by
  induction fuel generalizing p q with
  | zero => rfl
  | succ n ih =>
    simp only [sboxTrace, sboxStates]
    split
    · rw [ih]
      cases sboxStates n (sboxNextP p) (sboxNextQ q) <;> rfl
    · rfl

theorem sboxWrites_eq :
    sboxWrites = sboxRun.map (fun pq => (pq.1, sboxXformed pq.2 ^^^ 0x63)) ++ [(0, 0x63)] := by
  have h : sboxStates 256 1 1 = some sboxRun := sboxStates_mono 255 1 1 sboxRun sboxStates_255 1
  simp only [sboxWrites, sboxTrace_eq_states, h, Option.map_some', Option.getD_some]

theorem sboxTrace_run : sboxTrace 256 1 1 = some ((sboxTrace 256 1 1).getD []) := by
  have h : sboxStates 256 1 1 = some sboxRun := sboxStates_mono 255 1 1 sboxRun sboxStates_255 1
  simp only [sboxTrace_eq_states, h, Option.map_some', Option.getD_some]

theorem sboxRun_length : sboxRun.length = 255 := by decide!

theorem sboxRun_range_check :
    (sboxRun.map Prod.fst).all (fun p => decide (0 < p ∧ p < 256)) = true := by decide!

theorem sboxRun_last : (sboxRun.map Prod.fst).getD 254 0 = 1 := by decide!

theorem sboxRun_log_check : checkLog (packLog sboxRun 0) sboxRun 0 = true := by decide!

theorem sboxRun_table_check :
    sboxRun.all (fun pq =>
      Nat.beq (look (pack sboxTable) pq.1) (sboxXformed pq.2 ^^^ 0x63)) = true := by
  decide!

theorem checkLog_sound (L : Nat) (l : List (Nat × Nat)) :
    ∀ k, checkLog L l k = true → ∀ j (h : j < l.length), look L (l[j]).1 = k + j + 1 := by
  induction l with
  | nil => intro k _ j h; exact absurd h (Nat.not_lt_zero _)
  | cons pq l ih =>
    intro k hc j h
    simp only [checkLog, Bool.and_eq_true] at hc
    cases j with
    | zero => exact Nat.eq_of_beq_eq_true hc.1
    | succ j =>
      have := ih (k + 1) hc.2 j (Nat.lt_of_succ_lt_succ h)
      simp only [List.getElem_cons_succ]
      omega

theorem nodup_of_checkLog (L : Nat) (l : List (Nat × Nat)) (hc : checkLog L l 0 = true) :
    (l.map Prod.fst).Nodup := by
  rw [List.nodup_iff_injective_getElem]
  intro i j h
  have hi : i.1 < l.length := by have := i.2; simpa using this
  have hj : j.1 < l.length := by have := j.2; simpa using this
  have h' : (l[i.1]).1 = (l[j.1]).1 := by simpa using h
  have a := checkLog_sound L l 0 hc i.1 hi
  have b := checkLog_sound L l 0 hc j.1 hj
  rw [h'] at a
  apply Fin.ext
  omega

theorem sboxRun_nodup : (sboxRun.map Prod.fst).Nodup :=
  nodup_of_checkLog _ sboxRun sboxRun_log_check

theorem sboxRun_range (p : Nat) (hp : p ∈ sboxRun.map Prod.fst) : 0 < p ∧ p < 256 :=
  of_decide_eq_true (List.all_eq_true.mp sboxRun_range_check p hp)

theorem sboxRun_onto (v : Nat) (h0 : 0 < v) (hv : v < 256) : v ∈ sboxRun.map Prod.fst := by
  have hsub : (sboxRun.map Prod.fst).toFinset ⊆ Finset.Icc 1 255 := by
    intro p hp
    have := sboxRun_range p (List.mem_toFinset.mp hp)
    rw [Finset.mem_Icc]
    omega
  have hcard : (Finset.Icc 1 255).card ≤ (sboxRun.map Prod.fst).toFinset.card := by
    rw [List.toFinset_card_of_nodup sboxRun_nodup, List.length_map, sboxRun_length]
    simp
  have heq := Finset.eq_of_subset_of_card_le hsub hcard
  have : v ∈ Finset.Icc 1 255 := by rw [Finset.mem_Icc]; omega
  rw [← heq] at this
  exact List.mem_toFinset.mp this

theorem sboxRun_first_return (i : Nat) (hi : i < 254) : (sboxRun.map Prod.fst).getD i 0 ≠ 1 := by
  intro h
  have hl : (sboxRun.map Prod.fst).length = 255 := by rw [List.length_map, sboxRun_length]
  have h1 : i < (sboxRun.map Prod.fst).length := by omega
  have h2 : 254 < (sboxRun.map Prod.fst).length := by omega
  have e := sboxRun_last
  rw [List.getD_eq_getElem _ _ h2] at e
  rw [List.getD_eq_getElem _ _ h1, ← e] at h
  have := (List.Nodup.getElem_inj_iff sboxRun_nodup).mp h
  omega

theorem lastWrite_mem (i : Nat) (ws : List (Nat × Nat)) (v : Nat)
    (h : lastWrite i ws = some v) : i ∈ ws.map Prod.fst := by
  induction ws with
  | nil => simp [lastWrite] at h
  | cons w ws ih =>
    simp only [lastWrite] at h
    cases hl : lastWrite i ws with
    | some v' =>
      rw [hl] at h
      simp only [Option.some.injEq] at h
      subst h
      exact List.mem_cons_of_mem _ (ih hl)
    | none =>
      rw [hl] at h
      simp only at h
      split at h
      · rename_i hw
        rw [List.map_cons, ← hw]
        exact List.mem_cons_self _ _
      · exact absurd h (by simp)

theorem lastWrite_of_mem (i v : Nat) (ws : List (Nat × Nat)) (hn : (ws.map Prod.fst).Nodup)
    (h : (i, v) ∈ ws) : lastWrite i ws = some v := by
  induction ws with
  | nil => simp at h
  | cons w ws ih =>
    rw [List.map_cons, List.nodup_cons] at hn
    simp only [lastWrite]
    rcases List.mem_cons.mp h with h1 | h1
    · subst h1
      cases hl : lastWrite i ws with
      | some v' => exact absurd (lastWrite_mem i ws v' hl) hn.1
      | none => simp
    · rw [ih hn.2 h1]

theorem sboxWrites_nodup : (sboxWrites.map Prod.fst).Nodup := by
  rw [sboxWrites_eq, List.map_append, List.map_map]
  have e : (Prod.fst ∘ fun pq : Nat × Nat => (pq.1, sboxXformed pq.2 ^^^ 0x63)) = Prod.fst := rfl
  rw [e]
  refine List.Nodup.append sboxRun_nodup (by simp) ?_
  intro p hp hp0
  simp only [List.map_cons, List.map_nil, List.mem_singleton] at hp0
  have := (sboxRun_range p hp).1
  omega

theorem sboxWrites_last (i : Nat) (hi : i < 256) :
    lastWrite i sboxWrites = some (sboxTable.getD i 0) := by
  apply lastWrite_of_mem i _ sboxWrites sboxWrites_nodup
  rw [sboxWrites_eq]
  by_cases h0 : i = 0
  · subst h0
    have : sboxTable.getD 0 0 = 0x63 := by decide!
    rw [this]
    simp
  · obtain ⟨pq, hpq, hp⟩ := List.mem_map.mp (sboxRun_onto i (by omega) hi)
    have hc := Nat.eq_of_beq_eq_true (List.all_eq_true.mp sboxRun_table_check pq hpq)
    rw [look_pack sboxTable sboxTable_isBytes.2, hp] at hc
    rw [hc]
    apply List.mem_append_left
    exact List.mem_map.mpr ⟨pq, hpq, by rw [hp]⟩

theorem InitializeSbox_applyWrites (s : List Nat) :
    InitializeSbox s = some (applyWrites sboxWrites s) := by
  unfold InitializeSbox
  rw [InitializeSboxLoop_eq_trace, sboxTrace_run]
  simp [applyWrites, sboxWrites, List.foldl_append]

theorem InitializeSbox_eq_sboxTable (s : List Nat) (hs : s.length = 256) :
    InitializeSbox s = some sboxTable := by
  rw [InitializeSbox_applyWrites]
  refine congrArg some ?_
  apply ext_getD
  · rw [applyWrites_length, hs, sboxTable_length]
  · intro i hi
    rw [applyWrites_length, hs] at hi
    rw [applyWrites_getD, sboxWrites_last i hi]
    simp [hs, hi]

theorem list_length16 (l : List Nat) (h : l.length = 16) :
    ∃ a0 a1 a2 a3 a4 a5 a6 a7 a8 a9 a10 a11 a12 a13 a14 a15 : Nat,
      l = [a0, a1, a2, a3, a4, a5, a6, a7, a8, a9, a10, a11, a12, a13, a14, a15] := by
  match l, h with
  | [a0, a1, a2, a3, a4, a5, a6, a7, a8, a9, a10, a11, a12, a13, a14, a15], _ =>
    exact ⟨a0, a1, a2, a3, a4, a5, a6, a7, a8, a9, a10, a11, a12, a13, a14, a15, rfl⟩

theorem SubBytes_cells (a0 a1 a2 a3 a4 a5 a6 a7 a8 a9 a10 a11 a12 a13 a14 a15 : Nat)
    (s : List Nat) :
    SubBytes [a0, a1, a2, a3, a4, a5, a6, a7, a8, a9, a10, a11, a12, a13, a14, a15] s =
      [s.getD a0 0, s.getD a1 0, s.getD a2 0, s.getD a3 0, s.getD a4 0, s.getD a5 0,
       s.getD a6 0, s.getD a7 0, s.getD a8 0, s.getD a9 0, s.getD a10 0, s.getD a11 0,
       s.getD a12 0, s.getD a13 0, s.getD a14 0, s.getD a15 0] := by
  simp [SubBytes, blockSize, List.range_succ, List.getD_eq_getElem?_getD]

theorem ShiftRows_cells (a0 a1 a2 a3 a4 a5 a6 a7 a8 a9 a10 a11 a12 a13 a14 a15 : Nat) :
    ShiftRows [a0, a1, a2, a3, a4, a5, a6, a7, a8, a9, a10, a11, a12, a13, a14, a15] =
      [a0, a5, a10, a15, a4, a9, a14, a3, a8, a13, a2, a7, a12, a1, a6, a11] := by
  simp [ShiftRows, blockSize, List.range_succ, List.getD_eq_getElem?_getD]

theorem AddRoundKey_cells (a0 a1 a2 a3 a4 a5 a6 a7 a8 a9 a10 a11 a12 a13 a14 a15 : Nat)
    (k : List Nat) :
    AddRoundKey [a0, a1, a2, a3, a4, a5, a6, a7, a8, a9, a10, a11, a12, a13, a14, a15] k =
      [a0 ^^^ k.getD 0 0, a1 ^^^ k.getD 1 0, a2 ^^^ k.getD 2 0, a3 ^^^ k.getD 3 0,
       a4 ^^^ k.getD 4 0, a5 ^^^ k.getD 5 0, a6 ^^^ k.getD 6 0, a7 ^^^ k.getD 7 0,
       a8 ^^^ k.getD 8 0, a9 ^^^ k.getD 9 0, a10 ^^^ k.getD 10 0, a11 ^^^ k.getD 11 0,
       a12 ^^^ k.getD 12 0, a13 ^^^ k.getD 13 0, a14 ^^^ k.getD 14 0, a15 ^^^ k.getD 15 0] := by
  simp [AddRoundKey, blockSize, List.range_succ, List.getD_eq_getElem?_getD]

theorem MultiplyColumn_cells (x0 x1 x2 x3 : Nat) (rest : List Nat) :
    MultiplyColumn (x0 :: x1 :: x2 :: x3 :: rest) =
      (twosOf x0 ^^^ x3 ^^^ x2 ^^^ twosOf x1 ^^^ x1) ::
      (twosOf x1 ^^^ x0 ^^^ x3 ^^^ twosOf x2 ^^^ x2) ::
      (twosOf x2 ^^^ x1 ^^^ x0 ^^^ twosOf x3 ^^^ x3) ::
      (twosOf x3 ^^^ x2 ^^^ x1 ^^^ twosOf x0 ^^^ x0) :: rest := rfl

theorem MixColumns_cells (a0 a1 a2 a3 a4 a5 a6 a7 a8 a9 a10 a11 a12 a13 a14 a15 : Nat) :
    MixColumns [a0, a1, a2, a3, a4, a5, a6, a7, a8, a9, a10, a11, a12, a13, a14, a15] =
      [twosOf a0 ^^^ a3 ^^^ a2 ^^^ twosOf a1 ^^^ a1,
       twosOf a1 ^^^ a0 ^^^ a3 ^^^ twosOf a2 ^^^ a2,
       twosOf a2 ^^^ a1 ^^^ a0 ^^^ twosOf a3 ^^^ a3,
       twosOf a3 ^^^ a2 ^^^ a1 ^^^ twosOf a0 ^^^ a0,
       twosOf a4 ^^^ a7 ^^^ a6 ^^^ twosOf a5 ^^^ a5,
       twosOf a5 ^^^ a4 ^^^ a7 ^^^ twosOf a6 ^^^ a6,
       twosOf a6 ^^^ a5 ^^^ a4 ^^^ twosOf a7 ^^^ a7,
       twosOf a7 ^^^ a6 ^^^ a5 ^^^ twosOf a4 ^^^ a4,
       twosOf a8 ^^^ a11 ^^^ a10 ^^^ twosOf a9 ^^^ a9,
       twosOf a9 ^^^ a8 ^^^ a11 ^^^ twosOf a10 ^^^ a10,
       twosOf a10 ^^^ a9 ^^^ a8 ^^^ twosOf a11 ^^^ a11,
       twosOf a11 ^^^ a10 ^^^ a9 ^^^ twosOf a8 ^^^ a8,
       twosOf a12 ^^^ a15 ^^^ a14 ^^^ twosOf a13 ^^^ a13,
       twosOf a13 ^^^ a12 ^^^ a15 ^^^ twosOf a14 ^^^ a14,
       twosOf a14 ^^^ a13 ^^^ a12 ^^^ twosOf a15 ^^^ a15,
       twosOf a15 ^^^ a14 ^^^ a13 ^^^ twosOf a12 ^^^ a12] := by
  simp [MixColumns, blockSize, rowSize, List.range_succ, List.filter, MultiplyColumn_cells]

theorem twosOf_eq_times2_check :
    (List.range 256).all (fun b => decide (twosOf b = times2 b)) = true := by decide!

theorem twosOf_eq_times2 (b : Nat) (hb : b < 256) : twosOf b = times2 b :=
  of_decide_eq_true (List.all_eq_true.mp twosOf_eq_times2_check b (List.mem_range.mpr hb))


/-- C6: for every 16-byte state, `MixColumns` keeps the length and replaces each
column `[x0,x1,x2,x3] = state[4c..4c+3]` by the product with the matrix
`[2 3 1 1; 1 2 3 1; 1 1 2 3; 3 1 1 2]` written with `times2` and `times3`;
the signed-shift mask of `MultiplyColumn` gives `times2` on every byte. -/
theorem MixColumns_matrix (state : List Nat) (h : IsBytes 16 state) :
    (MixColumns state).length = 16 ∧
    (∀ b, b < 256 → twosOf b = times2 b) ∧
    ∀ c, c < 4 →
      (MixColumns state).getD (4 * c) 0 =
        times2 (state.getD (4 * c) 0) ^^^ times3 (state.getD (4 * c + 1) 0) ^^^
          state.getD (4 * c + 2) 0 ^^^ state.getD (4 * c + 3) 0 ∧
      (MixColumns state).getD (4 * c + 1) 0 =
        state.getD (4 * c) 0 ^^^ times2 (state.getD (4 * c + 1) 0) ^^^
          times3 (state.getD (4 * c + 2) 0) ^^^ state.getD (4 * c + 3) 0 ∧
      (MixColumns state).getD (4 * c + 2) 0 =
        state.getD (4 * c) 0 ^^^ state.getD (4 * c + 1) 0 ^^^
          times2 (state.getD (4 * c + 2) 0) ^^^ times3 (state.getD (4 * c + 3) 0) ∧
      (MixColumns state).getD (4 * c + 3) 0 =
        times3 (state.getD (4 * c) 0) ^^^ state.getD (4 * c + 1) 0 ^^^
          state.getD (4 * c + 2) 0 ^^^ times2 (state.getD (4 * c + 3) 0) := by
  obtain ⟨hlen, hb⟩ := h
  obtain ⟨a0, a1, a2, a3, a4, a5, a6, a7, a8, a9, a10, a11, a12, a13, a14, a15, rfl⟩ :=
    list_length16 state hlen
  simp only [List.mem_cons, List.mem_singleton, List.not_mem_nil, or_false, forall_eq_or_imp,
    forall_eq] at hb
  obtain ⟨h0, h1, h2, h3, h4, h5, h6, h7, h8, h9, h10, h11, h12, h13, h14, h15⟩ := hb
  refine ⟨by rw [MixColumns_cells]; rfl, twosOf_eq_times2, ?_⟩
  intro c hc
  rw [MixColumns_cells]
  simp only [twosOf_eq_times2 _ h0, twosOf_eq_times2 _ h1, twosOf_eq_times2 _ h2,
    twosOf_eq_times2 _ h3, twosOf_eq_times2 _ h4, twosOf_eq_times2 _ h5, twosOf_eq_times2 _ h6,
    twosOf_eq_times2 _ h7, twosOf_eq_times2 _ h8, twosOf_eq_times2 _ h9, twosOf_eq_times2 _ h10,
    twosOf_eq_times2 _ h11, twosOf_eq_times2 _ h12, twosOf_eq_times2 _ h13,
    twosOf_eq_times2 _ h14, twosOf_eq_times2 _ h15, times3]
  interval_cases c <;> simp only [List.getD_eq_getElem?_getD] <;>
    refine ⟨?_, ?_, ?_, ?_⟩ <;> simp <;> ac_rfl

/-- Witness of C6 at the state `0x00, 0x11, ..., 0xff`. -/
theorem MixColumns_matrix_witness :
    (MixColumns [0, 17, 34, 51, 68, 85, 102, 119, 136, 153, 170, 187, 204, 221, 238, 255]).length
      = 16 :=
  (MixColumns_matrix [0, 17, 34, 51, 68, 85, 102, 119, 136, 153, 170, 187, 204, 221, 238, 255]
    (by decide)).1

/-- C7: for every 16-byte state, `ShiftRows` keeps the length and puts at
position `r + 4*c` the byte that was at `r + 4*((c + r) mod 4)`; this map of
positions stays inside `0..15` and is injective, hence a bijection, and is the
same for every state. -/
theorem ShiftRows_rotates_rows (state : List Nat) (h : state.length = 16) :
    (ShiftRows state).length = 16 ∧
    (∀ r c, r < 4 → c < 4 →
      (ShiftRows state).getD (r + 4 * c) 0 = state.getD (r + 4 * ((c + r) % 4)) 0) ∧
    (∀ r c, r < 4 → c < 4 → r + 4 * ((c + r) % 4) < 16) ∧
    (∀ r c r' c', r < 4 → c < 4 → r' < 4 → c' < 4 →
      r + 4 * ((c + r) % 4) = r' + 4 * ((c' + r') % 4) → r = r' ∧ c = c') := by
  obtain ⟨a0, a1, a2, a3, a4, a5, a6, a7, a8, a9, a10, a11, a12, a13, a14, a15, rfl⟩ :=
    list_length16 state h
  refine ⟨by rw [ShiftRows_cells]; rfl, ?_, ?_, ?_⟩
  · intro r c hr hc
    rw [ShiftRows_cells]
    interval_cases r <;> interval_cases c <;> rfl
  · intro r c hr hc
    omega
  · intro r c r' c' hr hc hr' hc' he
    omega

/-- Witness of C7 at the state `0, 1, ..., 15`. -/
theorem ShiftRows_rotates_rows_witness :
    (ShiftRows [0, 1, 2, 3, 4, 5, 6, 7, 8, 9, 10, 11, 12, 13, 14, 15]).getD (1 + 4 * 3) 0 = 1 :=
  ((ShiftRows_rotates_rows [0, 1, 2, 3, 4, 5, 6, 7, 8, 9, 10, 11, 12, 13, 14, 15] rfl).2.1
    1 3 (by decide) (by decide)).trans rfl

/-- C8: for every 16-byte state `S` and 16-byte round key `k`,
`AddRoundKey (AddRoundKey S k) k = S`. -/
theorem AddRoundKey_involution (S k : List Nat) (hS : IsBytes 16 S) (_hk : IsBytes 16 k) :
    AddRoundKey (AddRoundKey S k) k = S := by
  obtain ⟨a0, a1, a2, a3, a4, a5, a6, a7, a8, a9, a10, a11, a12, a13, a14, a15, rfl⟩ :=
    list_length16 S hS.1
  rw [AddRoundKey_cells, AddRoundKey_cells]
  simp [Nat.xor_assoc]

/-- Witness of C8 at the state `0, 1, ..., 15` and the key `255, 254, ..., 240`. -/
theorem AddRoundKey_involution_witness :
    AddRoundKey (AddRoundKey [0, 1, 2, 3, 4, 5, 6, 7, 8, 9, 10, 11, 12, 13, 14, 15]
      [255, 254, 253, 252, 251, 250, 249, 248, 247, 246, 245, 244, 243, 242, 241, 240])
      [255, 254, 253, 252, 251, 250, 249, 248, 247, 246, 245, 244, 243, 242, 241, 240] =
      [0, 1, 2, 3, 4, 5, 6, 7, 8, 9, 10, 11, 12, 13, 14, 15] :=
  AddRoundKey_involution _ _ (by decide) (by decide)

theorem ExpandKeyStep_fst (s : List Nat) (t r : Nat) (e : List Nat) :
    (ExpandKeyStep s (t, r, e)).1 = t + 4 := by
  simp [ExpandKeyStep, rowSize, blockSize, List.range_succ]

theorem ExpandKeyStep_rcon (s : List Nat) (t r : Nat) (e : List Nat) :
    (ExpandKeyStep s (t, r, e)).2.1 = if t % 16 = 0 then r + 1 else r := by
  simp only [ExpandKeyStep, rowSize, blockSize]
  split <;> rfl

theorem ExpandKeyStep_length (s : List Nat) (t r : Nat) (e : List Nat) :
    (ExpandKeyStep s (t, r, e)).2.2.length = e.length := by
  simp [ExpandKeyStep, rowSize, blockSize, List.range_succ]

theorem ExpandKeyStep_below (s : List Nat) (t r : Nat) (e : List Nat) (i : Nat) (hi : i < t) :
    (ExpandKeyStep s (t, r, e)).2.2.getD i 0 = e.getD i 0 := by
  simp only [ExpandKeyStep, rowSize, blockSize, List.range_succ, List.range_zero, List.nil_append,
    List.cons_append, List.foldl_cons, List.foldl_nil, getD_set_eq]
  have h0 : ¬ (t = i) := by omega
  have h1 : ¬ (t + 1 = i) := by omega
  have h2 : ¬ (t + 1 + 1 = i) := by omega
  have h3 : ¬ (t + 1 + 1 + 1 = i) := by omega
  simp [h0, h1, h2, h3]
theorem ExpandKeyStep_written (s : List Nat) (t r : Nat) (e : List Nat) (j : Nat)
    (ht : 16 ≤ t) (hlen : t + 4 ≤ e.length) (hj : j < 4) :
    (ExpandKeyStep s (t, r, e)).2.2.getD (t + j) 0 =
      e.getD (t + j - 16) 0 ^^^
        (if t % 16 = 0 then
          s.getD (e.getD (t - 4 + (j + 1) % 4) 0) 0 ^^^ (if j = 0 then rcon.getD (r - 1) 0 else 0)
         else e.getD (t - 4 + j) 0) := by
  have e1 : t ≠ t - 15 := by omega
  have e2 : t ≠ t - 14 := by omega
  have e3 : t + 1 ≠ t - 14 := by omega
  have e4 : t ≠ t - 13 := by omega
  have e5 : t + 1 ≠ t - 13 := by omega
  have e6 : t + 2 ≠ t - 13 := by omega
  have l0 : t < e.length := by omega
  have l1 : t + 1 < e.length := by omega
  have l2 : t + 2 < e.length := by omega
  have l3 : t + 3 < e.length := by omega
  by_cases hm : t % 16 = 0
  · interval_cases j <;>
      simp [ExpandKeyStep, rowSize, blockSize, List.range_succ, getD_set_eq, hm,
        List.getElem?_set_ne e1, List.getElem?_set_ne e2, List.getElem?_set_ne e3,
        List.getElem?_set_ne e4, List.getElem?_set_ne e5, List.getElem?_set_ne e6,
        l0, l1, l2, l3, Nat.add_assoc]
  · interval_cases j <;>
      simp [ExpandKeyStep, rowSize, blockSize, List.range_succ, getD_set_eq, hm,
        List.getElem?_set_ne e1, List.getElem?_set_ne e2, List.getElem?_set_ne e3,
        List.getElem?_set_ne e4, List.getElem?_set_ne e5, List.getElem?_set_ne e6,
        l0, l1, l2, l3, Nat.add_assoc]
theorem copy_length (src : List Nat) (n : Nat) (dst : List Nat) :
    ((List.range n).foldl (fun d i => d.set i (src.getD i 0)) dst).length = dst.length := by
  induction n with
  | zero => rfl
  | succ n ih =>
    simp only [List.range_succ, List.foldl_append, List.foldl_cons, List.foldl_nil,
      List.length_set, ih]

theorem copy_getD (src : List Nat) (n : Nat) (dst : List Nat) (i : Nat) (hn : n ≤ dst.length) :
    ((List.range n).foldl (fun d i => d.set i (src.getD i 0)) dst).getD i 0 =
      if i < n then src.getD i 0 else dst.getD i 0 := by
  induction n with
  | zero => simp
  | succ n ih =>
    simp only [List.range_succ, List.foldl_append, List.foldl_cons, List.foldl_nil, getD_set_eq,
      copy_length, ih (by omega)]
    by_cases h1 : n = i
    · subst h1
      have : n < dst.length := by omega
      simp [this]
    · by_cases h2 : i < n
      · have : i < n + 1 := by omega
        simp [h1, h2, this]
      · have : ¬ i < n + 1 := by omega
        simp [h1, h2, this]

theorem ExpandKeyInv_step (key s : List Nat) (t r : Nat) (e : List Nat)
    (h : ExpandKeyInv key s (t, r, e)) (ht : t < 176) :
    ExpandKeyInv key s (ExpandKeyStep s (t, r, e)) := by
  obtain ⟨hlen, hmod, hlo, hhi, hr, hkey, hrec⟩ := h
  simp only at hlen hmod hlo hhi hr hkey hrec
  have hb : ∀ i, i < t → (ExpandKeyStep s (t, r, e)).2.2.getD i 0 = e.getD i 0 :=
    fun i hi => ExpandKeyStep_below s t r e i hi
  refine ⟨?_, ?_, ?_, ?_, ?_, ?_, ?_⟩
  · rw [ExpandKeyStep_length]; exact hlen
  · rw [ExpandKeyStep_fst]; omega
  · rw [ExpandKeyStep_fst]; omega
  · rw [ExpandKeyStep_fst]; omega
  · rw [ExpandKeyStep_fst, ExpandKeyStep_rcon]
    split <;> omega
  · intro i hi
    rw [hb i (by omega)]
    exact hkey i hi
  · intro i hi1 hi2
    rw [ExpandKeyStep_fst] at hi2
    by_cases hit : i < t
    · have h1 := hrec i hi1 hit
      unfold KeyRecurrence at h1 ⊢
      rw [hb i hit, hb (i - 16) (by omega), hb (i - 4) (by omega),
        hb (i - i % 4 - 4 + (i % 4 + 1) % 4) (by omega)]
      exact h1
    · obtain ⟨j, hj, rfl⟩ : ∃ j, j < 4 ∧ i = t + j := ⟨i - t, by omega, by omega⟩
      have hjm : (t + j) % 4 = j := by omega
      have hw : t + j - j = t := by omega
      unfold KeyRecurrence
      rw [hjm, hw, ExpandKeyStep_written s t r e j hlo (by omega) hj,
        hb (t + j - 16) (by omega), hb (t + j - 4) (by omega),
        hb (t - 4 + (j + 1) % 4) (by omega)]
      constructor
      · intro hm
        rw [if_neg hm]
        congr 2
        omega
      · intro hm
        rw [if_pos hm, Nat.xor_assoc]
        have : r - 1 = t / 16 - 1 := by omega
        rw [this]

theorem ExpandKeyLoop_done (key s : List Nat) (fuel : Nat) (st : Nat × Nat × List Nat)
    (h : ExpandKeyInv key s st) (ht : ¬ st.1 < 176) :
    ∃ e, ExpandKeyLoop s fuel st = some e ∧ ExpandKeyInv key s (176, 11, e) := by
  obtain ⟨t, r, e⟩ := st
  obtain ⟨hlen, hmod, hlo, hhi, hr, hkey, hrec⟩ := h
  simp only at hlen hmod hlo hhi hr hkey hrec ht
  have ht : t = 176 := by omega
  subst ht
  have h1 : ExpandKeyLoop s fuel (176, r, e) = some e := by
    cases fuel <;> simp [ExpandKeyLoop, keySize, rounds]
  have a1 : (176 : Nat) % 4 = 0 := by decide
  have a2 : (16 : Nat) ≤ 176 := by decide
  have a3 : (176 : Nat) ≤ 176 := Nat.le_refl _
  have a4 : (11 : Nat) = (176 + 15) / 16 := by decide
  exact ⟨e, h1, hlen, a1, a2, a3, a4, hkey, hrec⟩

theorem ExpandKeyLoop_spec (key s : List Nat) (fuel : Nat) (st : Nat × Nat × List Nat)
    (h : ExpandKeyInv key s st) (hf : 176 ≤ st.1 + 4 * fuel) :
    ∃ e, ExpandKeyLoop s fuel st = some e ∧ ExpandKeyInv key s (176, 11, e) := by
  induction fuel generalizing st with
  | zero => exact ExpandKeyLoop_done key s 0 st h (by omega)
  | succ n ih =>
    by_cases ht : st.1 < 176
    · obtain ⟨t, r, e⟩ := st
      have hstep := ExpandKeyInv_step key s t r e h ht
      have hfst := ExpandKeyStep_fst s t r e
      obtain ⟨e', he', hinv⟩ := ih (ExpandKeyStep s (t, r, e)) hstep (by
        rw [hfst]; simp only at hf; omega)
      refine ⟨e', ?_, hinv⟩
      have : (t, r, e).1 < keySize * (rounds + 1) := ht
      rw [ExpandKeyLoop, if_pos this, he']
    · exact ExpandKeyLoop_done key s (n + 1) st h ht

theorem ExpandKey_spec (key e0 s : List Nat) (he : e0.length = 176) :
    ∃ e, ExpandKey key e0 s = some e ∧ e.length = 176 ∧
      (∀ i, i < 16 → e.getD i 0 = key.getD i 0) ∧
      ∀ i, 16 ≤ i → i < 176 → KeyRecurrence s e i := by
  have hinit : ExpandKeyInv key s
      (16, 1, (List.range keySize).foldl (fun d i => d.set i (key.getD i 0)) e0) := by
    refine ⟨by rw [copy_length]; exact he, by simp, by simp, by simp, by simp, ?_, ?_⟩
    · intro i hi
      simp only
      rw [copy_getD key keySize e0 i (by rw [he]; decide)]
      simp [keySize, hi]
    · intro i h1 h2
      simp only at h2
      omega
  obtain ⟨e, h1, h2⟩ := ExpandKeyLoop_spec key s (keySize * (rounds + 1)) _ hinit
    (by simp [keySize, rounds])
  exact ⟨e, h1, h2.1, h2.2.2.2.2.2.1, h2.2.2.2.2.2.2⟩

theorem ExpandKey_unique (key s e₁ e₂ : List Nat) (h₁ : e₁.length = 176) (h₂ : e₂.length = 176)
    (k₁ : ∀ i, i < 16 → e₁.getD i 0 = key.getD i 0)
    (k₂ : ∀ i, i < 16 → e₂.getD i 0 = key.getD i 0)
    (r₁ : ∀ i, 16 ≤ i → i < 176 → KeyRecurrence s e₁ i)
    (r₂ : ∀ i, 16 ≤ i → i < 176 → KeyRecurrence s e₂ i) : e₁ = e₂ := by
  have key_fact : ∀ i, i < 176 → e₁.getD i 0 = e₂.getD i 0 := by
    intro i
    induction i using Nat.strong_induction_on with
    | _ i ih =>
      intro hi
      by_cases h16 : i < 16
      · rw [k₁ i h16, k₂ i h16]
      · have a := r₁ i (by omega) hi
        have b := r₂ i (by omega) hi
        unfold KeyRecurrence at a b
        by_cases hm : (i - i % 4) % 16 = 0
        · rw [a.2 hm, b.2 hm, ih (i - 16) (by omega) (by omega),
            ih (i - i % 4 - 4 + (i % 4 + 1) % 4) (by omega) (by omega)]
        · rw [a.1 hm, b.1 hm, ih (i - 16) (by omega) (by omega),
            ih (i - 4) (by omega) (by omega)]
  exact ext_getD e₁ e₂ (by rw [h₁, h₂]) (fun i hi => key_fact i (by omega))

theorem ExpandKey_initial_irrelevant (key s e0 e0' : List Nat) (h : e0.length = 176)
    (h' : e0'.length = 176) : ExpandKey key e0 s = ExpandKey key e0' s := by
  obtain ⟨e, he, a1, a2, a3⟩ := ExpandKey_spec key e0 s h
  obtain ⟨e', he', b1, b2, b3⟩ := ExpandKey_spec key e0' s h'
  rw [he, he', ExpandKey_unique key s e e' a1 b1 a2 b2 a3 b3]

/-- C4: for every 16-byte key and every 256-entry table, `ExpandKey` returns a
176-byte schedule that satisfies the AES-128 recurrence at every byte index
`16 <= i < 176`: with `j = i mod 4` and `w = i - j`, if `w mod 16 != 0` then
`e[i] = e[i-16] XOR e[i-4]`, and if `w mod 16 = 0` then
`e[i] = e[i-16] XOR s[e[w-4+((j+1) mod 4)]] XOR (rcon[w/16-1] if j = 0, else 0)`. -/
theorem ExpandKey_recurrence (key e0 s : List Nat) (_hk : IsBytes 16 key)
    (he0 : e0.length = 176) (_hs : IsBytes 256 s) :
    ∃ e, ExpandKey key e0 s = some e ∧ e.length = 176 ∧
      ∀ i, 16 ≤ i → i < 176 →
        (¬ (i - i % 4) % 16 = 0 → e.getD i 0 = e.getD (i - 16) 0 ^^^ e.getD (i - 4) 0) ∧
        ((i - i % 4) % 16 = 0 →
          e.getD i 0 =
            e.getD (i - 16) 0 ^^^ s.getD (e.getD (i - i % 4 - 4 + (i % 4 + 1) % 4) 0) 0 ^^^
              (if i % 4 = 0 then rcon.getD ((i - i % 4) / 16 - 1) 0 else 0)) := by
  obtain ⟨e, he, a1, _, a3⟩ := ExpandKey_spec key e0 s he0
  exact ⟨e, he, a1, a3⟩

/-- Witness of C4 at the FIPS-197 key and the published S-box. -/
theorem ExpandKey_recurrence_witness :
    ∃ e, ExpandKey fipsKey (List.replicate 176 0) sboxTable = some e ∧ e.length = 176 ∧
      ∀ i, 16 ≤ i → i < 176 →
        (¬ (i - i % 4) % 16 = 0 → e.getD i 0 = e.getD (i - 16) 0 ^^^ e.getD (i - 4) 0) ∧
        ((i - i % 4) % 16 = 0 →
          e.getD i 0 =
            e.getD (i - 16) 0 ^^^
                sboxTable.getD (e.getD (i - i % 4 - 4 + (i % 4 + 1) % 4) 0) 0 ^^^
              (if i % 4 = 0 then rcon.getD ((i - i % 4) / 16 - 1) 0 else 0)) :=
  ExpandKey_recurrence fipsKey (List.replicate 176 0) sboxTable (by decide)
    (List.length_replicate 176 0)
    sboxTable_isBytes

/-- C5: for every 16-byte key and every table, the first 16 bytes of the
schedule returned by `ExpandKey` are the key, byte for byte. -/
theorem ExpandKey_first_round_key (key e0 s : List Nat) (hk : IsBytes 16 key)
    (he0 : e0.length = 176) (_hs : IsBytes 256 s) :
    ∃ e, ExpandKey key e0 s = some e ∧ e.take 16 = key ∧
      ∀ i, i < 16 → e.getD i 0 = key.getD i 0 := by
  obtain ⟨e, he, a1, a2, _⟩ := ExpandKey_spec key e0 s he0
  refine ⟨e, he, ?_, a2⟩
  apply ext_getD
  · rw [List.length_take, a1, hk.1]; rfl
  · intro i hi
    rw [List.length_take, a1] at hi
    have hi' : i < 16 := by omega
    rw [← a2 i hi']
    simp [List.getD_eq_getElem?_getD, List.getElem?_take, hi']

/-- Witness of C5 at the FIPS-197 key and the published S-box. -/
theorem ExpandKey_first_round_key_witness :
    ∃ e, ExpandKey fipsKey (List.replicate 176 0) sboxTable = some e ∧ e.take 16 = fipsKey ∧
      ∀ i, i < 16 → e.getD i 0 = fipsKey.getD i 0 :=
  ExpandKey_first_round_key fipsKey (List.replicate 176 0) sboxTable (by decide)
    (List.length_replicate 176 0)
    sboxTable_isBytes

theorem AddRoundKey_length (st k : List Nat) : (AddRoundKey st k).length = st.length := by
  unfold AddRoundKey
  generalize List.range blockSize = l
  induction l generalizing st with
  | nil => rfl
  | cons i l ih => simp only [List.foldl_cons, ih, List.length_set]

theorem SubBytes_length (st s : List Nat) : (SubBytes st s).length = st.length := by
  unfold SubBytes
  generalize List.range blockSize = l
  induction l generalizing st with
  | nil => rfl
  | cons i l ih => simp only [List.foldl_cons, ih, List.length_set]

theorem ShiftRows_length (st : List Nat) (h : st.length = 16) : (ShiftRows st).length = 16 := by
  obtain ⟨a0, a1, a2, a3, a4, a5, a6, a7, a8, a9, a10, a11, a12, a13, a14, a15, rfl⟩ :=
    list_length16 st h
  rw [ShiftRows_cells]; rfl

theorem MixColumns_length (st : List Nat) (h : st.length = 16) : (MixColumns st).length = 16 := by
  obtain ⟨a0, a1, a2, a3, a4, a5, a6, a7, a8, a9, a10, a11, a12, a13, a14, a15, rfl⟩ :=
    list_length16 st h
  rw [MixColumns_cells]; rfl

theorem AddRoundKey_congr (st k k' : List Nat) (h : ∀ i, i < 16 → k.getD i 0 = k'.getD i 0) :
    AddRoundKey st k = AddRoundKey st k' := by
  unfold AddRoundKey
  apply List.foldl_ext
  intro a i hi
  rw [h i (by simpa [blockSize] using hi)]

theorem AddRoundKey_roundKey (st e : List Nat) (r : Nat) :
    AddRoundKey st (e.drop (16 * r)) = AddRoundKey st (roundKey e r) := by
  apply AddRoundKey_congr
  intro i hi
  simp [roundKey, List.getD_eq_getElem?_getD, List.getElem?_take, hi]

theorem copy_all (src dst : List Nat) (hs : src.length = 16) (hd : dst.length = 16) :
    (List.range blockSize).foldl (fun d i => d.set i (src.getD i 0)) dst = src := by
  apply ext_getD
  · rw [copy_length, hs, hd]
  · intro i hi
    rw [copy_length, hd] at hi
    rw [copy_getD src blockSize dst i (by rw [hd]; decide)]
    simp [blockSize, hi]

theorem load_block (b : List Nat) (h : b.length = 16) :
    (List.range blockSize).map (fun i => b.getD i 0) = b := by
  obtain ⟨a0, a1, a2, a3, a4, a5, a6, a7, a8, a9, a10, a11, a12, a13, a14, a15, rfl⟩ :=
    list_length16 b h
  rfl

theorem EncryptSpec_length (b e s : List Nat) (h : b.length = 16) :
    (EncryptSpec b e s).length = 16 := by
  have r : ∀ st k, st.length = 16 →
      (AddRoundKey (MixColumns (ShiftRows (SubBytes st s))) k).length = 16 := by
    intro st k hst
    rw [AddRoundKey_length]
    exact MixColumns_length _ (ShiftRows_length _ (by rw [SubBytes_length]; exact hst))
  simp only [EncryptSpec, List.foldl_cons, List.foldl_nil]
  rw [AddRoundKey_length]
  apply ShiftRows_length
  rw [SubBytes_length]
  iterate 9 apply r
  rw [AddRoundKey_length]
  exact h

theorem Encrypt_eq_spec (b c0 e s : List Nat) (hb : b.length = 16) (hc : c0.length = 16) :
    Encrypt b c0 e s = (b, EncryptSpec b e s) := by
  have key : ∀ st, (List.range (rounds - 1)).foldl
      (fun sk _ => EncryptRound e s sk) (st, keySize) =
      ([1, 2, 3, 4, 5, 6, 7, 8, 9].foldl (fun state round =>
        AddRoundKey (MixColumns (ShiftRows (SubBytes state s))) (roundKey e round)) st, 160) := by
    intro st
    simp only [rounds, keySize, List.range_succ, List.range_zero, List.nil_append,
      List.cons_append, List.foldl_cons, List.foldl_nil, EncryptRound, Nat.reduceSub,
      Nat.reduceAdd]
    have h := fun st r => AddRoundKey_roundKey st e r
    simp only [Nat.reduceMul] at h
    rw [← h _ 1, ← h _ 2, ← h _ 3, ← h _ 4, ← h _ 5, ← h _ 6, ← h _ 7, ← h _ 8, ← h _ 9]
  unfold Encrypt
  simp only [key, load_block b hb]
  have h0 := AddRoundKey_roundKey b e 0
  have h10 := AddRoundKey_roundKey
    (ShiftRows (SubBytes ([1, 2, 3, 4, 5, 6, 7, 8, 9].foldl (fun state round =>
        AddRoundKey (MixColumns (ShiftRows (SubBytes state s))) (roundKey e round))
        (AddRoundKey b (roundKey e 0))) s)) e 10
  simp only [Nat.reduceMul, List.drop_zero] at h0 h10
  rw [h0, h10]
  have hl := EncryptSpec_length b e s hb
  unfold EncryptSpec at hl ⊢
  rw [copy_all _ c0 hl hc]

theorem readKey_spec (junk : Nat) (K P : List Nat) (hK : K.length = 16) :
    readKey junk (K ++ P) = (K, P) := by
  obtain ⟨a0, a1, a2, a3, a4, a5, a6, a7, a8, a9, a10, a11, a12, a13, a14, a15, rfl⟩ :=
    list_length16 K hK
  simp [readKey, keySize, List.range_succ, cinGet, List.replicate]

theorem readBlock_spec (junk t0 : Nat) (B P : List Nat) (hB : B.length = 16) :
    ∃ t, readBlock ((List.replicate blockSize junk).set 0 (cinGet (B ++ P) t0).2.1)
      (cinGet (B ++ P) t0).2.1 (cinGet (B ++ P) t0).2.2 = (B, t, P) ∧
      (cinGet (B ++ P) t0).1 = true := by
  obtain ⟨a0, a1, a2, a3, a4, a5, a6, a7, a8, a9, a10, a11, a12, a13, a14, a15, rfl⟩ :=
    list_length16 B hB
  refine ⟨a15, ?_, rfl⟩
  simp [readBlock, blockSize, List.range', cinGet, List.replicate]

theorem emit_all (ct out : List Nat) (h : ct.length = 16) :
    (List.range blockSize).foldl (fun out i => out ++ [ct.getD i 0]) out = out ++ ct := by
  obtain ⟨a0, a1, a2, a3, a4, a5, a6, a7, a8, a9, a10, a11, a12, a13, a14, a15, rfl⟩ :=
    list_length16 ct h
  simp [blockSize, List.range_succ]

theorem mainLoop_blocks (junk : Nat) (e s : List Nat) (n : Nat) :
    ∀ (fuel temp : Nat) (P out : List Nat), P.length = 16 * n → n < fuel →
      mainLoop junk e s fuel (temp, P, out) = some (out ++ encryptBlocks e s n P) := by
  induction n with
  | zero =>
    intro fuel temp P out hP hf
    obtain ⟨f, rfl⟩ : ∃ f, fuel = f + 1 := ⟨fuel - 1, by omega⟩
    have : P = [] := List.length_eq_zero.mp (by simpa using hP)
    subst this
    simp [mainLoop, cinGet, encryptBlocks]
  | succ n ih =>
    intro fuel temp P out hP hf
    obtain ⟨f, rfl⟩ : ∃ f, fuel = f + 1 := ⟨fuel - 1, by omega⟩
    have hB : (P.take 16).length = 16 := by rw [List.length_take, hP]; omega
    have hR : (P.drop 16).length = 16 * n := by rw [List.length_drop, hP]; omega
    obtain ⟨t, hread, hget⟩ := readBlock_spec junk temp (P.take 16) (P.drop 16) hB
    rw [List.take_append_drop] at hread hget
    have hE := Encrypt_eq_spec (P.take 16) (List.replicate blockSize junk) e s hB
      (List.length_replicate blockSize junk)
    have hL := EncryptSpec_length (P.take 16) e s hB
    rw [mainLoop]
    simp only [hget, if_true, hread, hE, emit_all _ _ hL]
    rw [ih f t (P.drop 16) _ hR (by omega)]
    simp [encryptBlocks, List.append_assoc]

theorem encryptBlocks_length (e s : List Nat) (n : Nat) :
    ∀ P : List Nat, P.length = 16 * n → (encryptBlocks e s n P).length = 16 * n := by
  induction n with
  | zero => intro P _; rfl
  | succ n ih =>
    intro P hP
    have hB : (P.take 16).length = 16 := by rw [List.length_take, hP]; omega
    have hR : (P.drop 16).length = 16 * n := by rw [List.length_drop, hP]; omega
    simp only [encryptBlocks, List.length_append, EncryptSpec_length _ e s hB, ih _ hR]
    omega

theorem encryptBlocks_blockAt (e s : List Nat) (n : Nat) :
    ∀ (P : List Nat) (i : Nat), P.length = 16 * n → i < n →
      blockAt (encryptBlocks e s n P) i = EncryptSpec (blockAt P i) e s := by
  induction n with
  | zero => intro P i _ hi; omega
  | succ n ih =>
    intro P i hP hi
    have hB : (P.take 16).length = 16 := by rw [List.length_take, hP]; omega
    have hR : (P.drop 16).length = 16 * n := by rw [List.length_drop, hP]; omega
    have hL := EncryptSpec_length (P.take 16) e s hB
    cases i with
    | zero =>
      simp only [blockAt, encryptBlocks, Nat.mul_zero, List.drop_zero]
      rw [List.take_append_of_le_length (by omega), List.take_of_length_le (by omega)]
    | succ i =>
      have h1 : 16 * (i + 1) = 16 + 16 * i := by omega
      have h2 := ih (P.drop 16) i hR (by omega)
      simp only [blockAt, encryptBlocks] at h2 ⊢
      have hd : ∀ X Y : List Nat, X.length = 16 → (X ++ Y).drop 16 = Y := by
        intro X Y h
        rw [← h, List.drop_left]
      rw [h1, ← List.drop_drop, ← List.drop_drop, hd _ _ hL, h2]

theorem Encrypt_snd (b c0 e s : List Nat) (hb : b.length = 16) (hc : c0.length = 16) :
    (Encrypt b c0 e s).2 = EncryptSpec b e s := by
  simp only [Encrypt_eq_spec b c0 e s hb hc]

theorem main_spec (junk : Nat) (K P e : List Nat) (N : Nat) (hK : K.length = 16)
    (hP : P.length = 16 * N)
    (he : ExpandKey K (List.replicate 176 junk) sboxTable = some e) :
    main junk (K ++ P) = some (encryptBlocks e sboxTable N P) := by
  have h176 : (rounds + 1) * keySize = 176 := by decide
  unfold main
  rw [InitializeSbox_eq_sboxTable _ (List.length_replicate 256 junk)]
  simp only [readKey_spec junk K P hK, h176, he]
  rw [mainLoop_blocks junk e sboxTable N _ junk P [] hP (by omega)]
  rfl

theorem fipsBlock_length : fipsBlock.length = 16 := by decide

theorem recCheck_sound (s e : List Nat) (hs : ∀ x ∈ s, x < 256) (he : ∀ x ∈ e, x < 256)
    (i : Nat) (h : recCheck (pack s) (pack e) i = true) : KeyRecurrence s e i := by
  unfold recCheck at h
  unfold KeyRecurrence
  simp only [look_pack s hs, look_pack e he] at h
  constructor
  · intro hm
    rw [if_neg hm] at h
    exact Nat.eq_of_beq_eq_true h
  · intro hm
    rw [if_pos hm] at h
    exact Nat.eq_of_beq_eq_true h

theorem ExpandKey_eq_of_recurrence (key e0 e : List Nat) (he0 : e0.length = 176)
    (hl : e.length = 176) (hk : ∀ i, i < 16 → e.getD i 0 = key.getD i 0)
    (hr : ∀ i, 16 ≤ i → i < 176 → KeyRecurrence sboxTable e i) :
    ExpandKey key e0 sboxTable = some e := by
  obtain ⟨e', he', a1, a2, a3⟩ := ExpandKey_spec key e0 sboxTable he0
  rw [he', ExpandKey_unique key sboxTable e' e a1 hl a2 hk a3 hr]

theorem schedule_of_checks (key e : List Nat) (hb : ∀ x ∈ e, x < 256) (hl : e.length = 176)
    (hk : e.take 16 = key)
    (hc : (List.range' 16 160).all (recCheck (pack sboxTable) (pack e)) = true)
    (e0 : List Nat) (he0 : e0.length = 176) : ExpandKey key e0 sboxTable = some e := by
  apply ExpandKey_eq_of_recurrence key e0 e he0 hl
  · intro i hi
    rw [← hk]
    simp [List.getD_eq_getElem?_getD, List.getElem?_take, hi]
  · intro i h1 h2
    apply recCheck_sound sboxTable e sboxTable_isBytes.2 hb
    exact List.all_eq_true.mp hc i (by rw [List.mem_range']; exact ⟨i - 16, by omega, by omega⟩)

theorem EncryptSpec_rounds (b e s st0 st1 st2 st3 st4 st5 st6 st7 st8 st9 c : List Nat)
    (h0 : AddRoundKey b (roundKey e 0) = st0)
    (h1 : AddRoundKey (MixColumns (ShiftRows (SubBytes st0 s))) (roundKey e 1) = st1)
    (h2 : AddRoundKey (MixColumns (ShiftRows (SubBytes st1 s))) (roundKey e 2) = st2)
    (h3 : AddRoundKey (MixColumns (ShiftRows (SubBytes st2 s))) (roundKey e 3) = st3)
    (h4 : AddRoundKey (MixColumns (ShiftRows (SubBytes st3 s))) (roundKey e 4) = st4)
    (h5 : AddRoundKey (MixColumns (ShiftRows (SubBytes st4 s))) (roundKey e 5) = st5)
    (h6 : AddRoundKey (MixColumns (ShiftRows (SubBytes st5 s))) (roundKey e 6) = st6)
    (h7 : AddRoundKey (MixColumns (ShiftRows (SubBytes st6 s))) (roundKey e 7) = st7)
    (h8 : AddRoundKey (MixColumns (ShiftRows (SubBytes st7 s))) (roundKey e 8) = st8)
    (h9 : AddRoundKey (MixColumns (ShiftRows (SubBytes st8 s))) (roundKey e 9) = st9)
    (h10 : AddRoundKey (ShiftRows (SubBytes st9 s)) (roundKey e 10) = c) :
    EncryptSpec b e s = c := by
  simp only [EncryptSpec, List.foldl_cons, List.foldl_nil]
  rw [h0, h1, h2, h3, h4, h5, h6, h7, h8, h9, h10]

theorem fipsSchedule_isBytes : IsBytes 176 fipsSchedule := by decide!

theorem fipsSchedule_check :
    (List.range' 16 160).all (recCheck (pack sboxTable) (pack fipsSchedule)) = true := by
  decide!

theorem fipsSchedule_run :
    ExpandKey fipsKey (List.replicate 176 0) sboxTable = some fipsSchedule :=
  schedule_of_checks fipsKey fipsSchedule fipsSchedule_isBytes.2 fipsSchedule_isBytes.1
    (by decide!) fipsSchedule_check _ (List.length_replicate 176 0)

theorem zeroSchedule_isBytes : IsBytes 176 zeroSchedule := by decide!

theorem zeroSchedule_check :
    (List.range' 16 160).all (recCheck (pack sboxTable) (pack zeroSchedule)) = true := by
  decide!

theorem zeroSchedule_run :
    ExpandKey (List.replicate 16 0) (List.replicate 176 0) sboxTable = some zeroSchedule :=
  schedule_of_checks _ zeroSchedule zeroSchedule_isBytes.2 zeroSchedule_isBytes.1
    (by decide!) zeroSchedule_check _ (List.length_replicate 176 0)

theorem fipsSchedule_encrypt :
    EncryptSpec fipsBlock fipsSchedule sboxTable = fipsCipher :=
  EncryptSpec_rounds _ _ _
    [0x00, 0x10, 0x20, 0x30, 0x40, 0x50, 0x60, 0x70, 0x80, 0x90, 0xa0, 0xb0, 0xc0, 0xd0, 0xe0, 0xf0]
    [0x89, 0xd8, 0x10, 0xe8, 0x85, 0x5a, 0xce, 0x68, 0x2d, 0x18, 0x43, 0xd8, 0xcb, 0x12, 0x8f, 0xe4]
    [0x49, 0x15, 0x59, 0x8f, 0x55, 0xe5, 0xd7, 0xa0, 0xda, 0xca, 0x94, 0xfa, 0x1f, 0x0a, 0x63, 0xf7]
    [0xfa, 0x63, 0x6a, 0x28, 0x25, 0xb3, 0x39, 0xc9, 0x40, 0x66, 0x8a, 0x31, 0x57, 0x24, 0x4d, 0x17]
    [0x24, 0x72, 0x40, 0x23, 0x69, 0x66, 0xb3, 0xfa, 0x6e, 0xd2, 0x75, 0x32, 0x88, 0x42, 0x5b, 0x6c]
    [0xc8, 0x16, 0x77, 0xbc, 0x9b, 0x7a, 0xc9, 0x3b, 0x25, 0x02, 0x79, 0x92, 0xb0, 0x26, 0x19, 0x96]
    [0xc6, 0x2f, 0xe1, 0x09, 0xf7, 0x5e, 0xed, 0xc3, 0xcc, 0x79, 0x39, 0x5d, 0x84, 0xf9, 0xcf, 0x5d]
    [0xd1, 0x87, 0x6c, 0x0f, 0x79, 0xc4, 0x30, 0x0a, 0xb4, 0x55, 0x94, 0xad, 0xd6, 0x6f, 0xf4, 0x1f]
    [0xfd, 0xe3, 0xba, 0xd2, 0x05, 0xe5, 0xd0, 0xd7, 0x35, 0x47, 0x96, 0x4e, 0xf1, 0xfe, 0x37, 0xf1]
    [0xbd, 0x6e, 0x7c, 0x3d, 0xf2, 0xb5, 0x77, 0x9e, 0x0b, 0x61, 0x21, 0x6e, 0x8b, 0x10, 0xb6, 0x89]
    _ (by decide!) (by decide!) (by decide!) (by decide!) (by decide!) (by decide!) (by decide!)
    (by decide!) (by decide!) (by decide!) (by decide!)

theorem zeroSchedule_encrypt :
    EncryptSpec (List.replicate 16 0) zeroSchedule sboxTable = zeroCipher :=
  EncryptSpec_rounds _ _ _
    [0x00, 0x00, 0x00, 0x00, 0x00, 0x00, 0x00, 0x00, 0x00, 0x00, 0x00, 0x00, 0x00, 0x00, 0x00, 0x00]
    [0x01, 0x00, 0x00, 0x00, 0x01, 0x00, 0x00, 0x00, 0x01, 0x00, 0x00, 0x00, 0x01, 0x00, 0x00, 0x00]
    [0xc6, 0xe4, 0xe4, 0x8b, 0xa4, 0x87, 0x87, 0xe8, 0xc6, 0xe4, 0xe4, 0x8b, 0xa4, 0x87, 0x87, 0xe8]
    [0x28, 0x2d, 0xf3, 0xc4, 0x6a, 0xf3, 0x86, 0x25, 0x4a, 0x4e, 0x90, 0xa7, 0x08, 0x90, 0xe5, 0x46]
    [0xab, 0xd2, 0xcd, 0xfe, 0x37, 0x5a, 0xb5, 0x49, 0x50, 0xa0, 0xaf, 0xc0, 0x75, 0x9a, 0x6a, 0x5f]
    [0xd4, 0x6f, 0x4f, 0x6c, 0x55, 0xb8, 0x96, 0x33, 0x7e, 0x05, 0xbb, 0x3d, 0x79, 0x79, 0xde, 0x23]
    [0x04, 0xf2, 0xca, 0x97, 0x07, 0x78, 0x28, 0x45, 0xe2, 0x2f, 0x01, 0x96, 0x49, 0xc5, 0xd7, 0x10]
    [0xb7, 0xaa, 0xe4, 0xc5, 0x1d, 0x25, 0x2d, 0x4f, 0x6c, 0x92, 0x0f, 0x81, 0x94, 0xe5, 0x81, 0x50]
    [0x23, 0xe7, 0x8c, 0x3c, 0x13, 0x21, 0x63, 0xdb, 0xaa, 0xc0, 0xc6, 0x57, 0x2e, 0x03, 0xcb, 0x95]
    [0x7f, 0xfe, 0x0e, 0x95, 0x51, 0xa5, 0x66, 0x35, 0x0e, 0x34, 0x7c, 0x47, 0x29, 0x29, 0xec, 0xcb]
    _ (by decide!) (by decide!) (by decide!) (by decide!) (by decide!) (by decide!) (by decide!)
    (by decide!) (by decide!) (by decide!) (by decide!)

theorem fipsSchedule_encrypt_pad :
    EncryptSpec (List.replicate 16 0x41) fipsSchedule sboxTable = 
      [0xdd, 0x4b, 0x1a, 0x0b, 0x47, 0xda, 0xa7, 0x06,
       0x7d, 0x0b, 0x59, 0xd9, 0x5d, 0x58, 0xa6, 0xae] :=
  EncryptSpec_rounds _ _ _
    [0x41, 0x40, 0x43, 0x42, 0x45, 0x44, 0x47, 0x46, 0x49, 0x48, 0x4b, 0x4a, 0x4d, 0x4c, 0x4f, 0x4e]
    [0x7a, 0xfe, 0xe0, 0x95, 0x50, 0xde, 0x29, 0xc6, 0x97, 0xbb, 0xb0, 0x3b, 0x66, 0x77, 0xa6, 0xde]
    [0xc4, 0x5d, 0xfa, 0xbe, 0xe9, 0xe7, 0x32, 0x9e, 0xe4, 0x6e, 0xa6, 0xe4, 0x9f, 0x78, 0x57, 0x6a]
    [0x0f, 0xbe, 0xb2, 0xde, 0xa1, 0xba, 0x17, 0x1e, 0x47, 0x2f, 0x9e, 0x83, 0x37, 0x26, 0xd5, 0x8a]
    [0xd9, 0x11, 0xe1, 0x25, 0xd0, 0x35, 0x38, 0x79, 0xe5, 0x12, 0x9d, 0x63, 0x27, 0x3f, 0x6d, 0xd5]
    [0xaa, 0x49, 0xb9, 0x79, 0x0a, 0x1d, 0x1d, 0xf0, 0x28, 0x65, 0x29, 0xdd, 0x4f, 0xd7, 0x74, 0x8d]
    [0x12, 0x6f, 0xb1, 0x29, 0xca, 0x40, 0x46, 0x97, 0x07, 0x0b, 0x24, 0xc6, 0x31, 0x67, 0xab, 0xfa]
    [0x9d, 0x55, 0xab, 0x3f, 0xb1, 0x7e, 0x8d, 0x08, 0x01, 0x15, 0x97, 0x5f, 0xd6, 0x7f, 0xdc, 0xf5]
    [0x9b, 0x85, 0x10, 0x7b, 0x37, 0x82, 0x7c, 0xcf, 0x27, 0x43, 0x80, 0xa0, 0xd4, 0x82, 0x80, 0xf7]
    [0xec, 0x8f, 0x0c, 0xe3, 0x1d, 0x46, 0x35, 0x48, 0xe6, 0xb6, 0x38, 0x05, 0x7c, 0x81, 0x53, 0xca]
    _ (by decide!) (by decide!) (by decide!) (by decide!) (by decide!) (by decide!) (by decide!)
    (by decide!) (by decide!) (by decide!) (by decide!)

theorem sboxInverse_bytes : ∀ x ∈ sboxInverse, x < 256 := by decide!

theorem sboxPerm_check :
    (List.range 256).all (fun v =>
      Nat.beq (look (pack sboxInverse) (look (pack sboxTable) v)) v &&
      Nat.beq (look (pack sboxTable) (look (pack sboxInverse) v)) v) = true := by
  decide!

theorem sboxIndex_spec (v : Nat) (hv : v < 256) :
    sboxIndex v < 256 ∧ sboxTable.getD (sboxIndex v) 0 = v ∧
      sboxIndex (sboxTable.getD v 0) = v ∧ sboxTable.getD v 0 < 256 := by
  have h := List.all_eq_true.mp sboxPerm_check v (List.mem_range.mpr hv)
  rw [Bool.and_eq_true] at h
  have h1 := Nat.eq_of_beq_eq_true h.1
  have h2 := Nat.eq_of_beq_eq_true h.2
  rw [look_pack sboxTable sboxTable_isBytes.2, look_pack sboxInverse sboxInverse_bytes] at h1
  rw [look_pack sboxInverse sboxInverse_bytes, look_pack sboxTable sboxTable_isBytes.2] at h2
  exact ⟨getD_lt_of_bytes sboxInverse sboxInverse_bytes v, h2, h1,
    getD_lt_of_bytes sboxTable sboxTable_isBytes.2 v⟩

theorem sboxTable_nodup : sboxTable.Nodup := by
  rw [List.nodup_iff_injective_getElem]
  intro i j h
  have hi : i.1 < 256 := lt_of_lt_of_eq i.2 sboxTable_length
  have hj : j.1 < 256 := lt_of_lt_of_eq j.2 sboxTable_length
  have h' : sboxTable.getD i.1 0 = sboxTable.getD j.1 0 := by
    rw [List.getD_eq_getElem _ _ i.2, List.getD_eq_getElem _ _ j.2]
    exact h
  have e := (sboxIndex_spec i.1 hi).2.2.1
  rw [h', (sboxIndex_spec j.1 hj).2.2.1] at e
  exact Fin.ext e.symm

theorem sboxTable_onto (v : Nat) (hv : v < 256) : v ∈ sboxTable := by
  obtain ⟨h1, h2, -, -⟩ := sboxIndex_spec v hv
  have hl : sboxIndex v < sboxTable.length := by rw [sboxTable_length]; exact h1
  rw [List.getD_eq_getElem _ _ hl] at h2
  rw [← h2]
  exact List.getElem_mem _

/-- C1: with the S-box produced by `InitializeSbox` and the schedule produced by
`ExpandKey` from the key `000102030405060708090a0b0c0d0e0f`, `Encrypt` of the
block `00112233445566778899aabbccddeeff` writes the 16 bytes
`69c4e0d86a7b0430d8cdb78070b4c55a` to `cipher_text`, whatever the three output
arrays held before. -/
theorem Encrypt_fips197_vector (s0 e0 c0 : List Nat) (hs0 : s0.length = 256)
    (he0 : e0.length = 176) (hc0 : c0.length = 16) :
    ∃ s e, InitializeSbox s0 = some s ∧ ExpandKey fipsKey e0 s = some e ∧
      (Encrypt fipsBlock c0 e s).2 = fipsCipher := by
  refine ⟨sboxTable, fipsSchedule, InitializeSbox_eq_sboxTable s0 hs0, ?_, ?_⟩
  · rw [ExpandKey_initial_irrelevant fipsKey sboxTable e0 (List.replicate 176 0) he0
      (List.length_replicate 176 0)]
    exact fipsSchedule_run
  · rw [Encrypt_snd fipsBlock c0 fipsSchedule sboxTable fipsBlock_length hc0]
    exact fipsSchedule_encrypt

/-- Witness of C1 with the three arrays zero-filled before the calls. -/
theorem Encrypt_fips197_vector_witness :
    ∃ s e, InitializeSbox (List.replicate 256 0) = some s ∧
      ExpandKey fipsKey (List.replicate 176 0) s = some e ∧
      (Encrypt fipsBlock (List.replicate 16 0) e s).2 = fipsCipher :=
  Encrypt_fips197_vector (List.replicate 256 0) (List.replicate 176 0) (List.replicate 16 0)
    (List.length_replicate 256 0) (List.length_replicate 176 0) (List.length_replicate 16 0)

/-- C2: whatever the 256-entry array held before, the table written by
`InitializeSbox` is the published FIPS-197 forward S-box at every index; in
particular `table[0x00] = 0x63`, `table[0x01] = 0x7c`, `table[0x53] = 0xed`
and `table[0xff] = 0x16`. -/
theorem InitializeSbox_matches_fips197 (s0 : List Nat) (hs0 : s0.length = 256) :
    ∃ table, InitializeSbox s0 = some table ∧ table.length = 256 ∧
      (∀ i, i < 256 → table.getD i 0 = sboxTable.getD i 0) ∧
      table.getD 0x00 0 = 0x63 ∧ table.getD 0x01 0 = 0x7c ∧
      table.getD 0x53 0 = 0xed ∧ table.getD 0xff 0 = 0x16 :=
  ⟨sboxTable, InitializeSbox_eq_sboxTable s0 hs0, sboxTable_length, fun _ _ => rfl,
    by decide!, by decide!, by decide!, by decide!⟩

/-- Witness of C2 with the array zero-filled before the call. -/
theorem InitializeSbox_matches_fips197_witness :
    ∃ table, InitializeSbox (List.replicate 256 0) = some table ∧ table.length = 256 ∧
      (∀ i, i < 256 → table.getD i 0 = sboxTable.getD i 0) ∧
      table.getD 0x00 0 = 0x63 ∧ table.getD 0x01 0 = 0x7c ∧
      table.getD 0x53 0 = 0xed ∧ table.getD 0xff 0 = 0x16 :=
  InitializeSbox_matches_fips197 (List.replicate 256 0) (List.length_replicate 256 0)

/-- C3: the table written by `InitializeSbox` is a permutation of the byte
values: it does not depend on what the array held before (every index is
assigned), it has 256 entries below 256, entries at different indices differ,
and every byte value occurs exactly once. -/
theorem InitializeSbox_permutation (s0 : List Nat) (hs0 : s0.length = 256) :
    ∃ table, InitializeSbox s0 = some table ∧
      (∀ s0' : List Nat, s0'.length = 256 → InitializeSbox s0' = some table) ∧
      IsBytes 256 table ∧
      (∀ a b, a < 256 → b < 256 → a ≠ b → table.getD a 0 ≠ table.getD b 0) ∧
      (∀ v, v < 256 → table.count v = 1) := by
  refine ⟨sboxTable, InitializeSbox_eq_sboxTable s0 hs0,
    fun s0' h => InitializeSbox_eq_sboxTable s0' h, sboxTable_isBytes, ?_, ?_⟩
  · intro a b ha hb hab heq
    have ha' : a < sboxTable.length := by rw [sboxTable_length]; exact ha
    have hb' : b < sboxTable.length := by rw [sboxTable_length]; exact hb
    rw [List.getD_eq_getElem _ _ ha', List.getD_eq_getElem _ _ hb'] at heq
    exact hab ((List.Nodup.getElem_inj_iff sboxTable_nodup).mp heq)
  · intro v hv
    exact List.count_eq_one_of_mem sboxTable_nodup (sboxTable_onto v hv)

/-- Witness of C3 with the array zero-filled before the call. -/
theorem InitializeSbox_permutation_witness :
    ∃ table, InitializeSbox (List.replicate 256 0) = some table ∧
      (∀ s0' : List Nat, s0'.length = 256 → InitializeSbox s0' = some table) ∧
      IsBytes 256 table ∧
      (∀ a b, a < 256 → b < 256 → a ≠ b → table.getD a 0 ≠ table.getD b 0) ∧
      (∀ v, v < 256 → table.count v = 1) :=
  InitializeSbox_permutation (List.replicate 256 0) (List.length_replicate 256 0)

/-- C9: for every block, 176-byte schedule and table, `Encrypt` writes to
`cipher_text` the state obtained by `AddRoundKey` with `e[0..16)`, then for
round 1 to 9 in order `SubBytes`, `ShiftRows`, `MixColumns`, `AddRoundKey` with
`e[16*round .. 16*round+16)`, then `SubBytes`, `ShiftRows` and `AddRoundKey`
with `e[160..176)` without `MixColumns`; the input block is left as it was. -/
theorem Encrypt_refines_spec (b c0 e s : List Nat) (hb : IsBytes 16 b) (hc0 : c0.length = 16)
    (_he : IsBytes 176 e) (_hs : IsBytes 256 s) :
    (Encrypt b c0 e s).2 = EncryptSpec b e s ∧ (Encrypt b c0 e s).1 = b ∧
    EncryptSpec b e s =
      AddRoundKey (ShiftRows (SubBytes
        ([1, 2, 3, 4, 5, 6, 7, 8, 9].foldl
          (fun state round =>
            AddRoundKey (MixColumns (ShiftRows (SubBytes state s)))
              ((e.drop (16 * round)).take 16))
          (AddRoundKey b ((e.drop (16 * 0)).take 16))) s)) ((e.drop (16 * 10)).take 16) := by
  refine ⟨Encrypt_snd b c0 e s hb.1 hc0, ?_, ?_⟩
  · simp only [Encrypt_eq_spec b c0 e s hb.1 hc0]
  · simp only [EncryptSpec, roundKey]

/-- Witness of C9 at the FIPS-197 block, schedule and S-box. -/
theorem Encrypt_refines_spec_witness :
    (Encrypt fipsBlock (List.replicate 16 0) fipsSchedule sboxTable).2 =
      EncryptSpec fipsBlock fipsSchedule sboxTable :=
  (Encrypt_refines_spec fipsBlock (List.replicate 16 0) fipsSchedule sboxTable (by decide)
    (List.length_replicate 16 0) fipsSchedule_isBytes sboxTable_isBytes).1

/-- C10: for every 16-byte key `K` and plaintext `P` of `16*N` bytes, `main` on
the input `K ++ P` terminates having written exactly `N*16` bytes, block `i`
of which is `Encrypt` of block `i` of `P` under the schedule of `K` and the
generated S-box; hence block `i` of the output is the same for every other
plaintext of that length with the same block `i`. -/
theorem main_encrypts_blocks (junk : Nat) (K P s0 e0 c0 : List Nat) (N : Nat)
    (hK : IsBytes 16 K) (hP : IsBytes (16 * N) P) (hs0 : s0.length = 256)
    (he0 : e0.length = 176) (hc0 : c0.length = 16) :
    ∃ s e out, InitializeSbox s0 = some s ∧ ExpandKey K e0 s = some e ∧
      main junk (K ++ P) = some out ∧ out.length = N * 16 ∧
      (∀ i, i < N → blockAt out i = (Encrypt (blockAt P i) c0 e s).2) ∧
      (∀ (P' : List Nat) (i : Nat), IsBytes (16 * N) P' → i < N → blockAt P' i = blockAt P i →
        ∃ out', main junk (K ++ P') = some out' ∧ blockAt out' i = blockAt out i) := by
  obtain ⟨e, he, -, -, -⟩ := ExpandKey_spec K e0 sboxTable he0
  have he' : ExpandKey K (List.replicate 176 junk) sboxTable = some e := by
    rw [ExpandKey_initial_irrelevant K sboxTable _ e0 (List.length_replicate 176 junk) he0]
    exact he
  refine ⟨sboxTable, e, encryptBlocks e sboxTable N P, InitializeSbox_eq_sboxTable s0 hs0, he,
    main_spec junk K P e N hK.1 hP.1 he', ?_, ?_, ?_⟩
  · rw [encryptBlocks_length e sboxTable N P hP.1]; omega
  · intro i hi
    have hB : (blockAt P i).length = 16 := by
      simp only [blockAt, List.length_take, List.length_drop, hP.1]
      have : 16 * i + 16 ≤ 16 * N := by omega
      omega
    rw [encryptBlocks_blockAt e sboxTable N P i hP.1 hi, Encrypt_snd _ c0 e sboxTable hB hc0]
  · intro P' i hP' hi hsame
    refine ⟨encryptBlocks e sboxTable N P', main_spec junk K P' e N hK.1 hP'.1 he', ?_⟩
    rw [encryptBlocks_blockAt e sboxTable N P' i hP'.1 hi,
      encryptBlocks_blockAt e sboxTable N P i hP.1 hi, hsame]

/-- Witness of C10: the FIPS-197 key followed by the FIPS-197 block. -/
theorem main_encrypts_blocks_witness :
    ∃ s e out, InitializeSbox (List.replicate 256 0) = some s ∧
      ExpandKey fipsKey (List.replicate 176 0) s = some e ∧
      main 0 (fipsKey ++ fipsBlock) = some out ∧ out.length = 1 * 16 ∧
      (∀ i, i < 1 → blockAt out i = (Encrypt (blockAt fipsBlock i) (List.replicate 16 0) e s).2) ∧
      (∀ (P' : List Nat) (i : Nat), IsBytes (16 * 1) P' → i < 1 →
        blockAt P' i = blockAt fipsBlock i →
        ∃ out', main 0 (fipsKey ++ P') = some out' ∧ blockAt out' i = blockAt out i) :=
  main_encrypts_blocks 0 fipsKey fipsBlock (List.replicate 256 0) (List.replicate 176 0)
    (List.replicate 16 0) 1 (by decide) (by decide) (List.length_replicate 256 0)
    (List.length_replicate 176 0) (List.length_replicate 16 0)

/-- C11: with the generated S-box and the schedule expanded from the all-zero
16-byte key, `Encrypt` of the all-zero 16-byte block writes the AES-128
reference value `66e94bd4ef8a2c3b884cfa59ca342b2e`, which is not the all-zero
block, whatever the three output arrays held before. -/
theorem Encrypt_zero_vector (s0 e0 c0 : List Nat) (hs0 : s0.length = 256)
    (he0 : e0.length = 176) (hc0 : c0.length = 16) :
    ∃ s e, InitializeSbox s0 = some s ∧ ExpandKey (List.replicate 16 0) e0 s = some e ∧
      (Encrypt (List.replicate 16 0) c0 e s).2 =
        [0x66, 0xe9, 0x4b, 0xd4, 0xef, 0x8a, 0x2c, 0x3b,
         0x88, 0x4c, 0xfa, 0x59, 0xca, 0x34, 0x2b, 0x2e] ∧
      (Encrypt (List.replicate 16 0) c0 e s).2 ≠ List.replicate 16 0 := by
  have h : (Encrypt (List.replicate 16 0) c0 zeroSchedule sboxTable).2 = zeroCipher := by
    rw [Encrypt_snd _ c0 zeroSchedule sboxTable (List.length_replicate 16 0) hc0]
    exact zeroSchedule_encrypt
  refine ⟨sboxTable, zeroSchedule, InitializeSbox_eq_sboxTable s0 hs0, ?_, h, ?_⟩
  · rw [ExpandKey_initial_irrelevant (List.replicate 16 0) sboxTable e0 (List.replicate 176 0)
      he0 (List.length_replicate 176 0)]
    exact zeroSchedule_run
  · rw [h]
    decide

/-- Witness of C11 with the three arrays zero-filled before the calls. -/
theorem Encrypt_zero_vector_witness :
    ∃ s e, InitializeSbox (List.replicate 256 0) = some s ∧
      ExpandKey (List.replicate 16 0) (List.replicate 176 0) s = some e ∧
      (Encrypt (List.replicate 16 0) (List.replicate 16 0) e s).2 =
        [0x66, 0xe9, 0x4b, 0xd4, 0xef, 0x8a, 0x2c, 0x3b,
         0x88, 0x4c, 0xfa, 0x59, 0xca, 0x34, 0x2b, 0x2e] ∧
      (Encrypt (List.replicate 16 0) (List.replicate 16 0) e s).2 ≠ List.replicate 16 0 :=
  Encrypt_zero_vector (List.replicate 256 0) (List.replicate 176 0) (List.replicate 16 0)
    (List.length_replicate 256 0) (List.length_replicate 176 0) (List.length_replicate 16 0)

/-- C12: `MixColumns` is not an involution: for the 16-byte state whose first
byte is `0x01` and whose other bytes are `0x00`, applying it twice gives a
state that starts with `0x05` and so differs from the state. -/
theorem MixColumns_not_involution :
    IsBytes 16 [1, 0, 0, 0, 0, 0, 0, 0, 0, 0, 0, 0, 0, 0, 0, 0] ∧
    MixColumns (MixColumns [1, 0, 0, 0, 0, 0, 0, 0, 0, 0, 0, 0, 0, 0, 0, 0]) =
      [5, 0, 4, 0, 0, 0, 0, 0, 0, 0, 0, 0, 0, 0, 0, 0] ∧
    MixColumns (MixColumns [1, 0, 0, 0, 0, 0, 0, 0, 0, 0, 0, 0, 0, 0, 0, 0]) ≠
      [1, 0, 0, 0, 0, 0, 0, 0, 0, 0, 0, 0, 0, 0, 0, 0] := by
  decide!


theorem readBlock_partial (junk t0 : Nat) (R : List Nat) (h1 : 0 < R.length)
    (h2 : R.length < 16) :
    (cinGet R t0).1 = true ∧
    ∃ t, readBlock ((List.replicate blockSize junk).set 0 (cinGet R t0).2.1)
      (cinGet R t0).2.1 (cinGet R t0).2.2 = (padBlock R, t, []) := by
  match R, h1, h2 with
  | [a1], _, _ =>
    simp [readBlock, cinGet, blockSize, List.range', List.replicate, padBlock]
  | [a1, a2], _, _ =>
    simp [readBlock, cinGet, blockSize, List.range', List.replicate, padBlock]
  | [a1, a2, a3], _, _ =>
    simp [readBlock, cinGet, blockSize, List.range', List.replicate, padBlock]
  | [a1, a2, a3, a4], _, _ =>
    simp [readBlock, cinGet, blockSize, List.range', List.replicate, padBlock]
  | [a1, a2, a3, a4, a5], _, _ =>
    simp [readBlock, cinGet, blockSize, List.range', List.replicate, padBlock]
  | [a1, a2, a3, a4, a5, a6], _, _ =>
    simp [readBlock, cinGet, blockSize, List.range', List.replicate, padBlock]
  | [a1, a2, a3, a4, a5, a6, a7], _, _ =>
    simp [readBlock, cinGet, blockSize, List.range', List.replicate, padBlock]
  | [a1, a2, a3, a4, a5, a6, a7, a8], _, _ =>
    simp [readBlock, cinGet, blockSize, List.range', List.replicate, padBlock]
  | [a1, a2, a3, a4, a5, a6, a7, a8, a9], _, _ =>
    simp [readBlock, cinGet, blockSize, List.range', List.replicate, padBlock]
  | [a1, a2, a3, a4, a5, a6, a7, a8, a9, a10], _, _ =>
    simp [readBlock, cinGet, blockSize, List.range', List.replicate, padBlock]
  | [a1, a2, a3, a4, a5, a6, a7, a8, a9, a10, a11], _, _ =>
    simp [readBlock, cinGet, blockSize, List.range', List.replicate, padBlock]
  | [a1, a2, a3, a4, a5, a6, a7, a8, a9, a10, a11, a12], _, _ =>
    simp [readBlock, cinGet, blockSize, List.range', List.replicate, padBlock]
  | [a1, a2, a3, a4, a5, a6, a7, a8, a9, a10, a11, a12, a13], _, _ =>
    simp [readBlock, cinGet, blockSize, List.range', List.replicate, padBlock]
  | [a1, a2, a3, a4, a5, a6, a7, a8, a9, a10, a11, a12, a13, a14], _, _ =>
    simp [readBlock, cinGet, blockSize, List.range', List.replicate, padBlock]
  | [a1, a2, a3, a4, a5, a6, a7, a8, a9, a10, a11, a12, a13, a14, a15], _, _ =>
    simp [readBlock, cinGet, blockSize, List.range', List.replicate, padBlock]
  | _ :: _ :: _ :: _ :: _ :: _ :: _ :: _ :: _ :: _ :: _ :: _ :: _ :: _ :: _ :: _ :: _, _, h =>
    exact absurd h (by simp only [List.length_cons]; omega)

theorem padBlock_length (R : List Nat) (h : R.length < 16) : (padBlock R).length = 16 := by
  simp only [padBlock, List.length_append, List.length_replicate]
  omega

theorem mainLoop_prefix (junk : Nat) (e s : List Nat) (n : Nat) :
    ∀ (fuel temp : Nat) (Q R out : List Nat), Q.length = 16 * n →
      ∃ t, mainLoop junk e s (fuel + n) (temp, Q ++ R, out) =
        mainLoop junk e s fuel (t, R, out ++ encryptBlocks e s n Q) := by
  induction n with
  | zero =>
    intro fuel temp Q R out hQ
    have : Q = [] := List.length_eq_zero.mp (by simpa using hQ)
    subst this
    exact ⟨temp, by simp [encryptBlocks]⟩
  | succ n ih =>
    intro fuel temp Q R out hQ
    have hB : (Q.take 16).length = 16 := by rw [List.length_take, hQ]; omega
    have hR : (Q.drop 16).length = 16 * n := by rw [List.length_drop, hQ]; omega
    obtain ⟨t, hread, hget⟩ := readBlock_spec junk temp (Q.take 16) (Q.drop 16 ++ R) hB
    rw [← List.append_assoc, List.take_append_drop] at hread hget
    have hE := Encrypt_eq_spec (Q.take 16) (List.replicate blockSize junk) e s hB
      (List.length_replicate blockSize junk)
    have hL := EncryptSpec_length (Q.take 16) e s hB
    obtain ⟨t', ht'⟩ := ih fuel t (Q.drop 16) R (out ++ EncryptSpec (Q.take 16) e s) hR
    refine ⟨t', ?_⟩
    rw [← Nat.add_assoc, mainLoop]
    simp only [hget, if_true, hread, hE, emit_all _ _ hL]
    rw [ht']
    simp [encryptBlocks, List.append_assoc]

theorem mainLoop_partial (junk : Nat) (e s : List Nat) (fuel temp : Nat) (R out : List Nat)
    (h1 : 0 < R.length) (h2 : R.length < 16) :
    mainLoop junk e s (fuel + 2) (temp, R, out) = some (out ++ EncryptSpec (padBlock R) e s) := by
  obtain ⟨hget, t, hread⟩ := readBlock_partial junk temp R h1 h2
  have hP := padBlock_length R h2
  have hE := Encrypt_eq_spec (padBlock R) (List.replicate blockSize junk) e s hP
    (List.length_replicate blockSize junk)
  have hL := EncryptSpec_length (padBlock R) e s hP
  rw [mainLoop]
  simp only [hget, if_true, hread, hE, emit_all _ _ hL]
  simp [mainLoop, cinGet]

theorem main_partial_spec (junk : Nat) (K Q R e : List Nat) (N : Nat) (hK : K.length = 16)
    (hQ : Q.length = 16 * N) (h1 : 0 < R.length) (h2 : R.length < 16)
    (he : ExpandKey K (List.replicate 176 junk) sboxTable = some e) :
    main junk (K ++ (Q ++ R)) =
      some (encryptBlocks e sboxTable N Q ++ EncryptSpec (padBlock R) e sboxTable) := by
  have h176 : (rounds + 1) * keySize = 176 := by decide
  have hf : (Q ++ R).length + 1 = (15 * N + R.length - 1 + 2) + N := by
    rw [List.length_append, hQ]; omega
  unfold main
  rw [InitializeSbox_eq_sboxTable _ (List.length_replicate 256 junk)]
  simp only [readKey_spec junk K (Q ++ R) hK, h176, he]
  rw [hf]
  obtain ⟨t, ht⟩ := mainLoop_prefix junk e sboxTable N (15 * N + R.length - 1 + 2) junk Q R [] hQ
  rw [ht, mainLoop_partial junk e sboxTable _ t R _ h1 h2]
  rfl

/-- C13, what the code does: with 16 key bytes followed by `16*N` bytes `Q` and
`m` further bytes `R`, `0 < m < 16`, `main` does not drop the partial block.
It terminates with exactly `16*(N+1)` output bytes: the ciphertext of the `N`
complete blocks, then `Encrypt` of the block made of `R` followed by `16 - m`
copies of the last byte of `R`. -/
theorem main_pads_partial_block (junk : Nat) (K Q R : List Nat) (N : Nat)
    (hK : IsBytes 16 K) (hQ : IsBytes (16 * N) Q) (_hR : ∀ x ∈ R, x < 256)
    (h1 : 0 < R.length) (h2 : R.length < 16) :
    ∃ e out, ExpandKey K (List.replicate 176 junk) sboxTable = some e ∧
      main junk (K ++ (Q ++ R)) = some out ∧ out.length = 16 * (N + 1) ∧
      (∀ i, i < N →
        blockAt out i = (Encrypt (blockAt Q i) (List.replicate 16 junk) e sboxTable).2) ∧
      blockAt out N =
        (Encrypt (R ++ List.replicate (16 - R.length) (R.getLastD 0))
          (List.replicate 16 junk) e sboxTable).2 := by
  obtain ⟨e, he, -, -, -⟩ :=
    ExpandKey_spec K (List.replicate 176 junk) sboxTable (List.length_replicate 176 junk)
  have hP := padBlock_length R h2
  have hlenQ := encryptBlocks_length e sboxTable N Q hQ.1
  have hlenR := EncryptSpec_length (padBlock R) e sboxTable hP
  refine ⟨e, _, he, main_partial_spec junk K Q R e N hK.1 hQ.1 h1 h2 he, ?_, ?_, ?_⟩
  · rw [List.length_append, hlenQ, hlenR]; omega
  · intro i hi
    have hB : (blockAt Q i).length = 16 := by
      simp only [blockAt, List.length_take, List.length_drop, hQ.1]
      have : 16 * i + 16 ≤ 16 * N := by omega
      omega
    rw [Encrypt_snd _ _ e sboxTable hB (List.length_replicate 16 junk),
      ← encryptBlocks_blockAt e sboxTable N Q i hQ.1 hi]
    simp only [blockAt]
    rw [List.drop_append_of_le_length (by rw [hlenQ]; omega),
      List.take_append_of_le_length (by rw [List.length_drop, hlenQ]; omega)]
  · have hE := Encrypt_snd _ _ e sboxTable hP (List.length_replicate 16 junk)
    simp only [padBlock] at hE
    rw [hE]
    simp only [blockAt]
    rw [← hlenQ, List.drop_left, List.take_of_length_le (by rw [hlenR])]
    rfl

/-- Witness of C13 (amended): the FIPS-197 key followed by the single byte `0x41`. -/
theorem main_pads_partial_block_witness :
    ∃ e out, ExpandKey fipsKey (List.replicate 176 0) sboxTable = some e ∧
      main 0 (fipsKey ++ ([] ++ [0x41])) = some out ∧ out.length = 16 * (0 + 1) ∧
      (∀ i, i < 0 →
        blockAt out i = (Encrypt (blockAt [] i) (List.replicate 16 0) e sboxTable).2) ∧
      blockAt out 0 =
        (Encrypt ([0x41] ++ List.replicate (16 - [0x41].length) ([0x41].getLastD 0))
          (List.replicate 16 0) e sboxTable).2 :=
  main_pads_partial_block 0 fipsKey [] [0x41] 0 (by decide) (by decide) (by decide)
    (by decide) (by decide)

/-- C13 as stated fails: on the FIPS-197 key followed by the single byte `0x41`
(`N = 0`, `m = 1`) `main` writes 16 bytes, the encryption of sixteen `0x41`
bytes, and not the empty output of zero complete blocks. -/
theorem main_partial_block_not_dropped :
    main 0 (fipsKey ++ [0x41]) =
      some [0xdd, 0x4b, 0x1a, 0x0b, 0x47, 0xda, 0xa7, 0x06,
            0x7d, 0x0b, 0x59, 0xd9, 0x5d, 0x58, 0xa6, 0xae] ∧
    main 0 (fipsKey ++ [0x41]) ≠ some (encryptBlocks fipsSchedule sboxTable 0 []) := by
  have h0 := main_partial_spec 0 fipsKey [] [0x41] fipsSchedule 0 (by decide) (by decide)
    (by decide) (by decide) fipsSchedule_run
  have hp : padBlock [0x41] = List.replicate 16 0x41 := by decide
  rw [hp, fipsSchedule_encrypt_pad] at h0
  have h : main 0 (fipsKey ++ [0x41]) =
      some [0xdd, 0x4b, 0x1a, 0x0b, 0x47, 0xda, 0xa7, 0x06,
            0x7d, 0x0b, 0x59, 0xd9, 0x5d, 0x58, 0xa6, 0xae] := h0
  refine ⟨h, ?_⟩
  rw [h]
  simp [encryptBlocks]

theorem gfMulK_eq (a b : Nat) : gfMulK a b = gfMul a b := by
  simp only [gfMul, reduce11B, clmul, cancelTerm, gfMulK, cancelTermK]
  rfl

theorem bitmul_xor (b c k i : Nat) :
    ((b ^^^ c) / 2 ^ i % 2) * k = (b / 2 ^ i % 2) * k ^^^ (c / 2 ^ i % 2) * k := by
  rw [← Nat.toNat_testBit, ← Nat.toNat_testBit, ← Nat.toNat_testBit, Nat.testBit_xor]
  cases b.testBit i <;> cases c.testBit i <;> simp

theorem clmul_xor (a b c : Nat) : clmul a (b ^^^ c) = clmul a b ^^^ clmul a c := by
  have h0 := bitmul_xor b c a 0
  have h1 := bitmul_xor b c (2 * a) 1
  have h2 := bitmul_xor b c (4 * a) 2
  have h3 := bitmul_xor b c (8 * a) 3
  have h4 := bitmul_xor b c (16 * a) 4
  have h5 := bitmul_xor b c (32 * a) 5
  have h6 := bitmul_xor b c (64 * a) 6
  have h7 := bitmul_xor b c (128 * a) 7
  simp only [pow_zero, Nat.div_one] at h0
  simp only [pow_one] at h1
  have e2 : (2 : Nat) ^ 2 = 4 := rfl
  have e3 : (2 : Nat) ^ 3 = 8 := rfl
  have e4 : (2 : Nat) ^ 4 = 16 := rfl
  have e5 : (2 : Nat) ^ 5 = 32 := rfl
  have e6 : (2 : Nat) ^ 6 = 64 := rfl
  have e7 : (2 : Nat) ^ 7 = 128 := rfl
  rw [e2] at h2
  rw [e3] at h3
  rw [e4] at h4
  rw [e5] at h5
  rw [e6] at h6
  rw [e7] at h7
  unfold clmul
  rw [h0, h1, h2, h3, h4, h5, h6, h7]
  ac_rfl

theorem cancelTerm_xor (i c v w : Nat) :
    cancelTerm (2 ^ i) c (v ^^^ w) = cancelTerm (2 ^ i) c v ^^^ cancelTerm (2 ^ i) c w := by
  unfold cancelTerm
  rw [bitmul_xor]
  ac_rfl

theorem reduce11B_xor (v w : Nat) : reduce11B (v ^^^ w) = reduce11B v ^^^ reduce11B w := by
  unfold reduce11B
  simp only [cancelTerm_xor]

theorem gfMul_xor (a b c : Nat) : gfMul a (b ^^^ c) = gfMul a b ^^^ gfMul a c := by
  unfold gfMul
  rw [clmul_xor, reduce11B_xor]

theorem byte_bits_check :
    (List.range 256).all (fun y => Nat.beq y
      ((y % 2) * 1 ^^^ (y / 2 % 2) * 2 ^^^ (y / 4 % 2) * 4 ^^^ (y / 8 % 2) * 8 ^^^
        (y / 16 % 2) * 16 ^^^ (y / 32 % 2) * 32 ^^^ (y / 64 % 2) * 64 ^^^
        (y / 128 % 2) * 128)) = true := by
  decide!

theorem linear_id (F : Nat → Nat) (hF : ∀ a b, F (a ^^^ b) = F a ^^^ F b)
    (h1 : F 1 = 1) (h2 : F 2 = 2) (h4 : F 4 = 4) (h8 : F 8 = 8) (h16 : F 16 = 16)
    (h32 : F 32 = 32) (h64 : F 64 = 64) (h128 : F 128 = 128) (y : Nat) (hy : y < 256) :
    F y = y := by
  have h0 : F 0 = 0 := by
    have := hF 0 0
    simp only [Nat.xor_self] at this
    exact this
  have hb : ∀ u k, F k = k → F ((u % 2) * k) = (u % 2) * k := by
    intro u k hk
    rcases Nat.mod_two_eq_zero_or_one u with h | h <;> rw [h]
    · rw [Nat.zero_mul]; exact h0
    · rw [Nat.one_mul]; exact hk
  have e := Nat.eq_of_beq_eq_true
    (List.all_eq_true.mp byte_bits_check y (List.mem_range.mpr hy))
  have e' := congrArg F e
  rw [hF, hF, hF, hF, hF, hF, hF, hb _ 1 h1, hb _ 2 h2, hb _ 4 h4, hb _ 8 h8, hb _ 16 h16,
    hb _ 32 h32, hb _ 64 h64, hb _ 128 h128, ← e] at e'
  exact e'

theorem gfInverse_bytes : ∀ x ∈ gfInverse, x < 256 := by decide!

theorem sboxTable_inverse_chunk (k : Nat) (hk : k < 4) :
    (List.range' (64 * k) 64).all (inverseCheck (pack gfInverse) (pack sboxTable)) = true := by
  interval_cases k <;> decide!

theorem sboxTable_inverse (x : Nat) (h0 : 0 < x) (hx : x < 256) :
    ∃ y, y < 256 ∧ gfMul x y = 1 ∧ (∀ y', y' < 256 → gfMul x y' = 1 → y' = y) ∧
      sboxTable.getD x 0 = affineA y ^^^ 0x63 := by
  have h := all_of_chunks _ 64 4 (by decide) sboxTable_inverse_chunk x hx
  unfold inverseCheck at h
  rw [look_pack gfInverse gfInverse_bytes, look_pack sboxTable sboxTable_isBytes.2] at h
  have hx0 : Nat.beq x 0 = false := by
    cases hb : Nat.beq x 0 with
    | false => rfl
    | true => exact absurd (Nat.eq_of_beq_eq_true hb) (by omega)
  rw [hx0, Bool.false_or] at h
  simp only [Bool.and_eq_true] at h
  obtain ⟨⟨⟨⟨⟨⟨⟨⟨⟨c, b1⟩, b2⟩, b4⟩, b8⟩, b16⟩, b32⟩, b64⟩, b128⟩, cs⟩ := h
  have hc := Nat.eq_of_beq_eq_true c
  have k1 := Nat.eq_of_beq_eq_true b1
  have k2 := Nat.eq_of_beq_eq_true b2
  have k4 := Nat.eq_of_beq_eq_true b4
  have k8 := Nat.eq_of_beq_eq_true b8
  have k16 := Nat.eq_of_beq_eq_true b16
  have k32 := Nat.eq_of_beq_eq_true b32
  have k64 := Nat.eq_of_beq_eq_true b64
  have k128 := Nat.eq_of_beq_eq_true b128
  have hs := Nat.eq_of_beq_eq_true cs
  rw [gfMulK_eq] at hc
  simp only [gfMulK_eq] at k1 k2 k4 k8 k16 k32 k64 k128
  have hy : gfInverse.getD x 0 < 256 := getD_lt_of_bytes gfInverse gfInverse_bytes x
  generalize gfInverse.getD x 0 = y at hc k1 k2 k4 k8 k16 k32 k64 k128 hs hy
  have hF : ∀ w, w < 256 → gfMul y (gfMul x w) = w := fun w hw =>
    linear_id (fun w => gfMul y (gfMul x w)) (fun a b => by simp only [gfMul_xor])
      k1 k2 k4 k8 k16 k32 k64 k128 w hw
  refine ⟨y, hy, hc, ?_, hs⟩
  intro y' hy' hm
  have a := hF y' hy'
  have b := hF y hy
  rw [hm] at a
  rw [hc] at b
  exact a.symm.trans b

/-- C14: whatever the array held before, the table written by `InitializeSbox`
has `table[0] = 0x63`, and for every nonzero byte `x` there is exactly one byte
`y` with `x*y = 1` in GF(2^8) (carry-less product reduced modulo `0x11B`), and
`table[x] = A(y) XOR 0x63` for the affine transform
`A(q) = q XOR rotl8(q,1) XOR rotl8(q,2) XOR rotl8(q,3) XOR rotl8(q,4)`. -/
theorem InitializeSbox_inverse_affine (s0 : List Nat) (hs0 : s0.length = 256) :
    ∃ table, InitializeSbox s0 = some table ∧ table.getD 0 0 = 0x63 ∧
      ∀ x, 0 < x → x < 256 →
        ∃ y, y < 256 ∧ gfMul x y = 1 ∧ (∀ y', y' < 256 → gfMul x y' = 1 → y' = y) ∧
          table.getD x 0 =
            (y ^^^ rotl8 y 1 ^^^ rotl8 y 2 ^^^ rotl8 y 3 ^^^ rotl8 y 4) ^^^ 0x63 :=
  ⟨sboxTable, InitializeSbox_eq_sboxTable s0 hs0, by decide!, sboxTable_inverse⟩

/-- Witness of C14 with the array zero-filled before the call. -/
theorem InitializeSbox_inverse_affine_witness :
    ∃ table, InitializeSbox (List.replicate 256 0) = some table ∧ table.getD 0 0 = 0x63 ∧
      ∀ x, 0 < x → x < 256 →
        ∃ y, y < 256 ∧ gfMul x y = 1 ∧ (∀ y', y' < 256 → gfMul x y' = 1 → y' = y) ∧
          table.getD x 0 =
            (y ^^^ rotl8 y 1 ^^^ rotl8 y 2 ^^^ rotl8 y 3 ^^^ rotl8 y 4) ^^^ 0x63 :=
  InitializeSbox_inverse_affine (List.replicate 256 0) (List.length_replicate 256 0)

theorem InitializeSboxLoopT_erase (fuel p q : Nat) (s : List Nat) :
    (InitializeSboxLoopT fuel p q s).map Prod.fst = InitializeSboxLoop fuel p q s := by
  induction fuel generalizing p q s with
  | zero => rfl
  | succ n ih =>
    simp only [InitializeSboxLoopT, InitializeSboxLoop]
    split
    · rw [← ih]; simp [Option.map_map, Function.comp_def]
    · rfl

theorem InitializeSboxLoopT_states (fuel p q : Nat) (s : List Nat) :
    (InitializeSboxLoopT fuel p q s).map Prod.snd = sboxStates fuel p q := by
  induction fuel generalizing p q s with
  | zero => rfl
  | succ n ih =>
    simp only [InitializeSboxLoopT, sboxStates]
    split
    · rw [← ih (sboxNextP p) (sboxNextQ q)
        (s.set (sboxNextP p) (sboxXformed (sboxNextQ q) ^^^ 0x63))]
      simp [Option.map_map, Function.comp_def]
    · rfl

theorem InitializeSboxLoopT_run (fuel : Nat) (hf : 255 ≤ fuel) (s : List Nat) :
    ∃ t, InitializeSboxLoopT fuel 1 1 s = some (t, sboxRun) ∧
      InitializeSboxLoop fuel 1 1 s = some t := by
  obtain ⟨k, rfl⟩ : ∃ k, fuel = 255 + k := ⟨fuel - 255, by omega⟩
  have h1 := InitializeSboxLoopT_states (255 + k) 1 1 s
  rw [sboxStates_mono 255 1 1 sboxRun sboxStates_255 k] at h1
  have h2 := InitializeSboxLoopT_erase (255 + k) 1 1 s
  cases h : InitializeSboxLoopT (255 + k) 1 1 s with
  | none => rw [h] at h1; simp at h1
  | some r =>
    rw [h] at h1 h2
    simp only [Option.map_some', Option.some.injEq] at h1
    obtain ⟨t, st⟩ := r
    simp only at h1
    exact ⟨t, by rw [← h1], h2.symm⟩

theorem InitializeSboxLoopT_mono (fuel p q : Nat) (s : List Nat) (r : List Nat × List (Nat × Nat))
    (h : InitializeSboxLoopT fuel p q s = some r) (k : Nat) :
    InitializeSboxLoopT (fuel + k) p q s = some r := by
  induction fuel generalizing p q s r with
  | zero => simp [InitializeSboxLoopT] at h
  | succ n ih =>
    rw [Nat.add_right_comm]
    simp only [InitializeSboxLoopT] at h ⊢
    split
    · rename_i hp
      rw [if_pos hp] at h
      cases h' : InitializeSboxLoopT n (sboxNextP p) (sboxNextQ q)
          (s.set (sboxNextP p) (sboxXformed (sboxNextQ q) ^^^ 0x63)) with
      | none => simp [h'] at h
      | some r' =>
        rw [ih _ _ _ _ h']
        rw [h'] at h
        exact h
    · rename_i hp
      rw [if_neg hp] at h
      exact h

theorem InitializeSboxLoop_254 (s : List Nat) : InitializeSboxLoop 254 1 1 s = none := by
  have h1 := InitializeSboxLoopT_states 254 1 1 s
  rw [sboxStates_254] at h1
  rw [← InitializeSboxLoopT_erase]
  cases h : InitializeSboxLoopT 254 1 1 s with
  | none => rfl
  | some r => rw [h] at h1; simp at h1

theorem sboxRun_invariant_check :
    sboxRun.all (fun pq => decide (gfMulK pq.1 pq.2 = 1 ∧ gfMulK (sboxNextQ pq.2) 3 = pq.2 ∧
      sboxNextP pq.1 = gfMulK pq.1 3)) = true := by
  decide!

theorem sboxRun_invariant (pq : Nat × Nat) (h : pq ∈ sboxRun) :
    gfMul pq.1 pq.2 = 1 ∧ gfMul (sboxNextQ pq.2) 3 = pq.2 ∧ sboxNextP pq.1 = gfMul pq.1 3 := by
  have := of_decide_eq_true (List.all_eq_true.mp sboxRun_invariant_check pq h)
  simpa only [gfMulK_eq] using this

/-- C15: in `InitializeSbox`, `p*q = 1` in GF(2^8) (carry-less product reduced
modulo `0x11B`) holds before the loop and at every write `s_box[p] = ...`, that
is after the updates of `p` and `q` in every pass; at every `(p, q)` reached the
update of `q` divides it by 3 (`q' * 3 = q`) and the update of `p` multiplies
it by 3. -/
theorem InitializeSbox_loop_invariant (s0 : List Nat) (_hs0 : s0.length = 256) :
    ∃ t st, InitializeSboxLoopT 256 1 1 s0 = some (t, st) ∧
      InitializeSboxLoop 256 1 1 s0 = some t ∧
      gfMul 1 1 = 1 ∧
      (∀ pq ∈ st, gfMul pq.1 pq.2 = 1) ∧
      (∀ pq ∈ (1, 1) :: st,
        gfMul (sboxNextQ pq.2) 3 = pq.2 ∧ sboxNextP pq.1 = gfMul pq.1 3) := by
  obtain ⟨t, h1, h2⟩ := InitializeSboxLoopT_run 256 (by decide) s0
  refine ⟨t, sboxRun, h1, h2, by decide, fun pq h => (sboxRun_invariant pq h).1, ?_⟩
  intro pq h
  rcases List.mem_cons.mp h with h | h
  · subst h
    exact ⟨by decide, by decide⟩
  · exact (sboxRun_invariant pq h).2

/-- Witness of C15 with the array zero-filled before the call. -/
theorem InitializeSbox_loop_invariant_witness :
    ∃ t st, InitializeSboxLoopT 256 1 1 (List.replicate 256 0) = some (t, st) ∧
      InitializeSboxLoop 256 1 1 (List.replicate 256 0) = some t ∧
      gfMul 1 1 = 1 ∧
      (∀ pq ∈ st, gfMul pq.1 pq.2 = 1) ∧
      (∀ pq ∈ (1, 1) :: st,
        gfMul (sboxNextQ pq.2) 3 = pq.2 ∧ sboxNextP pq.1 = gfMul pq.1 3) :=
  InitializeSbox_loop_invariant (List.replicate 256 0) (List.length_replicate 256 0)

/-- C16: the loop of `InitializeSbox` ends after exactly 255 passes: 255 passes
give the result, which more fuel does not change, and 254 do not.  It makes
255 writes `s_box[p]`; the values of `p` at them are pairwise distinct, are
never 0, are exactly the bytes 1 to 255, and `p` is 1 at the 255th write and
at no earlier one. -/
theorem InitializeSbox_loop_terminates (s0 : List Nat) (_hs0 : s0.length = 256) :
    ∃ t st, InitializeSboxLoopT 255 1 1 s0 = some (t, st) ∧
      InitializeSboxLoop 255 1 1 s0 = some t ∧
      InitializeSboxLoop 254 1 1 s0 = none ∧
      (∀ k, InitializeSboxLoopT (255 + k) 1 1 s0 = some (t, st)) ∧
      st.length = 255 ∧
      (st.map Prod.fst).Nodup ∧
      (∀ p ∈ st.map Prod.fst, 0 < p ∧ p < 256) ∧
      (∀ v, 0 < v → v < 256 → v ∈ st.map Prod.fst) ∧
      (st.map Prod.fst).getD 254 0 = 1 ∧
      (∀ i, i < 254 → (st.map Prod.fst).getD i 0 ≠ 1) := by
  obtain ⟨t, h1, h2⟩ := InitializeSboxLoopT_run 255 (Nat.le_refl 255) s0
  refine ⟨t, sboxRun, h1, h2, InitializeSboxLoop_254 s0,
    fun k => InitializeSboxLoopT_mono 255 1 1 s0 _ h1 k, sboxRun_length, sboxRun_nodup,
    sboxRun_range, sboxRun_onto, sboxRun_last, sboxRun_first_return⟩

/-- Witness of C16 with the array zero-filled before the call. -/
theorem InitializeSbox_loop_terminates_witness :
    ∃ t st, InitializeSboxLoopT 255 1 1 (List.replicate 256 0) = some (t, st) ∧
      InitializeSboxLoop 255 1 1 (List.replicate 256 0) = some t ∧
      InitializeSboxLoop 254 1 1 (List.replicate 256 0) = none ∧
      (∀ k, InitializeSboxLoopT (255 + k) 1 1 (List.replicate 256 0) = some (t, st)) ∧
      st.length = 255 ∧
      (st.map Prod.fst).Nodup ∧
      (∀ p ∈ st.map Prod.fst, 0 < p ∧ p < 256) ∧
      (∀ v, 0 < v → v < 256 → v ∈ st.map Prod.fst) ∧
      (st.map Prod.fst).getD 254 0 = 1 ∧
      (∀ i, i < 254 → (st.map Prod.fst).getD i 0 ≠ 1) :=
  InitializeSbox_loop_terminates (List.replicate 256 0) (List.length_replicate 256 0)

theorem ExpandKeyStepT_erase (s : List Nat) (st : Nat × Nat × List Nat) :
    (ExpandKeyStepT s st).1 = ExpandKeyStep s st := by
  obtain ⟨t, r, e⟩ := st
  simp only [ExpandKeyStepT, ExpandKeyStep, rowSize, blockSize]
  split <;> simp [List.range_succ]

theorem ExpandKeyLoopT_erase (s : List Nat) (fuel : Nat) (st : Nat × Nat × List Nat)
    (acc : List Access) :
    (ExpandKeyLoopT s fuel st acc).map Prod.fst = ExpandKeyLoop s fuel st := by
  induction fuel generalizing st acc with
  | zero =>
    simp only [ExpandKeyLoopT, ExpandKeyLoop]
    split <;> rfl
  | succ n ih =>
    simp only [ExpandKeyLoopT, ExpandKeyLoop]
    split
    · rw [ih, ExpandKeyStepT_erase]
    · rfl

theorem ExpandKeyStepT_ctl (s : List Nat) (t r : Nat) (e : List Nat) :
    (ExpandKeyStepT s (t, r, e)).2.filter Access.isCtl = stepCtl t r := by
  simp only [ExpandKeyStepT, rowSize, blockSize, stepCtl]
  split <;> simp [List.range_succ, List.filter, Access.isCtl]

theorem ExpandKeyLoopT_ctlLoop (s : List Nat) (fuel : Nat) :
    ∀ (t r : Nat) (e : List Nat) (acc : List Access),
      (ExpandKeyLoopT s fuel (t, r, e) acc).map (fun x => x.2.filter Access.isCtl) =
        (ctlLoop fuel t r).map (fun l => acc.filter Access.isCtl ++ l) := by
  induction fuel with
  | zero =>
    intro t r e acc
    simp only [ExpandKeyLoopT, ctlLoop]
    split <;> simp
  | succ n ih =>
    intro t r e acc
    simp only [ExpandKeyLoopT, ctlLoop]
    split
    · have h1 : (ExpandKeyStepT s (t, r, e)).1 =
          (t + 4, (if t % 16 = 0 then r + 1 else r), (ExpandKeyStep s (t, r, e)).2.2) := by
        rw [ExpandKeyStepT_erase]
        apply Prod.ext
        · exact ExpandKeyStep_fst s t r e
        · apply Prod.ext
          · exact ExpandKeyStep_rcon s t r e
          · rfl
      rw [h1, ih, List.filter_append, ExpandKeyStepT_ctl, Option.map_map]
      cases ctlLoop n (t + 4) (if t % 16 = 0 then r + 1 else r) with
      | none => rfl
      | some l => simp only [Option.map_some', Function.comp_apply, List.append_assoc]
    · simp

theorem copyT_fst (key : List Nat) (l : List Nat) (e : List Nat) (acc : List Access) :
    (l.foldl (fun (ea : List Nat × List Access) i =>
        (ea.1.set i (key.getD i 0), ea.2 ++ [Access.readKey i, Access.writeExp i]))
      (e, acc)).1 = l.foldl (fun d i => d.set i (key.getD i 0)) e := by
  induction l generalizing e acc with
  | nil => rfl
  | cons i l ih => simp only [List.foldl_cons, ih]

theorem copyT_snd (key : List Nat) (l : List Nat) (e : List Nat) (acc : List Access) :
    (l.foldl (fun (ea : List Nat × List Access) i =>
        (ea.1.set i (key.getD i 0), ea.2 ++ [Access.readKey i, Access.writeExp i]))
      (e, acc)).2 =
    l.foldl (fun acc i => acc ++ [Access.readKey i, Access.writeExp i]) acc := by
  induction l generalizing e acc with
  | nil => rfl
  | cons i l ih => simp only [List.foldl_cons, ih]

theorem ExpandKeyT_erase (key e s : List Nat) :
    (ExpandKeyT key e s).map Prod.fst = ExpandKey key e s := by
  simp only [ExpandKeyT, ExpandKey]
  rw [ExpandKeyLoopT_erase, copyT_fst]

theorem keyCtl_ctl : keyCtl.filter Access.isCtl = keyCtl := by decide

theorem ctlRun_run :
    ctlLoop (keySize * (rounds + 1)) 16 1 =
      some ((ctlLoop (keySize * (rounds + 1)) 16 1).getD []) := by
  decide!

theorem ExpandKeyT_ctl (key e s : List Nat) :
    (ExpandKeyT key e s).map (fun x => x.2.filter Access.isCtl) = some ctlRun := by
  simp only [ExpandKeyT]
  rw [ExpandKeyLoopT_ctlLoop, copyT_snd, ctlRun_run]
  simp only [Option.map_some', List.nil_append]
  exact congrArg (fun l => some (l ++ (ctlLoop (keySize * (rounds + 1)) 16 1).getD []))
    keyCtl_ctl

theorem ctlRun_writes : ctlRun.filterMap Access.writeIdx = List.range 176 := by decide!

theorem ctlRun_rcon : ctlRun.filterMap Access.rconIdx = List.range 10 := by decide!

theorem ctlRun_readsBelow : readsBelow 0 ctlRun = true := by decide!

theorem readsBelow_sound (l : List Access) :
    ∀ (n : Nat), readsBelow n l = true →
      ∀ (pre : List Access) (i : Nat) (post : List Access), l = pre ++ Access.readExp i :: post →
        i < 176 ∧ (i < n ∨ Access.writeExp i ∈ pre) := by
  induction l with
  | nil =>
    intro n _ pre i post h
    simp at h
  | cons a l ih =>
    intro n hrw pre i post h
    cases pre with
    | nil =>
      simp only [List.nil_append, List.cons.injEq] at h
      obtain ⟨rfl, rfl⟩ := h
      simp only [readsBelow, Bool.and_eq_true] at hrw
      have h1 := Nat.le_of_ble_eq_true hrw.1.1
      have h2 := Nat.le_of_ble_eq_true hrw.1.2
      exact ⟨by omega, Or.inl (by omega)⟩
    | cons b pre =>
      simp only [List.cons_append, List.cons.injEq] at h
      obtain ⟨rfl, hl⟩ := h
      cases a with
      | writeExp j =>
        simp only [readsBelow, Bool.and_eq_true] at hrw
        have hj := Nat.eq_of_beq_eq_true hrw.1
        obtain ⟨h1, h2⟩ := ih (n + 1) hrw.2 pre i post hl
        refine ⟨h1, ?_⟩
        rcases h2 with h2 | h2
        · by_cases h3 : i = n
          · rw [h3, ← hj]
            exact Or.inr (List.mem_cons_self _ _)
          · exact Or.inl (by omega)
        · exact Or.inr (List.mem_cons_of_mem _ h2)
      | readExp j =>
        simp only [readsBelow, Bool.and_eq_true] at hrw
        obtain ⟨h1, h2⟩ := ih n hrw.2 pre i post hl
        exact ⟨h1, h2.imp id (List.mem_cons_of_mem _)⟩
      | readKey j =>
        simp only [readsBelow] at hrw
        obtain ⟨h1, h2⟩ := ih n hrw pre i post hl
        exact ⟨h1, h2.imp id (List.mem_cons_of_mem _)⟩
      | readSbox j =>
        simp only [readsBelow] at hrw
        obtain ⟨h1, h2⟩ := ih n hrw pre i post hl
        exact ⟨h1, h2.imp id (List.mem_cons_of_mem _)⟩
      | readRcon j =>
        simp only [readsBelow] at hrw
        obtain ⟨h1, h2⟩ := ih n hrw pre i post hl
        exact ⟨h1, h2.imp id (List.mem_cons_of_mem _)⟩

theorem filterMap_writeIdx_ctl (l : List Access) :
    l.filterMap Access.writeIdx = (l.filter Access.isCtl).filterMap Access.writeIdx := by
  induction l with
  | nil => rfl
  | cons a l ih => cases a <;> simp [List.filter, Access.isCtl, Access.writeIdx, ih]

theorem filterMap_rconIdx_ctl (l : List Access) :
    l.filterMap Access.rconIdx = (l.filter Access.isCtl).filterMap Access.rconIdx := by
  induction l with
  | nil => rfl
  | cons a l ih => cases a <;> simp [List.filter, Access.isCtl, Access.rconIdx, ih]

theorem set_bytes (l : List Nat) (h : ∀ x ∈ l, x < 256) (i v : Nat) (hv : v < 256) :
    ∀ x ∈ l.set i v, x < 256 := by
  intro x hx
  rcases List.mem_or_eq_of_mem_set hx with h1 | h1
  · exact h x h1
  · rw [h1]; exact hv

theorem xor_byte (a b : Nat) (ha : a < 256) (hb : b < 256) : a ^^^ b < 256 := by
  have h : a ^^^ b < 2 ^ 8 := Nat.xor_lt_two_pow ha hb
  exact h

theorem rcon_bytes : ∀ x ∈ rcon, x < 256 := by decide

theorem rotate_bytes (l : List Nat) :
    ∀ temp : List Nat, (∀ x ∈ temp, x < 256) →
      ∀ x ∈ l.foldl (fun temp i => temp.set i (temp.getD (i + 1) 0)) temp, x < 256 := by
  induction l with
  | nil => intro temp h; exact h
  | cons i l ih =>
    intro temp h
    exact ih _ (set_bytes temp h i _ (getD_lt_of_bytes temp h _))

theorem substitute_bytes (s : List Nat) (hs : ∀ x ∈ s, x < 256) (l : List Nat) :
    ∀ temp : List Nat, (∀ x ∈ temp, x < 256) →
      ∀ x ∈ l.foldl (fun temp i => temp.set i (s.getD (temp.getD i 0) 0)) temp, x < 256 := by
  induction l with
  | nil => intro temp h; exact h
  | cons i l ih =>
    intro temp h
    exact ih _ (set_bytes temp h i _ (getD_lt_of_bytes s hs _))

theorem store_bytes (temp : List Nat) (ht : ∀ x ∈ temp, x < 256) (l : List Nat) :
    ∀ (e : List Nat) (tb : Nat), (∀ x ∈ e, x < 256) →
      ∀ x ∈ (l.foldl (fun (et : List Nat × Nat) i =>
        (et.1.set et.2 (et.1.getD (et.2 - 16) 0 ^^^ temp.getD i 0), et.2 + 1)) (e, tb)).1,
        x < 256 := by
  induction l with
  | nil => intro e tb h; exact h
  | cons i l ih =>
    intro e tb h
    exact ih _ _ (set_bytes e h tb _
      (xor_byte _ _ (getD_lt_of_bytes e h _) (getD_lt_of_bytes temp ht _)))

theorem load_bytes (e : List Nat) (he : ∀ x ∈ e, x < 256) (k : Nat) (l : List Nat) :
    ∀ x ∈ l.map (fun i => e.getD (k + i) 0), x < 256 := by
  intro x hx
  obtain ⟨i, -, rfl⟩ := List.mem_map.mp hx
  exact getD_lt_of_bytes e he _

theorem ExpandKeyStep_bytes (s : List Nat) (t r : Nat) (e : List Nat)
    (he : ∀ x ∈ e, x < 256) (hs : ∀ x ∈ s, x < 256) :
    ∀ x ∈ (ExpandKeyStep s (t, r, e)).2.2, x < 256 := by
  simp only [ExpandKeyStep]
  apply store_bytes _ _ _ _ _ he
  have hl := load_bytes e he (t - rowSize) (List.range rowSize)
  split
  · apply set_bytes
    · apply substitute_bytes s hs
      apply set_bytes
      · exact rotate_bytes _ _ hl
      · exact getD_lt_of_bytes _ hl _
    · apply xor_byte
      · apply getD_lt_of_bytes
        apply substitute_bytes s hs
        apply set_bytes
        · exact rotate_bytes _ _ hl
        · exact getD_lt_of_bytes _ hl _
      · exact getD_lt_of_bytes rcon rcon_bytes _
  · exact hl

theorem getElem?_getD_lt_of_bytes (l : List Nat) (h : ∀ x ∈ l, x < 256) (i : Nat) :
    l[i]?.getD 0 < 256 := by
  rw [← List.getD_eq_getElem?_getD]
  exact getD_lt_of_bytes l h i

theorem ExpandKeyStepT_sbox (s : List Nat) (t r : Nat) (e : List Nat)
    (he : ∀ x ∈ e, x < 256) (i : Nat) (hi : Access.readSbox i ∈ (ExpandKeyStepT s (t, r, e)).2) :
    i < 256 := by
  have hg := getElem?_getD_lt_of_bytes e he
  simp only [ExpandKeyStepT, rowSize, blockSize] at hi
  split at hi
  · simp [List.range_succ] at hi
    rcases hi with h | h | h | h <;> rw [h] <;> exact hg _
  · simp [List.range_succ] at hi


theorem ExpandKeyLoopT_sbox (s : List Nat) (hs : ∀ x ∈ s, x < 256) (fuel : Nat) :
    ∀ (st : Nat × Nat × List Nat) (acc : List Access) (res : List Nat × List Access),
      (∀ x ∈ st.2.2, x < 256) → (∀ i, Access.readSbox i ∈ acc → i < 256) →
      ExpandKeyLoopT s fuel st acc = some res → ∀ i, Access.readSbox i ∈ res.2 → i < 256 := by
  induction fuel with
  | zero =>
    intro st acc res _ hacc h
    simp only [ExpandKeyLoopT] at h
    split at h
    · exact absurd h (by simp)
    · simp only [Option.some.injEq] at h
      rw [← h]
      exact hacc
  | succ n ih =>
    intro st acc res hst hacc h
    obtain ⟨t, r, e⟩ := st
    simp only [ExpandKeyLoopT] at h
    split at h
    · refine ih _ _ res ?_ ?_ h
      · rw [ExpandKeyStepT_erase]
        exact ExpandKeyStep_bytes s t r e hst hs
      · intro i hi
        rcases List.mem_append.mp hi with h1 | h1
        · exact hacc i h1
        · exact ExpandKeyStepT_sbox s t r e hst i h1
    · simp only [Option.some.injEq] at h
      rw [← h]
      exact hacc

theorem copyT_inv (key : List Nat) (hk : ∀ x ∈ key, x < 256) (l : List Nat) :
    ∀ (e : List Nat) (acc : List Access), (∀ x ∈ e, x < 256) →
      (∀ i, Access.readSbox i ∈ acc → i < 256) →
      (∀ x ∈ (l.foldl (fun (ea : List Nat × List Access) i =>
          (ea.1.set i (key.getD i 0), ea.2 ++ [Access.readKey i, Access.writeExp i]))
        (e, acc)).1, x < 256) ∧
      (∀ i, Access.readSbox i ∈ (l.foldl (fun (ea : List Nat × List Access) i =>
          (ea.1.set i (key.getD i 0), ea.2 ++ [Access.readKey i, Access.writeExp i]))
        (e, acc)).2 → i < 256) := by
  induction l with
  | nil =>
    intro e acc he hacc
    simp only [List.foldl_nil]
    exact ⟨he, hacc⟩
  | cons j l ih =>
    intro e acc he hacc
    simp only [List.foldl_cons]
    refine ih _ _ (set_bytes e he j _ (getD_lt_of_bytes key hk _)) ?_
    intro i hi
    rcases List.mem_append.mp hi with h1 | h1
    · exact hacc i h1
    · simp at h1

/-- C17: for every 16-byte key and every 256-entry table, `ExpandKey`
terminates; the indices it writes in `expanded_keys` are, in order, 0, 1, ...,
175, so each once and none from 176 on; every read of `expanded_keys` is at an
index below 176 written earlier; every read of `s_box` is at an index below
256; and the reads of `rcon` are, in order, at 0, 1, ..., 9. -/
theorem ExpandKey_accesses (key e0 s : List Nat) (hk : IsBytes 16 key)
    (he0 : IsBytes 176 e0) (hs : IsBytes 256 s) :
    ∃ e tr, ExpandKeyT key e0 s = some (e, tr) ∧ ExpandKey key e0 s = some e ∧
      tr.filterMap Access.writeIdx = List.range 176 ∧
      (∀ pre i post, tr = pre ++ Access.readExp i :: post →
        i < 176 ∧ Access.writeExp i ∈ pre) ∧
      (∀ i, Access.readSbox i ∈ tr → i < 256) ∧
      tr.filterMap Access.rconIdx = List.range 10 := by
  obtain ⟨e, he, -, -, -⟩ := ExpandKey_spec key e0 s he0.1
  have h1 := ExpandKeyT_erase key e0 s
  have h2 := ExpandKeyT_ctl key e0 s
  cases hT : ExpandKeyT key e0 s with
  | none => rw [hT, he] at h1; simp at h1
  | some res =>
    obtain ⟨e', tr⟩ := res
    rw [hT, he] at h1
    rw [hT] at h2
    simp only [Option.map_some', Option.some.injEq] at h1 h2
    subst h1
    refine ⟨e', tr, rfl, he, ?_, ?_, ?_, ?_⟩
    · rw [filterMap_writeIdx_ctl, h2, ctlRun_writes]
    · intro pre i post hsplit
      have hf : ctlRun =
          pre.filter Access.isCtl ++ Access.readExp i :: post.filter Access.isCtl := by
        rw [← h2, hsplit, List.filter_append]
        rfl
      obtain ⟨a, b⟩ := readsBelow_sound ctlRun 0 ctlRun_readsBelow _ i _ hf
      refine ⟨a, ?_⟩
      rcases b with b | b
      · exact absurd b (Nat.not_lt_zero _)
      · exact (List.mem_filter.mp b).1
    · have hc := copyT_inv key hk.2 (List.range keySize) e0 [] he0.2 (by simp)
      simp only [ExpandKeyT] at hT
      refine ExpandKeyLoopT_sbox s hs.2 _ _ _ (e', tr) ?_ hc.2 hT
      simp only
      exact hc.1
    · rw [filterMap_rconIdx_ctl, h2, ctlRun_rcon]

/-- Witness of C17 at the FIPS-197 key and the published S-box. -/
theorem ExpandKey_accesses_witness :
    ∃ e tr, ExpandKeyT fipsKey (List.replicate 176 0) sboxTable = some (e, tr) ∧
      ExpandKey fipsKey (List.replicate 176 0) sboxTable = some e ∧
      tr.filterMap Access.writeIdx = List.range 176 ∧
      (∀ pre i post, tr = pre ++ Access.readExp i :: post →
        i < 176 ∧ Access.writeExp i ∈ pre) ∧
      (∀ i, Access.readSbox i ∈ tr → i < 256) ∧
      tr.filterMap Access.rconIdx = List.range 10 :=
  ExpandKey_accesses fipsKey (List.replicate 176 0) sboxTable (by decide) (by decide!)
    sboxTable_isBytes

theorem twosOf_gfMul_check :
    (List.range 256).all (fun b => Nat.beq (twosOf b) (gfMulK 2 b)) = true := by decide!

theorem twosOf_xor (a b : Nat) (ha : a < 256) (hb : b < 256) :
    twosOf (a ^^^ b) = twosOf a ^^^ twosOf b := by
  have h : ∀ c, c < 256 → twosOf c = gfMul 2 c := fun c hc => by
    rw [← gfMulK_eq]
    exact Nat.eq_of_beq_eq_true
      (List.all_eq_true.mp twosOf_gfMul_check c (List.mem_range.mpr hc))
  rw [h _ (xor_byte a b ha hb), h a ha, h b hb, gfMul_xor]

theorem twosOf_lt_check : (List.range 256).all (fun b => decide (twosOf b < 256)) = true := by
  decide!

theorem twosOf_lt (b : Nat) (hb : b < 256) : twosOf b < 256 :=
  of_decide_eq_true (List.all_eq_true.mp twosOf_lt_check b (List.mem_range.mpr hb))

theorem mixCol_byte (c : Nat × Nat × Nat × Nat) (h : Byte4 c) : Byte4 (mixCol c) := by
  obtain ⟨x0, x1, x2, x3⟩ := c
  obtain ⟨h0, h1, h2, h3⟩ := h
  simp only at h0 h1 h2 h3
  have t0 := twosOf_lt x0 h0
  have t1 := twosOf_lt x1 h1
  have t2 := twosOf_lt x2 h2
  have t3 := twosOf_lt x3 h3
  refine ⟨?_, ?_, ?_, ?_⟩ <;> simp only [mixCol] <;>
    repeat' first | assumption | apply xor_byte

theorem xor4_byte (c d : Nat × Nat × Nat × Nat) (hc : Byte4 c) (hd : Byte4 d) :
    Byte4 (xor4 c d) := by
  obtain ⟨a0, a1, a2, a3⟩ := c
  obtain ⟨b0, b1, b2, b3⟩ := d
  obtain ⟨h0, h1, h2, h3⟩ := hc
  obtain ⟨k0, k1, k2, k3⟩ := hd
  exact ⟨xor_byte _ _ h0 k0, xor_byte _ _ h1 k1, xor_byte _ _ h2 k2, xor_byte _ _ h3 k3⟩

theorem mixCol_xor (c d : Nat × Nat × Nat × Nat) (hc : Byte4 c) (hd : Byte4 d) :
    mixCol (xor4 c d) = xor4 (mixCol c) (mixCol d) := by
  obtain ⟨a0, a1, a2, a3⟩ := c
  obtain ⟨b0, b1, b2, b3⟩ := d
  obtain ⟨h0, h1, h2, h3⟩ := hc
  obtain ⟨k0, k1, k2, k3⟩ := hd
  simp only at h0 h1 h2 h3 k0 k1 k2 k3
  simp only [mixCol, xor4, twosOf_xor _ _ h0 k0, twosOf_xor _ _ h1 k1, twosOf_xor _ _ h2 k2,
    twosOf_xor _ _ h3 k3]
  refine Prod.ext ?_ (Prod.ext ?_ (Prod.ext ?_ ?_)) <;> simp only <;> ac_rfl

theorem mixCol4_byte (c : Nat × Nat × Nat × Nat) (h : Byte4 c) : Byte4 (mixCol4 c) :=
  mixCol_byte _ (mixCol_byte _ (mixCol_byte _ (mixCol_byte _ h)))

theorem mixCol4_xor (c d : Nat × Nat × Nat × Nat) (hc : Byte4 c) (hd : Byte4 d) :
    mixCol4 (xor4 c d) = xor4 (mixCol4 c) (mixCol4 d) := by
  have c1 := mixCol_byte c hc
  have d1 := mixCol_byte d hd
  have c2 := mixCol_byte _ c1
  have d2 := mixCol_byte _ d1
  have c3 := mixCol_byte _ c2
  have d3 := mixCol_byte _ d2
  simp only [mixCol4]
  rw [mixCol_xor c d hc hd, mixCol_xor _ _ c1 d1, mixCol_xor _ _ c2 d2, mixCol_xor _ _ c3 d3]

theorem nibble_split_check :
    (List.range 256).all (fun x => Nat.beq x (16 * (x / 16) ^^^ x % 16)) = true := by decide!

theorem mixCol4_unit_check :
    (List.range 16).all (fun j => decide (
      (mixCol4 (j, 0, 0, 0) = (j, 0, 0, 0) ∧ mixCol4 (0, j, 0, 0) = (0, j, 0, 0) ∧
        mixCol4 (0, 0, j, 0) = (0, 0, j, 0) ∧ mixCol4 (0, 0, 0, j) = (0, 0, 0, j)) ∧
      (mixCol4 (16 * j, 0, 0, 0) = (16 * j, 0, 0, 0) ∧
        mixCol4 (0, 16 * j, 0, 0) = (0, 16 * j, 0, 0) ∧
        mixCol4 (0, 0, 16 * j, 0) = (0, 0, 16 * j, 0) ∧
        mixCol4 (0, 0, 0, 16 * j) = (0, 0, 0, 16 * j)))) = true := by
  decide!

theorem mixCol4_unit (x : Nat) (hx : x < 256) :
    mixCol4 (x, 0, 0, 0) = (x, 0, 0, 0) ∧ mixCol4 (0, x, 0, 0) = (0, x, 0, 0) ∧
      mixCol4 (0, 0, x, 0) = (0, 0, x, 0) ∧ mixCol4 (0, 0, 0, x) = (0, 0, 0, x) := by
  have hj : x / 16 < 16 := by omega
  have hl : x % 16 < 16 := Nat.mod_lt _ (by decide)
  have e : x = 16 * (x / 16) ^^^ x % 16 :=
    Nat.eq_of_beq_eq_true (List.all_eq_true.mp nibble_split_check x (List.mem_range.mpr hx))
  have uh := (of_decide_eq_true
    (List.all_eq_true.mp mixCol4_unit_check (x / 16) (List.mem_range.mpr hj))).2
  have ul := (of_decide_eq_true
    (List.all_eq_true.mp mixCol4_unit_check (x % 16) (List.mem_range.mpr hl))).1
  have bh : 16 * (x / 16) < 256 := by omega
  have bl : x % 16 < 256 := by omega
  generalize 16 * (x / 16) = h at e uh bh
  generalize x % 16 = l at e ul bl
  subst e
  have z : (0 : Nat) < 256 := by decide
  have s0 : (h ^^^ l, 0, 0, 0) = xor4 (h, 0, 0, 0) (l, 0, 0, 0) := by simp [xor4]
  have s1 : (0, h ^^^ l, 0, 0) = xor4 (0, h, 0, 0) (0, l, 0, 0) := by simp [xor4]
  have s2 : (0, 0, h ^^^ l, 0) = xor4 (0, 0, h, 0) (0, 0, l, 0) := by simp [xor4]
  have s3 : (0, 0, 0, h ^^^ l) = xor4 (0, 0, 0, h) (0, 0, 0, l) := by simp [xor4]
  refine ⟨?_, ?_, ?_, ?_⟩
  · rw [s0, mixCol4_xor _ _ ⟨bh, z, z, z⟩ ⟨bl, z, z, z⟩, uh.1, ul.1]
  · rw [s1, mixCol4_xor _ _ ⟨z, bh, z, z⟩ ⟨z, bl, z, z⟩, uh.2.1, ul.2.1]
  · rw [s2, mixCol4_xor _ _ ⟨z, z, bh, z⟩ ⟨z, z, bl, z⟩, uh.2.2.1, ul.2.2.1]
  · rw [s3, mixCol4_xor _ _ ⟨z, z, z, bh⟩ ⟨z, z, z, bl⟩, uh.2.2.2, ul.2.2.2]

theorem mixCol4_id (c : Nat × Nat × Nat × Nat) (h : Byte4 c) : mixCol4 c = c := by
  obtain ⟨x0, x1, x2, x3⟩ := c
  obtain ⟨h0, h1, h2, h3⟩ := h
  simp only at h0 h1 h2 h3
  have u0 := mixCol4_unit x0 h0
  have u1 := mixCol4_unit x1 h1
  have u2 := mixCol4_unit x2 h2
  have u3 := mixCol4_unit x3 h3
  have z : (0 : Nat) < 256 := by decide
  have b0 : Byte4 (x0, 0, 0, 0) := ⟨h0, z, z, z⟩
  have b1 : Byte4 (0, x1, 0, 0) := ⟨z, h1, z, z⟩
  have b2 : Byte4 (0, 0, x2, 0) := ⟨z, z, h2, z⟩
  have b3 : Byte4 (0, 0, 0, x3) := ⟨z, z, z, h3⟩
  have hsplit : (x0, x1, x2, x3) =
      xor4 (x0, 0, 0, 0) (xor4 (0, x1, 0, 0) (xor4 (0, 0, x2, 0) (0, 0, 0, x3))) := by
    simp [xor4]
  rw [hsplit, mixCol4_xor _ _ b0 (xor4_byte _ _ b1 (xor4_byte _ _ b2 b3)),
    mixCol4_xor _ _ b1 (xor4_byte _ _ b2 b3), mixCol4_xor _ _ b2 b3,
    u0.1, u1.2.1, u2.2.2.1, u3.2.2.2]

theorem MixColumns_cols (c0 c1 c2 c3 : Nat × Nat × Nat × Nat) :
    MixColumns (colList c0 ++ colList c1 ++ colList c2 ++ colList c3) =
      colList (mixCol c0) ++ colList (mixCol c1) ++ colList (mixCol c2) ++
        colList (mixCol c3) := by
  obtain ⟨a0, a1, a2, a3⟩ := c0
  obtain ⟨a4, a5, a6, a7⟩ := c1
  obtain ⟨a8, a9, a10, a11⟩ := c2
  obtain ⟨a12, a13, a14, a15⟩ := c3
  simp only [colList, mixCol, List.cons_append, List.nil_append]
  exact MixColumns_cells a0 a1 a2 a3 a4 a5 a6 a7 a8 a9 a10 a11 a12 a13 a14 a15

theorem MixColumns_four (state : List Nat) (h : IsBytes 16 state) :
    MixColumns (MixColumns (MixColumns (MixColumns state))) = state := by
  obtain ⟨hlen, hb⟩ := h
  obtain ⟨a0, a1, a2, a3, a4, a5, a6, a7, a8, a9, a10, a11, a12, a13, a14, a15, rfl⟩ :=
    list_length16 state hlen
  simp only [List.mem_cons, List.mem_singleton, List.not_mem_nil, or_false, forall_eq_or_imp,
    forall_eq] at hb
  obtain ⟨h0, h1, h2, h3, h4, h5, h6, h7, h8, h9, h10, h11, h12, h13, h14, h15⟩ := hb
  have e : [a0, a1, a2, a3, a4, a5, a6, a7, a8, a9, a10, a11, a12, a13, a14, a15] =
      colList (a0, a1, a2, a3) ++ colList (a4, a5, a6, a7) ++ colList (a8, a9, a10, a11) ++
        colList (a12, a13, a14, a15) := rfl
  have k0 := mixCol4_id (a0, a1, a2, a3) ⟨h0, h1, h2, h3⟩
  have k1 := mixCol4_id (a4, a5, a6, a7) ⟨h4, h5, h6, h7⟩
  have k2 := mixCol4_id (a8, a9, a10, a11) ⟨h8, h9, h10, h11⟩
  have k3 := mixCol4_id (a12, a13, a14, a15) ⟨h12, h13, h14, h15⟩
  simp only [mixCol4] at k0 k1 k2 k3
  rw [e, MixColumns_cols, MixColumns_cols, MixColumns_cols, MixColumns_cols, k0, k1, k2, k3]
theorem isBytes16_iff (a0 a1 a2 a3 a4 a5 a6 a7 a8 a9 a10 a11 a12 a13 a14 a15 : Nat) :
    IsBytes 16 [a0, a1, a2, a3, a4, a5, a6, a7, a8, a9, a10, a11, a12, a13, a14, a15] ↔
      a0 < 256 ∧ a1 < 256 ∧ a2 < 256 ∧ a3 < 256 ∧ a4 < 256 ∧ a5 < 256 ∧ a6 < 256 ∧ a7 < 256 ∧
      a8 < 256 ∧ a9 < 256 ∧ a10 < 256 ∧ a11 < 256 ∧ a12 < 256 ∧ a13 < 256 ∧ a14 < 256 ∧
      a15 < 256 := by
  simp [IsBytes]

theorem BlockPerm_of_inverse (f g : List Nat → List Nat)
    (hf : ∀ b, IsBytes 16 b → IsBytes 16 (f b)) (hg : ∀ b, IsBytes 16 b → IsBytes 16 (g b))
    (h1 : ∀ b, IsBytes 16 b → g (f b) = b) (h2 : ∀ c, IsBytes 16 c → f (g c) = c) :
    BlockPerm f := by
  refine ⟨hf, ?_, ?_⟩
  · intro a b ha hb hab
    rw [← h1 a ha, ← h1 b hb, hab]
  · intro c hc
    exact ⟨g c, hg c hc, h2 c hc⟩

theorem BlockPerm_comp (f g : List Nat → List Nat) (hf : BlockPerm f) (hg : BlockPerm g) :
    BlockPerm (fun b => g (f b)) := by
  refine ⟨fun b hb => hg.1 _ (hf.1 b hb), ?_, ?_⟩
  · intro a b ha hb hab
    exact hf.2.1 a b ha hb (hg.2.1 _ _ (hf.1 a ha) (hf.1 b hb) hab)
  · intro c hc
    obtain ⟨m, hm, rfl⟩ := hg.2.2 c hc
    obtain ⟨b, hb, rfl⟩ := hf.2.2 m hm
    exact ⟨b, hb, rfl⟩

theorem MixColumns_bytes (state : List Nat) (h : IsBytes 16 state) :
    IsBytes 16 (MixColumns state) := by
  obtain ⟨a0, a1, a2, a3, a4, a5, a6, a7, a8, a9, a10, a11, a12, a13, a14, a15, rfl⟩ :=
    list_length16 state h.1
  rw [isBytes16_iff] at h
  obtain ⟨h0, h1, h2, h3, h4, h5, h6, h7, h8, h9, h10, h11, h12, h13, h14, h15⟩ := h
  have k0 := mixCol_byte (a0, a1, a2, a3) ⟨h0, h1, h2, h3⟩
  have k1 := mixCol_byte (a4, a5, a6, a7) ⟨h4, h5, h6, h7⟩
  have k2 := mixCol_byte (a8, a9, a10, a11) ⟨h8, h9, h10, h11⟩
  have k3 := mixCol_byte (a12, a13, a14, a15) ⟨h12, h13, h14, h15⟩
  simp only [mixCol, Byte4] at k0 k1 k2 k3
  rw [MixColumns_cells, isBytes16_iff]
  exact ⟨k0.1, k0.2.1, k0.2.2.1, k0.2.2.2, k1.1, k1.2.1, k1.2.2.1, k1.2.2.2,
    k2.1, k2.2.1, k2.2.2.1, k2.2.2.2, k3.1, k3.2.1, k3.2.2.1, k3.2.2.2⟩

theorem MixColumns_perm : BlockPerm MixColumns :=
  BlockPerm_of_inverse MixColumns (fun b => MixColumns (MixColumns (MixColumns b)))
    MixColumns_bytes
    (fun b hb => MixColumns_bytes _ (MixColumns_bytes _ (MixColumns_bytes b hb)))
    (fun b hb => MixColumns_four b hb) (fun c hc => MixColumns_four c hc)

theorem ShiftRows_perm : BlockPerm ShiftRows := by
  have hb : ∀ b, IsBytes 16 b → IsBytes 16 (ShiftRows b) := by
    intro b h
    obtain ⟨a0, a1, a2, a3, a4, a5, a6, a7, a8, a9, a10, a11, a12, a13, a14, a15, rfl⟩ :=
      list_length16 b h.1
    rw [isBytes16_iff] at h
    rw [ShiftRows_cells, isBytes16_iff]
    tauto
  have h4 : ∀ b, IsBytes 16 b → ShiftRows (ShiftRows (ShiftRows (ShiftRows b))) = b := by
    intro b h
    obtain ⟨a0, a1, a2, a3, a4, a5, a6, a7, a8, a9, a10, a11, a12, a13, a14, a15, rfl⟩ :=
      list_length16 b h.1
    simp only [ShiftRows_cells]
  exact BlockPerm_of_inverse ShiftRows (fun b => ShiftRows (ShiftRows (ShiftRows b))) hb
    (fun b h => hb _ (hb _ (hb b h))) h4 h4

theorem AddRoundKey_perm (k : List Nat) (hk : ∀ x ∈ k, x < 256) :
    BlockPerm (fun b => AddRoundKey b k) := by
  have hg := getD_lt_of_bytes k hk
  have hb : ∀ b, IsBytes 16 b → IsBytes 16 (AddRoundKey b k) := by
    intro b h
    obtain ⟨a0, a1, a2, a3, a4, a5, a6, a7, a8, a9, a10, a11, a12, a13, a14, a15, rfl⟩ :=
      list_length16 b h.1
    rw [isBytes16_iff] at h
    obtain ⟨h0, h1, h2, h3, h4, h5, h6, h7, h8, h9, h10, h11, h12, h13, h14, h15⟩ := h
    rw [AddRoundKey_cells, isBytes16_iff]
    exact ⟨xor_byte _ _ h0 (hg _), xor_byte _ _ h1 (hg _), xor_byte _ _ h2 (hg _),
      xor_byte _ _ h3 (hg _), xor_byte _ _ h4 (hg _), xor_byte _ _ h5 (hg _),
      xor_byte _ _ h6 (hg _), xor_byte _ _ h7 (hg _), xor_byte _ _ h8 (hg _),
      xor_byte _ _ h9 (hg _), xor_byte _ _ h10 (hg _), xor_byte _ _ h11 (hg _),
      xor_byte _ _ h12 (hg _), xor_byte _ _ h13 (hg _), xor_byte _ _ h14 (hg _),
      xor_byte _ _ h15 (hg _)⟩
  have h2 : ∀ b, IsBytes 16 b → AddRoundKey (AddRoundKey b k) k = b := by
    intro b h
    obtain ⟨a0, a1, a2, a3, a4, a5, a6, a7, a8, a9, a10, a11, a12, a13, a14, a15, rfl⟩ :=
      list_length16 b h.1
    rw [AddRoundKey_cells, AddRoundKey_cells]
    simp [Nat.xor_assoc]
  exact BlockPerm_of_inverse _ (fun b => AddRoundKey b k) hb hb h2 h2

theorem SubBytes_perm : BlockPerm (fun b => SubBytes b sboxTable) := by
  apply BlockPerm_of_inverse _ (fun b => b.map sboxIndex)
  · intro b h
    obtain ⟨a0, a1, a2, a3, a4, a5, a6, a7, a8, a9, a10, a11, a12, a13, a14, a15, rfl⟩ :=
      list_length16 b h.1
    rw [isBytes16_iff] at h
    obtain ⟨h0, h1, h2, h3, h4, h5, h6, h7, h8, h9, h10, h11, h12, h13, h14, h15⟩ := h
    simp only [SubBytes_cells]
    rw [isBytes16_iff]
    exact ⟨(sboxIndex_spec _ h0).2.2.2, (sboxIndex_spec _ h1).2.2.2, (sboxIndex_spec _ h2).2.2.2,
      (sboxIndex_spec _ h3).2.2.2, (sboxIndex_spec _ h4).2.2.2, (sboxIndex_spec _ h5).2.2.2,
      (sboxIndex_spec _ h6).2.2.2, (sboxIndex_spec _ h7).2.2.2, (sboxIndex_spec _ h8).2.2.2,
      (sboxIndex_spec _ h9).2.2.2, (sboxIndex_spec _ h10).2.2.2, (sboxIndex_spec _ h11).2.2.2,
      (sboxIndex_spec _ h12).2.2.2, (sboxIndex_spec _ h13).2.2.2, (sboxIndex_spec _ h14).2.2.2,
      (sboxIndex_spec _ h15).2.2.2⟩
  · intro b h
    obtain ⟨a0, a1, a2, a3, a4, a5, a6, a7, a8, a9, a10, a11, a12, a13, a14, a15, rfl⟩ :=
      list_length16 b h.1
    rw [isBytes16_iff] at h
    obtain ⟨h0, h1, h2, h3, h4, h5, h6, h7, h8, h9, h10, h11, h12, h13, h14, h15⟩ := h
    simp only [List.map_cons, List.map_nil]
    rw [isBytes16_iff]
    exact ⟨(sboxIndex_spec _ h0).1, (sboxIndex_spec _ h1).1, (sboxIndex_spec _ h2).1,
      (sboxIndex_spec _ h3).1, (sboxIndex_spec _ h4).1, (sboxIndex_spec _ h5).1,
      (sboxIndex_spec _ h6).1, (sboxIndex_spec _ h7).1, (sboxIndex_spec _ h8).1,
      (sboxIndex_spec _ h9).1, (sboxIndex_spec _ h10).1, (sboxIndex_spec _ h11).1,
      (sboxIndex_spec _ h12).1, (sboxIndex_spec _ h13).1, (sboxIndex_spec _ h14).1,
      (sboxIndex_spec _ h15).1⟩
  · intro b h
    obtain ⟨a0, a1, a2, a3, a4, a5, a6, a7, a8, a9, a10, a11, a12, a13, a14, a15, rfl⟩ :=
      list_length16 b h.1
    rw [isBytes16_iff] at h
    obtain ⟨h0, h1, h2, h3, h4, h5, h6, h7, h8, h9, h10, h11, h12, h13, h14, h15⟩ := h
    simp only [SubBytes_cells, List.map_cons, List.map_nil]
    rw [(sboxIndex_spec _ h0).2.2.1, (sboxIndex_spec _ h1).2.2.1, (sboxIndex_spec _ h2).2.2.1,
      (sboxIndex_spec _ h3).2.2.1, (sboxIndex_spec _ h4).2.2.1, (sboxIndex_spec _ h5).2.2.1,
      (sboxIndex_spec _ h6).2.2.1, (sboxIndex_spec _ h7).2.2.1, (sboxIndex_spec _ h8).2.2.1,
      (sboxIndex_spec _ h9).2.2.1, (sboxIndex_spec _ h10).2.2.1, (sboxIndex_spec _ h11).2.2.1,
      (sboxIndex_spec _ h12).2.2.1, (sboxIndex_spec _ h13).2.2.1, (sboxIndex_spec _ h14).2.2.1,
      (sboxIndex_spec _ h15).2.2.1]
  · intro b h
    obtain ⟨a0, a1, a2, a3, a4, a5, a6, a7, a8, a9, a10, a11, a12, a13, a14, a15, rfl⟩ :=
      list_length16 b h.1
    rw [isBytes16_iff] at h
    obtain ⟨h0, h1, h2, h3, h4, h5, h6, h7, h8, h9, h10, h11, h12, h13, h14, h15⟩ := h
    simp only [SubBytes_cells, List.map_cons, List.map_nil]
    rw [(sboxIndex_spec _ h0).2.1, (sboxIndex_spec _ h1).2.1, (sboxIndex_spec _ h2).2.1,
      (sboxIndex_spec _ h3).2.1, (sboxIndex_spec _ h4).2.1, (sboxIndex_spec _ h5).2.1,
      (sboxIndex_spec _ h6).2.1, (sboxIndex_spec _ h7).2.1, (sboxIndex_spec _ h8).2.1,
      (sboxIndex_spec _ h9).2.1, (sboxIndex_spec _ h10).2.1, (sboxIndex_spec _ h11).2.1,
      (sboxIndex_spec _ h12).2.1, (sboxIndex_spec _ h13).2.1, (sboxIndex_spec _ h14).2.1,
      (sboxIndex_spec _ h15).2.1]

theorem roundKey_bytes (e : List Nat) (he : ∀ x ∈ e, x < 256) (r : Nat) :
    ∀ x ∈ roundKey e r, x < 256 := by
  intro x hx
  exact he x (List.mem_of_mem_drop (List.mem_of_mem_take hx))

theorem BlockPerm_id : BlockPerm (fun b => b) :=
  ⟨fun _ h => h, fun _ _ _ _ h => h, fun c hc => ⟨c, hc, rfl⟩⟩

theorem mainRound_perm (e : List Nat) (he : ∀ x ∈ e, x < 256) (r : Nat) :
    BlockPerm (fun st =>
      AddRoundKey (MixColumns (ShiftRows (SubBytes st sboxTable))) (roundKey e r)) := by
  have h1 := BlockPerm_comp (fun b => SubBytes b sboxTable) ShiftRows SubBytes_perm
    ShiftRows_perm
  have h2 := BlockPerm_comp (fun b => ShiftRows (SubBytes b sboxTable)) MixColumns h1
    MixColumns_perm
  exact BlockPerm_comp (fun b => MixColumns (ShiftRows (SubBytes b sboxTable)))
    (fun b => AddRoundKey b (roundKey e r)) h2
    (AddRoundKey_perm (roundKey e r) (roundKey_bytes e he r))

theorem mainRounds_perm (e : List Nat) (he : ∀ x ∈ e, x < 256) (l : List Nat) :
    BlockPerm (fun st => l.foldl (fun state round =>
      AddRoundKey (MixColumns (ShiftRows (SubBytes state sboxTable))) (roundKey e round)) st) := by
  induction l with
  | nil => exact BlockPerm_id
  | cons r l ih =>
    simp only [List.foldl_cons]
    exact BlockPerm_comp
      (fun st => AddRoundKey (MixColumns (ShiftRows (SubBytes st sboxTable))) (roundKey e r))
      (fun st => l.foldl (fun state round =>
        AddRoundKey (MixColumns (ShiftRows (SubBytes state sboxTable))) (roundKey e round)) st)
      (mainRound_perm e he r) ih

theorem EncryptSpec_perm (e : List Nat) (he : ∀ x ∈ e, x < 256) :
    BlockPerm (fun b => EncryptSpec b e sboxTable) := by
  have h0 := AddRoundKey_perm (roundKey e 0) (roundKey_bytes e he 0)
  have h1 := BlockPerm_comp (fun b => AddRoundKey b (roundKey e 0))
    (fun st => [1, 2, 3, 4, 5, 6, 7, 8, 9].foldl (fun state round =>
      AddRoundKey (MixColumns (ShiftRows (SubBytes state sboxTable))) (roundKey e round)) st)
    h0 (mainRounds_perm e he [1, 2, 3, 4, 5, 6, 7, 8, 9])
  have h2 := BlockPerm_comp _ (fun b => SubBytes b sboxTable) h1 SubBytes_perm
  have h3 := BlockPerm_comp _ ShiftRows h2 ShiftRows_perm
  have h4 := BlockPerm_comp _ (fun b => AddRoundKey b (roundKey e 10)) h3
    (AddRoundKey_perm (roundKey e 10) (roundKey_bytes e he 10))
  simp only [EncryptSpec]
  exact h4

/-- C18: with the S-box produced by `InitializeSbox`, for every 176-byte
schedule `e`, `Encrypt` maps 16-byte blocks to 16-byte blocks, is injective on
them (`Encrypt(b1) = Encrypt(b2)` implies `b1 = b2`) and reaches every 16-byte
block, so it is a bijection on the blocks. -/
theorem Encrypt_injective (s0 c0 e : List Nat) (hs0 : s0.length = 256) (hc0 : c0.length = 16)
    (he : IsBytes 176 e) :
    ∃ s, InitializeSbox s0 = some s ∧
      (∀ b1 b2, IsBytes 16 b1 → IsBytes 16 b2 →
        (Encrypt b1 c0 e s).2 = (Encrypt b2 c0 e s).2 → b1 = b2) ∧
      (∀ b, IsBytes 16 b → IsBytes 16 (Encrypt b c0 e s).2) ∧
      (∀ c, IsBytes 16 c → ∃ b, IsBytes 16 b ∧ (Encrypt b c0 e s).2 = c) := by
  obtain ⟨p1, p2, p3⟩ := EncryptSpec_perm e he.2
  refine ⟨sboxTable, InitializeSbox_eq_sboxTable s0 hs0, ?_, ?_, ?_⟩
  · intro b1 b2 h1 h2 h
    rw [Encrypt_snd b1 c0 e sboxTable h1.1 hc0, Encrypt_snd b2 c0 e sboxTable h2.1 hc0] at h
    exact p2 b1 b2 h1 h2 h
  · intro b hb
    rw [Encrypt_snd b c0 e sboxTable hb.1 hc0]
    exact p1 b hb
  · intro c hc
    obtain ⟨b, hb, h⟩ := p3 c hc
    exact ⟨b, hb, by rw [Encrypt_snd b c0 e sboxTable hb.1 hc0]; exact h⟩

/-- Witness of C18 at the FIPS-197 schedule, the arrays zero-filled before the
calls. -/
theorem Encrypt_injective_witness :
    ∃ s, InitializeSbox (List.replicate 256 0) = some s ∧
      (∀ b1 b2, IsBytes 16 b1 → IsBytes 16 b2 →
        (Encrypt b1 (List.replicate 16 0) fipsSchedule s).2 =
          (Encrypt b2 (List.replicate 16 0) fipsSchedule s).2 → b1 = b2) ∧
      (∀ b, IsBytes 16 b → IsBytes 16 (Encrypt b (List.replicate 16 0) fipsSchedule s).2) ∧
      (∀ c, IsBytes 16 c →
        ∃ b, IsBytes 16 b ∧ (Encrypt b (List.replicate 16 0) fipsSchedule s).2 = c) :=
  Encrypt_injective (List.replicate 256 0) (List.replicate 16 0) fipsSchedule
    (List.length_replicate 256 0) (List.length_replicate 16 0) fipsSchedule_isBytes

/-- C19: for every 16-byte state, four applications of `MixColumns` return the
state; `MixColumns` maps 16-byte states to 16-byte states, so three
applications undo one, and it is injective on them. -/
theorem MixColumns_order_four (state : List Nat) (h : IsBytes 16 state) :
    MixColumns (MixColumns (MixColumns (MixColumns state))) = state ∧
    IsBytes 16 (MixColumns state) ∧
    IsBytes 16 (MixColumns (MixColumns (MixColumns state))) ∧
    (∀ other, IsBytes 16 other → MixColumns state = MixColumns other → state = other) := by
  refine ⟨MixColumns_four state h, MixColumns_bytes state h,
    MixColumns_bytes _ (MixColumns_bytes _ (MixColumns_bytes state h)), ?_⟩
  intro other ho heq
  rw [← MixColumns_four state h, ← MixColumns_four other ho, heq]

/-- Witness of C19 at the state `0x00, 0x11, ..., 0xff`. -/
theorem MixColumns_order_four_witness :
    MixColumns (MixColumns (MixColumns (MixColumns fipsBlock))) = fipsBlock :=
  (MixColumns_order_four fipsBlock (by decide)).1

end AES
